import Mathlib

/-!
# Verification of the clinical workflow agent

A shallow embedding of `clinical_agent` (agent.py, gemini_client.py,
schemas.py, tools.py, sandbox/api.py) in Lean 4, together with theorems
settling the frozen claims about the specification.

Modelling conventions:

* Python `str` is Lean `String`; string algorithms (strip/lower/substring
  search) are re-implemented over `String.data` so that they are fully
  executable and amenable to proof.
* `datetime` and `date` values are modelled as integers on an abstract
  UTC timeline (a `datetime` is a tick count, a `date` is a day count,
  `dateOfDt` projects one onto the other).  The ISO textual form of such
  a value is its decimal representation, so `fromisoformat` is integer
  parsing.  This models the boundary behaviour of the Python `datetime`
  library without re-implementing calendar arithmetic, which none of the
  claims depend on.
* The CSV-backed sandbox store is modelled as in-memory lists of typed
  rows; reading and writing CSV files becomes reading and updating those
  lists.  Fields that the Python code keeps as raw CSV text and compares
  textually (for example the `available` column, compared against the
  string "true") stay `String` in the model.
* The audit sink is modelled by the list of event names emitted, in
  order; payloads are not modelled (no claim inspects them).
* Exceptions are modelled with `Except`; the exception class matters
  (the run loop catches `ValueError`/`ValidationError` but not
  `RuntimeError`), so errors carry an `ExcKind`.
-/

/-! ## Python string primitives -/

/-- Python `\s` / `str.strip` whitespace set (ASCII fragment). -/
def pyIsSpace (c : Char) : Bool :=
  c = ' ' || c = '\t' || c = '\n' || c = '\x0d' || c = '\x0b' || c = '\x0c'

/-- `str.strip()` over a character list. -/
def stripList (l : List Char) : List Char :=
  ((l.dropWhile pyIsSpace).reverse.dropWhile pyIsSpace).reverse

/-- Python `str.strip()` (no argument: strips whitespace at both ends). -/
def pyStrip (s : String) : String := ⟨stripList s.data⟩

/-- `str.strip(chars)` over a character list: strips members of `set` at both ends. -/
def stripSetList (set : List Char) (l : List Char) : List Char :=
  ((l.dropWhile (set.contains ·)).reverse.dropWhile (set.contains ·)).reverse

/-- Python `str.strip(chars)`. -/
def pyStripSet (set : String) (s : String) : String := ⟨stripSetList set.data s.data⟩

/-- Python `str.lower()` (ASCII fragment). -/
def pyLower (s : String) : String := ⟨s.data.map Char.toLower⟩

/-- Contiguous-substring test over lists (scan every suffix). -/
def subListAt (needle : List Char) : List Char → Bool
  | [] => needle.isEmpty
  | c :: rest => needle.isPrefixOf (c :: rest) || subListAt needle rest

/-- Python `needle in hay` on strings: contiguous substring test. -/
def pyIn (needle hay : String) : Bool := subListAt needle.data hay.data

/-- Python `hay.startswith(pre)`. -/
def pyStartsWith (pre s : String) : Bool := pre.data.isPrefixOf s.data

/-- `str.replace(pat, "", 1)` over lists: remove the first occurrence of `pat`. -/
def removeFirstList (pat : List Char) : List Char → List Char
  | [] => []
  | c :: rest =>
    if pat.isPrefixOf (c :: rest) then (c :: rest).drop pat.length
    else c :: removeFirstList pat rest

/-- Python `s.replace(pat, "", 1)`. -/
def pyRemoveFirst (pat s : String) : String := ⟨removeFirstList pat.data s.data⟩

/-! ## Safety gate (`_MEDICAL_ADVICE_RE` / `_is_medical_advice_request`) -/

/-- One token of a safety-vocabulary pattern: a literal word, or a whitespace
gap (`\s+` when `req` is true, `\s*` otherwise), mirroring the phrase
alternatives of `_MEDICAL_ADVICE_RE`. -/
inductive GatePat
  | lit (s : String)
  | gap (req : Bool)

/-- The full expansion of the alternation in `_MEDICAL_ADVICE_RE`
(each `(?:...)?'` optional group expanded into its finitely many literal
alternatives, lower-cased since the regex is case-insensitive). -/
def medicalVocabulary : List (List GatePat) :=
  [ [.lit "diagnos"], [.lit "diagnosis"], [.lit "diagnose"], [.lit "diagnosing"]
  , [.lit "treat"], [.lit "treatment"], [.lit "treating"]
  , [.lit "prescribe"], [.lit "prescribing"], [.lit "prescribed"], [.lit "prescription"]
  , [.lit "rx"]
  , [.lit "medicine"], [.lit "medication"]
  , [.lit "drug"], [.lit "drugs"], [.lit "pill"], [.lit "pills"]
  , [.lit "antibiotic"], [.lit "antibiotics"]
  , [.lit "dose"], [.lit "dosage"]
  , [.lit "side", .gap false, .lit "effect"], [.lit "side", .gap false, .lit "effects"]
  , [.lit "contraindication"], [.lit "contraindications"]
  , [.lit "what", .gap true, .lit "should", .gap true, .lit "i", .gap true, .lit "do"]
  , [.lit "should", .gap true, .lit "i", .gap true, .lit "take"] ]

/-- Python regex `\w` (ASCII fragment): letters, digits, underscore. -/
def isWordChar (c : Char) : Bool := c.isAlphanum || c = '_'

/-- Match a pattern at the front of `l`, returning the rest on success.
Whitespace gaps are consumed greedily, which is equivalent to the regex
semantics here because every gap is followed by a literal starting with a
letter. -/
def matchPat : List GatePat → List Char → Option (List Char)
  | [], l => some l
  | .lit s :: ps, l =>
    if s.data.isPrefixOf l then matchPat ps (l.drop s.data.length) else none
  | .gap req :: ps, l =>
    let ws := l.takeWhile pyIsSpace
    if req && ws.isEmpty then none else matchPat ps (l.dropWhile pyIsSpace)

/-- `\b pattern \b` matches starting exactly at the front of `l`, where
`prev` is the character before `l` (none at the start of the text). -/
def matchPatBounded (p : List GatePat) (prev : Option Char) (l : List Char) : Bool :=
  (match prev with | none => true | some c => !isWordChar c) &&
    match matchPat p l with
    | none => false
    | some rest =>
      match rest with
      | [] => true
      | c :: _ => !isWordChar c

/-- Scan every position of the (lower-cased) text for a vocabulary match. -/
def gateScan (prev : Option Char) : List Char → Bool
  | [] => medicalVocabulary.any (fun p => matchPatBounded p prev [])
  | c :: rest =>
    medicalVocabulary.any (fun p => matchPatBounded p prev (c :: rest)) ||
      gateScan (some c) rest

/-- `_is_medical_advice_request`: case-insensitive search for the safety
vocabulary with word boundaries. -/
def isMedicalAdviceRequest (text : String) : Bool :=
  gateScan none (pyLower text).data

/-! ## Values (`dict[str, Any]` / JSON payloads / `_safe_dump` output) -/

/-- A Python value as it circulates through the agent: JSON scalars and
containers, plus the `datetime`/`date` objects that appear in tool results
(`model_dump` keeps them as objects).  Floats never occur in this code. -/
inductive Val where
  | null : Val
  | bool (b : Bool) : Val
  | int (n : Int) : Val
  | str (s : String) : Val
  | dt (t : Int) : Val
  | date (d : Int) : Val
  | arr (xs : List Val) : Val
  | obj (kvs : List (String × Val)) : Val
deriving Repr

/-- Python `d.get(k)` over an association list. -/
def getKey (kvs : List (String × Val)) (k : String) : Option Val :=
  (kvs.find? (fun p => p.1 = k)).map (·.2)

/-- Python `d[k] = v`: replace in place if the key exists, else append. -/
def setKey : List (String × Val) → String → Val → List (String × Val)
  | [], k, v => [(k, v)]
  | (k', v') :: rest, k, v =>
    if k' = k then (k, v) :: rest else (k', v') :: setKey rest k v

/-- Python `d.setdefault(k, v)`. -/
def setDefault (kvs : List (String × Val)) (k : String) (v : Val) : List (String × Val) :=
  if (getKey kvs k).isSome then kvs else kvs ++ [(k, v)]

/-! ## JSON text (Python `json` module, on the fragment this program uses)

`jsonDumps` is the canonical JSON serialization of a `Val` (it fails on
the non-JSON `datetime`/`date` objects, as `json.dumps` raises on them);
`jsonLoads` parses a string into a `Val` (floats are outside the model).
Strings are emitted with `"`/`\` escaped and control characters as
`\u00XX`, which is a valid JSON encoding accepted by `json.loads`. -/

def decDigitCharPre : Nat → Char
  | 0 => '0' | 1 => '1' | 2 => '2' | 3 => '3' | 4 => '4' | 5 => '5' | 6 => '6'
  | 7 => '7' | 8 => '8' | _ => '9'

def hexDigitChar (n : Nat) : Char :=
  if n < 10 then decDigitCharPre n
  else if n = 10 then 'a'
  else if n = 11 then 'b'
  else if n = 12 then 'c'
  else if n = 13 then 'd'
  else if n = 14 then 'e'
  else if n = 15 then 'f'
  else '0'

def hexVal (c : Char) : Option Nat :=
  if '0' ≤ c && c ≤ '9' then some (c.toNat - 48)
  else if 'a' ≤ c && c ≤ 'f' then some (c.toNat - 87)
  else if 'A' ≤ c && c ≤ 'F' then some (c.toNat - 55)
  else none

def decDigitChar (n : Nat) : Char := decDigitCharPre n

def decDigitVal (c : Char) : Nat := c.toNat - 48

def isDecDigit (c : Char) : Bool := '0' ≤ c && c ≤ '9'

/-- Decimal digits of a natural number, most significant first. -/
def natDigits (n : Nat) : List Char :=
  if _h : n < 10 then [decDigitChar n]
  else natDigits (n / 10) ++ [decDigitChar (n % 10)]
  decreasing_by exact Nat.div_lt_self (by omega) (by omega)

/-- Decimal text of an integer, as `json.dumps` emits it. -/
def intChars (n : Int) : List Char :=
  if n < 0 then '-' :: natDigits n.natAbs else natDigits n.natAbs

/-- Serialization of one string character. -/
def escChar (c : Char) : List Char :=
  if c = '"' then ['\\', '"']
  else if c = '\\' then ['\\', '\\']
  else if c.toNat < 32 then
    ['\\', 'u', '0', '0', hexDigitChar (c.toNat / 16), hexDigitChar (c.toNat % 16)]
  else [c]

/-- Serialization of a JSON string literal, quotes included. -/
def quoteChars (s : String) : List Char :=
  '"' :: (s.data.map escChar).flatten ++ ['"']

mutual

/-- JSON serialization of a value (`none` on non-JSON `datetime`/`date`,
where `json.dumps` raises `TypeError`). -/
def dumpVal : Val → Option (List Char)
  | .null => some ['n', 'u', 'l', 'l']
  | .bool true => some ['t', 'r', 'u', 'e']
  | .bool false => some ['f', 'a', 'l', 's', 'e']
  | .int n => some (intChars n)
  | .str s => some (quoteChars s)
  | .dt _ => none
  | .date _ => none
  | .arr xs => (dumpElems xs).map (fun body => '[' :: body ++ [']'])
  | .obj kvs => (dumpMembers kvs).map (fun body => '\x7b' :: body ++ ['\x7d'])

/-- Comma-joined serializations of array elements. -/
def dumpElems : List Val → Option (List Char)
  | [] => some []
  | [v] => dumpVal v
  | v :: w :: rest => do
    let d ← dumpVal v
    let ds ← dumpElems (w :: rest)
    pure (d ++ ',' :: ' ' :: ds)

/-- Comma-joined serializations of object members. -/
def dumpMembers : List (String × Val) → Option (List Char)
  | [] => some []
  | [(k, v)] => (dumpVal v).map (fun d => quoteChars k ++ ':' :: ' ' :: d)
  | (k, v) :: m :: rest => do
    let d ← dumpVal v
    let ds ← dumpMembers (m :: rest)
    pure (quoteChars k ++ ':' :: ' ' :: d ++ ',' :: ' ' :: ds)

end

/-- The whitespace `json.loads` skips between tokens. -/
def jsonWs (c : Char) : Bool := c = ' ' || c = '\t' || c = '\n' || c = '\x0d'

def jsonSkipWs (l : List Char) : List Char := l.dropWhile jsonWs

/-- Body of a JSON string literal after the opening quote: returns the
decoded characters and the input after the closing quote. -/
def parseStrBody : Nat → List Char → Option (List Char × List Char)
  | 0, _ => none
  | _ + 1, [] => none
  | fuel + 1, c :: rest =>
    if c = '"' then some ([], rest)
    else if c = '\\' then
      match rest with
      | [] => none
      | e :: rest' =>
        if e = 'u' then
          match rest' with
          | h1 :: h2 :: h3 :: h4 :: rest'' => do
            let a ← hexVal h1
            let b ← hexVal h2
            let cc ← hexVal h3
            let d ← hexVal h4
            let code := ((a * 16 + b) * 16 + cc) * 16 + d
            if code < 0xd800 then
              (parseStrBody fuel rest'').map (fun (s, r) => (Char.ofNat code :: s, r))
            else none
          | _ => none
        else do
          let decoded ←
            if e = '"' then some '"'
            else if e = '\\' then some '\\'
            else if e = '/' then some '/'
            else if e = 'b' then some '\x08'
            else if e = 'f' then some '\x0c'
            else if e = 'n' then some '\n'
            else if e = 'r' then some '\x0d'
            else if e = 't' then some '\t'
            else none
          (parseStrBody fuel rest').map (fun (s, r) => (decoded :: s, r))
    else if c.toNat < 32 then none
    else (parseStrBody fuel rest).map (fun (s, r) => (c :: s, r))

/-- Digits of an integer literal after the optional sign. -/
def parseNatChars (l : List Char) : Option (Nat × List Char) :=
  let digits := l.takeWhile isDecDigit
  let rest := l.dropWhile isDecDigit
  if digits.isEmpty then none
  else
    match rest with
    | c :: _ => if c = '.' || c = 'e' || c = 'E' then none
                else some (digits.foldl (fun a c => 10 * a + decDigitVal c) 0, rest)
    | [] => some (digits.foldl (fun a c => 10 * a + decDigitVal c) 0, rest)

mutual

/-- Parse one JSON value (floats are outside the model and fail). -/
def parseVal : Nat → List Char → Option (Val × List Char)
  | 0, _ => none
  | fuel + 1, l =>
    match jsonSkipWs l with
    | [] => none
    | c :: rest =>
      if c = '\x7b' then
        match jsonSkipWs rest with
        | '\x7d' :: rest' => some (.obj [], rest')
        | l' => (parseMembers fuel l').map (fun (kvs, r) =>
            (.obj (kvs.foldl (fun acc p => setKey acc p.1 p.2) []), r))
      else if c = '[' then
        match jsonSkipWs rest with
        | ']' :: rest' => some (.arr [], rest')
        | l' => (parseElems fuel l').map (fun (xs, r) => (.arr xs, r))
      else if c = '"' then
        (parseStrBody (rest.length + 1) rest).map (fun (s, r) => (.str ⟨s⟩, r))
      else if c = 't' then
        if ['r', 'u', 'e'].isPrefixOf rest then some (.bool true, rest.drop 3) else none
      else if c = 'f' then
        if ['a', 'l', 's', 'e'].isPrefixOf rest then some (.bool false, rest.drop 4) else none
      else if c = 'n' then
        if ['u', 'l', 'l'].isPrefixOf rest then some (.null, rest.drop 3) else none
      else if c = '-' then
        (parseNatChars rest).map (fun (n, r) => (.int (-(n : Int)), r))
      else if isDecDigit c then
        (parseNatChars (c :: rest)).map (fun (n, r) => (.int (n : Int), r))
      else none

/-- Parse `v (, v)* ]` (the non-empty tail of an array). -/
def parseElems : Nat → List Char → Option (List Val × List Char)
  | 0, _ => none
  | fuel + 1, l => do
    let (v, r) ← parseVal fuel l
    match jsonSkipWs r with
    | ',' :: r' => (parseElems fuel r').map (fun (xs, r'') => (v :: xs, r''))
    | ']' :: r' => some ([v], r')
    | _ => none

/-- Parse `"k": v (, "k": v)* }` (the non-empty tail of an object). -/
def parseMembers : Nat → List Char → Option (List (String × Val) × List Char)
  | 0, _ => none
  | fuel + 1, l =>
    match l with
    | '"' :: kl => do
      let (k, r) ← parseStrBody (kl.length + 1) kl
      match jsonSkipWs r with
      | ':' :: r' => do
        let (v, r'') ← parseVal fuel r'
        match jsonSkipWs r'' with
        | ',' :: r3 =>
          (parseMembers fuel (jsonSkipWs r3)).map (fun (kvs, r4) => ((⟨k⟩, v) :: kvs, r4))
        | '\x7d' :: r3 => some ([(⟨k⟩, v)], r3)
        | _ => none
      | _ => none
    | _ => none

end

/-- Python `json.loads` on the fragment this program exercises: the whole
text must be one value plus trailing whitespace. -/
def jsonLoads (s : String) : Option Val :=
  match parseVal (s.data.length + 1) s.data with
  | some (v, rest) => if (jsonSkipWs rest).isEmpty then some v else none
  | none => none

/-! ## `extract_first_json_object` (gemini_client.py) -/

/-- The brace-balancing scan of `extract_first_json_object`: starting at the
first `{`, return the span up to the brace that brings the depth back to
zero (string contents are *not* treated specially — braces inside string
literals are counted, exactly as in the source). -/
def braceScan : List Char → Int → Option (List Char)
  | [], _ => none
  | c :: cs, depth =>
    if c = '\x7b' then (braceScan cs (depth + 1)).map (c :: ·)
    else if c = '\x7d' then
      if depth = 1 then some [c]
      else (braceScan cs (depth - 1)).map (c :: ·)
    else (braceScan cs depth).map (c :: ·)

/-- `extract_first_json_object`: best-effort extraction of the first JSON
object from model output (strips a fenced-code wrapper, finds the first
balanced `{...}` span, and `json.loads`s it; any failure gives `none`). -/
def extractFirstJsonObject (text : String) : Option Val :=
  if text.data.isEmpty then none
  else
    let cleaned := pyStrip text
    let cleaned :=
      if pyStartsWith "```" cleaned then
        pyStrip (pyRemoveFirst "json\n" (pyStripSet "`" cleaned))
      else cleaned
    match cleaned.data.dropWhile (fun c => c ≠ '\x7b') with
    | [] => none
    | l =>
      match braceScan l 0 with
      | none => none
      | some candidate => jsonLoads ⟨candidate⟩

/-! ## Domain schemas (schemas.py) -/

/-- `Patient` (dates as modelled integers, see header). -/
structure Patient where
  id : String
  name : String
  dob : Option Int := none
  phone : Option String := none
deriving Repr, DecidableEq

/-- `InsuranceEligibility` (`status` is kept as text with the literal-set
invariant maintained by construction). -/
structure InsuranceEligibility where
  id : String
  patient_id : String
  as_of : Int
  payer : String
  member_id : String
  status : String
deriving Repr, DecidableEq

/-- `Slot`. -/
structure Slot where
  id : String
  specialty : String
  provider_id : String
  provider_name : String
  location : String
  start : Int
  «end» : Int
  available : Bool
deriving Repr, DecidableEq

/-- `Appointment`. -/
structure Appointment where
  id : String
  status : String
  patient_id : String
  patient_name : String
  provider_id : String
  provider_name : String
  slot_id : String
  specialty : String
  start : Int
  «end» : Int
  reason : String
  created_at : Int
deriving Repr, DecidableEq

/-- `ToolCall`: tool name plus raw argument mapping. -/
structure ToolCall where
  name : String
  arguments : List (String × Val)
deriving Repr

/-- `AgentPlan`: the single-shot plan produced by the LLM.  `type` is the
`Literal["plan","refusal"]` discriminator kept as text. -/
structure AgentPlan where
  type : String
  tool_calls : List ToolCall := []
  reason : Option String := none
deriving Repr

/-- One execution-trace entry: `{"tool", "arguments", "result"}`. -/
structure TraceEntry where
  tool : String
  arguments : List (String × Val)
  result : Val
deriving Repr

/-- `AgentResponse`. -/
structure AgentResponse where
  status : String
  session_id : String
  dry_run : Bool
  request : String
  refusal_reason : Option String := none
  patient : Option Patient := none
  insurance_eligibility : Option InsuranceEligibility := none
  appointment : Option Appointment := none
  tool_trace : List TraceEntry := []
deriving Repr

/-! ### `model_dump` / `_safe_dump` of the domain models -/

def dumpPatient (p : Patient) : Val :=
  .obj [("resourceType", .str "Patient"), ("id", .str p.id), ("name", .str p.name),
        ("dob", match p.dob with | none => .null | some d => .date d),
        ("phone", match p.phone with | none => .null | some s => .str s)]

def dumpEligibility (e : InsuranceEligibility) : Val :=
  .obj [("resourceType", .str "CoverageEligibilityResponse"), ("id", .str e.id),
        ("patient_id", .str e.patient_id), ("as_of", .date e.as_of),
        ("payer", .str e.payer), ("member_id", .str e.member_id), ("status", .str e.status)]

def dumpSlot (s : Slot) : Val :=
  .obj [("resourceType", .str "Slot"), ("id", .str s.id), ("specialty", .str s.specialty),
        ("provider_id", .str s.provider_id), ("provider_name", .str s.provider_name),
        ("location", .str s.location), ("start", .dt s.start), ("end", .dt s.«end»),
        ("available", .bool s.available)]

def dumpAppointment (a : Appointment) : Val :=
  .obj [("resourceType", .str "Appointment"), ("id", .str a.id), ("status", .str a.status),
        ("patient_id", .str a.patient_id), ("patient_name", .str a.patient_name),
        ("provider_id", .str a.provider_id), ("provider_name", .str a.provider_name),
        ("slot_id", .str a.slot_id), ("specialty", .str a.specialty),
        ("start", .dt a.start), ("end", .dt a.«end»), ("reason", .str a.reason),
        ("created_at", .dt a.created_at)]

/-! ## Plan schema validation (pydantic `model_validate` of `AgentPlan`) -/

/-- `extra="forbid"`: every supplied key must be declared. -/
def keysAllowed (kvs : List (String × Val)) (allowed : List String) : Bool :=
  kvs.all (fun p => allowed.contains p.1)

/-- `ToolCall.model_validate`: closed key set, `name` a string, `arguments`
a mapping. -/
def toolCallValidate (v : Val) : Option ToolCall :=
  match v with
  | .obj kvs =>
    if keysAllowed kvs ["name", "arguments"] then
      match getKey kvs "name", getKey kvs "arguments" with
      | some (.str n), some (.obj args) => some ⟨n, args⟩
      | _, _ => none
    else none
  | _ => none

def toolCallsValidate : List Val → Option (List ToolCall)
  | [] => some []
  | v :: vs => do
    let tc ← toolCallValidate v
    let tcs ← toolCallsValidate vs
    pure (tc :: tcs)

/-- `AgentPlan.model_validate`: closed key set, `type` one of the two
literals, optional `tool_calls` list and `reason`, then the model
validator (`plan` needs calls, `refusal` needs a truthy reason). -/
def agentPlanValidate (v : Val) : Option AgentPlan :=
  match v with
  | .obj kvs =>
    if keysAllowed kvs ["type", "tool_calls", "reason"] then
      match getKey kvs "type" with
      | some (.str t) =>
        if t = "plan" || t = "refusal" then
          let tcs? : Option (List ToolCall) :=
            match getKey kvs "tool_calls" with
            | none => some []
            | some (.arr xs) => toolCallsValidate xs
            | some _ => none
          let rsn? : Option (Option String) :=
            match getKey kvs "reason" with
            | none => some none
            | some .null => some none
            | some (.str r) => some (some r)
            | some _ => none
          match tcs?, rsn? with
          | some tcs, some rsn =>
            if t = "plan" && tcs.isEmpty then none
            else if t = "refusal" && (rsn.getD "").isEmpty then none
            else some ⟨t, tcs, rsn⟩
          | _, _ => none
        else none
      | _ => none
    else none
  | _ => none

/-! ## Plan acquisition (`ClinicalWorkflowAgent._plan_once`)

The Gemini network client is the external planner collaborator; `run` below
is therefore parameterised by the raw text it returned. -/

def planRefusalNonJson : AgentPlan :=
  ⟨"refusal", [], some "Planner returned non-JSON output; cannot proceed safely."⟩

def planRefusalSchema : AgentPlan :=
  ⟨"refusal", [], some "Planner output failed schema validation; cannot proceed safely."⟩

/-- `_plan_once`, after the raw planner text is in hand: extract the first
JSON object, require a mapping, validate the plan schema; each failure
degrades to the corresponding fixed refusal plan. -/
def planOnce (raw : String) : AgentPlan :=
  match extractFirstJsonObject raw with
  | none => planRefusalNonJson
  | some v =>
    match v with
    | .obj kvs =>
      match agentPlanValidate (.obj kvs) with
      | some p => p
      | none => planRefusalSchema
    | _ => planRefusalNonJson

/-! ## Sandbox record store (sandbox/api.py)

The CSV files become in-memory row lists; timestamps are already parsed
(see header).  `available` stays textual because the source compares it
against the string "true". -/

structure PatientRow where
  patient_id : String
  name : String
  dob : Option Int := none
  phone : Option String := none
deriving Repr, DecidableEq

structure InsuranceRow where
  patient_id : String
  payer : String
  member_id : String
  status : String
deriving Repr, DecidableEq

structure ProviderRow where
  provider_id : String
  name : String
deriving Repr, DecidableEq

structure SlotRow where
  slot_id : String
  provider_id : String
  specialty : String
  start_time : Int
  end_time : Int
  location : String
  available : String
deriving Repr, DecidableEq

structure ApptRow where
  appointment_id : String
  patient_id : String
  provider_id : String
  slot_id : String
  specialty : String
  start_time : Int
  end_time : Int
  reason : String
  status : String
  created_at : Int
deriving Repr, DecidableEq

/-- The sandbox data directory as one value. -/
structure Store where
  patients : List PatientRow
  insurance : List InsuranceRow
  providers : List ProviderRow
  slots : List SlotRow
  appointments : List ApptRow
deriving Repr, DecidableEq

/-- `date()` of a modelled `datetime` (day-granularity projection). -/
def dateOfDt (t : Int) : Int := Int.fdiv t 86400

/-- Decimal "ISO" text of a modelled date (see header). -/
def dateIso (d : Int) : String := ⟨intChars d⟩

/-- `SandboxAPI.get_patient_by_id`. -/
def getPatientById (store : Store) (patient_id : String) : Option Patient :=
  (store.patients.find? (fun r => r.patient_id = patient_id)).map
    (fun r => ⟨r.patient_id, pyStrip r.name, r.dob, r.phone⟩)

/-- `SandboxAPI.search_patient`: case-insensitive name-substring match. -/
def searchPatient (store : Store) (name_query : String) : List Patient :=
  let q := pyLower (pyStrip name_query)
  store.patients.filterMap (fun r =>
    let name := pyStrip r.name
    if pyIn q (pyLower name) then some ⟨r.patient_id, name, r.dob, r.phone⟩ else none)

/-- `SandboxAPI.check_insurance_eligibility`: always produces a value,
falling back to "unknown" fields when the row is missing or malformed. -/
def checkInsuranceEligibility (store : Store) (patient_id : String) (as_of : Int) :
    InsuranceEligibility :=
  let eid := "elig-" ++ patient_id ++ "-" ++ dateIso as_of
  match store.insurance.find? (fun r => r.patient_id = patient_id) with
  | none => ⟨eid, patient_id, as_of, "unknown", "unknown", "unknown"⟩
  | some row =>
    let s := pyLower (pyStrip (if row.status = "" then "unknown" else row.status))
    let status := if s = "active" || s = "inactive" || s = "unknown" then s else "unknown"
    ⟨eid, patient_id, as_of,
     (if row.payer = "" then "unknown" else row.payer),
     (if row.member_id = "" then "unknown" else row.member_id), status⟩

/-- The `{r["provider_id"]: r}` comprehension: later rows win. -/
def providerDisplayName (provs : List ProviderRow) (pid : String) : String :=
  match provs.reverse.find? (fun r => r.provider_id = pid) with
  | some r => if r.name = "" then "Unknown" else r.name
  | none => "Unknown"

/-- Stable insertion into a sorted list: the new element goes after every
element whose key is `≤` its own, as Python's stable `sorted` orders ties. -/
def insertSorted (le : α → α → Bool) (x : α) : List α → List α
  | [] => [x]
  | y :: ys => if le y x then y :: insertSorted le x ys else x :: y :: ys

/-- Python `sorted(l, key=...)`: stable ascending sort. -/
def pySorted (le : α → α → Bool) (l : List α) : List α :=
  l.foldl (fun acc x => insertSorted le x acc) []

/-- `SandboxAPI.find_available_slots`: filter by specialty, textual
availability and date range, then sort ascending by start time. -/
def findAvailableSlots (store : Store) (specialty : String) (start_date end_date : Int) :
    List Slot :=
  let specialty_l := pyLower (pyStrip specialty)
  let slots := store.slots.filterMap (fun row =>
    if pyLower (pyStrip row.specialty) ≠ specialty_l then none
    else if pyLower (pyStrip row.available) ≠ "true" then none
    else if dateOfDt row.start_time < start_date || dateOfDt row.start_time > end_date then none
    else some (Slot.mk row.slot_id row.specialty row.provider_id
      (providerDisplayName store.providers row.provider_id)
      (if row.location = "" then "Main" else row.location)
      row.start_time row.end_time true))
  pySorted (fun a b => a.start ≤ b.start) slots

/-- `SandboxAPI.book_appointment`; the fresh `appt-…` identifier and the
creation timestamp are supplied by the caller (they come from `uuid` and
the wall clock).  In non-dry-run mode the slot rows are rewritten with the
booked slot unavailable and the booking is appended to the ledger. -/
def bookAppointment (store : Store) (patient : Patient) (slot_id reason : String)
    (dry_run : Bool) (apptId : String) (now : Int) : Except String (Appointment × Store) :=
  match store.slots.find? (fun r => r.slot_id = slot_id) with
  | none => .error ("Unknown slot_id: " ++ slot_id)
  | some slot_row =>
    if pyLower (pyStrip slot_row.available) ≠ "true" then
      .error ("Slot not available: " ++ slot_id)
    else
      let appt : Appointment :=
        ⟨apptId, "booked", patient.id, patient.name, slot_row.provider_id,
         providerDisplayName store.providers slot_row.provider_id, slot_row.slot_id,
         slot_row.specialty, slot_row.start_time, slot_row.end_time, reason, now⟩
      if dry_run then .ok (appt, store)
      else
        let slots' := store.slots.map
          (fun r => if r.slot_id = slot_id then { r with available := "false" } else r)
        let appts' := store.appointments ++
          [⟨appt.id, appt.patient_id, appt.provider_id, appt.slot_id, appt.specialty,
            appt.start, appt.«end», appt.reason, appt.status, appt.created_at⟩]
        .ok (appt, { store with slots := slots', appointments := appts' })

/-! ## Tool registry and input validation (tools.py / schemas.py)

Validation mirrors pydantic's default (lax) mode on the types these models
use: strings must be strings, booleans coerce from the usual textual and
0/1 forms, dates accept date objects or ISO text.  Failure messages from
pydantic are library-generated prose; they are modelled by a fixed marker
since no claim inspects their text. -/

structure SearchPatientInput where
  name_query : String
deriving Repr

structure CheckInsuranceEligibilityInput where
  patient_id : String
  as_of : Int
deriving Repr

structure FindAvailableSlotsInput where
  specialty : String
  start_date : Int
  end_date : Int
deriving Repr

structure BookAppointmentInput where
  patient_id : String
  slot_id : String
  reason : String
  dry_run : Bool
deriving Repr

def coerceStr (v : Val) : Option String :=
  match v with
  | .str s => some s
  | _ => none

def coerceBool (v : Val) : Option Bool :=
  match v with
  | .bool b => some b
  | .int 0 => some false
  | .int 1 => some true
  | .str s =>
    let t := pyLower s
    if t = "true" || t = "t" || t = "yes" || t = "y" || t = "on" || t = "1" then some true
    else if t = "false" || t = "f" || t = "no" || t = "n" || t = "off" || t = "0" then some false
    else none
  | _ => none

/-- Modelled `date.fromisoformat`: decimal integer text (see header). -/
def dateFromIso (s : String) : Option Int :=
  let digitsToNat (l : List Char) : Option Nat :=
    if !l.isEmpty && l.all isDecDigit then
      some (l.foldl (fun a c => 10 * a + decDigitVal c) 0)
    else none
  match s.data with
  | '-' :: rest => (digitsToNat rest).map (fun n => -(n : Int))
  | l => (digitsToNat l).map (fun n => (n : Int))

def coerceDate (v : Val) : Option Int :=
  match v with
  | .date d => some d
  | .str s => dateFromIso s
  | _ => none

def validateSearchPatientInput (args : List (String × Val)) : Option SearchPatientInput :=
  if keysAllowed args ["name_query"] then
    match (getKey args "name_query").bind coerceStr with
    | some s => if s.length ≥ 2 then some ⟨s⟩ else none
    | none => none
  else none

def validateCheckInsuranceEligibilityInput (args : List (String × Val)) :
    Option CheckInsuranceEligibilityInput :=
  if keysAllowed args ["patient_id", "as_of"] then
    match (getKey args "patient_id").bind coerceStr, (getKey args "as_of").bind coerceDate with
    | some pid, some asOf => if pid.length ≥ 1 then some ⟨pid, asOf⟩ else none
    | _, _ => none
  else none

def validateFindAvailableSlotsInput (args : List (String × Val)) :
    Option FindAvailableSlotsInput :=
  if keysAllowed args ["specialty", "start_date", "end_date"] then
    match (getKey args "specialty").bind coerceStr, (getKey args "start_date").bind coerceDate,
        (getKey args "end_date").bind coerceDate with
    | some sp, some sd, some ed =>
      if sp.length ≥ 2 && sd ≤ ed then some ⟨sp, sd, ed⟩ else none
    | _, _, _ => none
  else none

def validateBookAppointmentInput (args : List (String × Val)) :
    Option BookAppointmentInput :=
  if keysAllowed args ["patient_id", "slot_id", "reason", "dry_run"] then
    match (getKey args "patient_id").bind coerceStr, (getKey args "slot_id").bind coerceStr,
        (getKey args "reason").bind coerceStr,
        (match getKey args "dry_run" with
         | none => some false
         | some v => coerceBool v) with
    | some pid, some sid, some rsn, some dr =>
      if pid.length ≥ 1 && sid.length ≥ 1 && rsn.length ≥ 2 then some ⟨pid, sid, rsn, dr⟩
      else none
    | _, _, _, _ => none
  else none

/-- Validated arguments, tagged by tool. -/
inductive ToolArgs where
  | search (a : SearchPatientInput)
  | insurance (a : CheckInsuranceEligibilityInput)
  | slots (a : FindAvailableSlotsInput)
  | book (a : BookAppointmentInput)
deriving Repr

/-- The names in `build_tool_registry`. -/
def toolRegistryNames : List String :=
  ["search_patient", "check_insurance_eligibility", "find_available_slots", "book_appointment"]

/-- Dispatch `spec.input_model.model_validate(arguments)` by tool name. -/
def validateToolArgs (name : String) (args : List (String × Val)) : Option ToolArgs :=
  if name = "search_patient" then (validateSearchPatientInput args).map .search
  else if name = "check_insurance_eligibility" then
    (validateCheckInsuranceEligibilityInput args).map .insurance
  else if name = "find_available_slots" then (validateFindAvailableSlotsInput args).map .slots
  else if name = "book_appointment" then (validateBookAppointmentInput args).map .book
  else none

/-- A tool result, as the handlers of `build_tool_registry` return it. -/
inductive ToolResult where
  | patients (ps : List Patient)
  | elig (e : InsuranceEligibility)
  | slots (ss : List Slot)
  | appt (a : Appointment)
deriving Repr

/-- `_safe_dump` of a tool result. -/
def dumpToolResult : ToolResult → Val
  | .patients ps => .arr (ps.map dumpPatient)
  | .elig e => dumpEligibility e
  | .slots ss => .arr (ss.map dumpSlot)
  | .appt a => dumpAppointment a

/-! ## Placeholder resolution (agent.py) -/

/-- `_PLACEHOLDER_RE.match(value.strip())`: the whole (stripped) string is
`<` followed by one or more non-`>` characters followed by `>`. -/
def placeholderShape (s : String) : Bool :=
  let l := s.data
  decide (l.length ≥ 3) && (l.head? = some '<') && (l.getLast? = some '>') &&
    ((l.drop 1).dropLast.all (fun c => c ≠ '>'))

/-- `_looks_like_placeholder`. -/
def looksLikePlaceholder (value : Val) (contains : String) : Bool :=
  match value with
  | .str s => placeholderShape (pyStrip s) && pyIn (pyLower contains) (pyLower s)
  | _ => false

/-- `_last_slots_from_trace`: the record-shaped entries of the most recent
`find_available_slots` result. -/
def lastSlotsFromTrace (trace : List TraceEntry) : List (List (String × Val)) :=
  match trace.reverse.find? (fun step => step.tool = "find_available_slots") with
  | some step =>
    match step.result with
    | .arr xs => xs.filterMap (fun r => match r with | .obj kvs => some kvs | _ => none)
    | _ => []
  | none => []

/-- `_slot_start` inside `_pick_earliest_slot_id`. -/
def slotStart (s : List (String × Val)) : Except String Int :=
  match getKey s "start" with
  | some (.dt t) => .ok t
  | some (.str iso) =>
    match dateFromIso iso with
    | some t => .ok t
    | none => .error ("Invalid isoformat string: " ++ iso)
  | _ => .error "Slot is missing a parseable 'start' field."

/-- Python `min(slots, key=_slot_start)`: first-minimum selection, with the
key function evaluated left to right (its first failure propagates; a later
element replaces the current best only when its key is strictly smaller). -/
def minBySlotStart (best : List (String × Val)) (bestKey : Int) :
    List (List (String × Val)) → Except String (List (String × Val))
  | [] => .ok best
  | s :: rest =>
    match slotStart s with
    | .error e => .error e
    | .ok k => if k < bestKey then minBySlotStart s k rest else minBySlotStart best bestKey rest

/-- `_pick_earliest_slot_id`. -/
def pickEarliestSlotId (slots : List (List (String × Val))) : Except String String :=
  match slots with
  | [] => .error "No available slots to choose from."
  | s :: rest =>
    match slotStart s with
    | .error e => .error e
    | .ok k =>
      match minBySlotStart s k rest with
      | .error e => .error e
      | .ok best =>
        match getKey best "id" with
        | some (.str sid) =>
          if sid.isEmpty then .error "Slot is missing an 'id' field." else .ok sid
        | _ => .error "Slot is missing an 'id' field."

/-- `_resolve_argument_placeholders`. -/
def resolveArgumentPlaceholders (tool_name : String) (arguments : List (String × Val))
    (resolved_patient : Option Patient) (trace : List TraceEntry) :
    Except String (List (String × Val)) := do
  let out := arguments
  let out ←
    if tool_name = "check_insurance_eligibility" || tool_name = "book_appointment" then
      match getKey out "patient_id" with
      | some pid =>
        if looksLikePlaceholder pid "patient" then
          match resolved_patient with
          | none =>
            .error "patient_id is a placeholder but no patient was resolved from search_patient."
          | some p => pure (setKey out "patient_id" (.str p.id))
        else pure out
      | none => pure out
    else pure out
  if tool_name = "book_appointment" then
    match getKey out "slot_id" with
    | some sid =>
      if looksLikePlaceholder sid "slot" then do
        let s ← pickEarliestSlotId (lastSlotsFromTrace trace)
        pure (setKey out "slot_id" (.str s))
      else pure out
    | none => pure out
  else pure out

/-! ## Execution loop (`ClinicalWorkflowAgent.run` / `_execute_tool_call`) -/

/-- The Python exception class of a modelled error: the loop catches
`ValueError` and `ValidationError` but not `RuntimeError`. -/
inductive ExcKind where
  | valErr
  | validationErr
  | runtimeErr
deriving Repr, DecidableEq

structure Exc where
  kind : ExcKind
  msg : String
deriving Repr, DecidableEq

/-- Per-run identifiers and clock readings that the source draws from
`uuid` and the wall clock. -/
structure RunCtx where
  sessionId : String
  now : Int
  apptId : String
deriving Repr, DecidableEq

/-- The mutable state of one run of the execution loop. -/
structure ExecSt where
  trace : List TraceEntry
  patient : Option Patient
  elig : Option InsuranceEligibility
  appt : Option Appointment
  store : Store
deriving Repr

/-- `_execute_tool_call`: returns the audit events it emitted plus either
the updated state or the raised exception (in which case the trace and
resolved entities are unchanged — nothing was appended). -/
def executeToolCall (ctx : RunCtx) (dryRun : Bool) (tc : ToolCall) (s : ExecSt) :
    List String × Except Exc ExecSt :=
  if !toolRegistryNames.contains tc.name then
    (["tool_error"], .error ⟨.runtimeErr, "Unknown tool requested: " ++ tc.name⟩)
  else
    let arguments :=
      if tc.name = "book_appointment" then setDefault tc.arguments "dry_run" (.bool dryRun)
      else tc.arguments
    match resolveArgumentPlaceholders tc.name arguments s.patient s.trace with
    | .error e => ([], .error ⟨.valErr, e⟩)
    | .ok arguments =>
      match validateToolArgs tc.name arguments with
      | none => (["tool_error"], .error ⟨.validationErr, "invalid arguments for " ++ tc.name⟩)
      | some targs =>
        let handled : Except String (ToolResult × Store) :=
          match targs with
          | .search a => .ok (.patients (searchPatient s.store a.name_query), s.store)
          | .insurance a =>
            .ok (.elig (checkInsuranceEligibility s.store a.patient_id a.as_of), s.store)
          | .slots a =>
            .ok (.slots (findAvailableSlots s.store a.specialty a.start_date a.end_date), s.store)
          | .book a =>
            match getPatientById s.store a.patient_id with
            | none => .error ("Unknown patient_id: " ++ a.patient_id)
            | some p =>
              (bookAppointment s.store p a.slot_id a.reason a.dry_run ctx.apptId ctx.now).map
                (fun r => (.appt r.1, r.2))
        match handled with
        | .error e => (["tool_call"], .error ⟨.valErr, e⟩)
        | .ok (result, store') =>
          let rp := if tc.name = "search_patient" then
                      match result with
                      | .patients [p] => some p
                      | _ => s.patient
                    else s.patient
          let el := if tc.name = "check_insurance_eligibility" then
                      match result with
                      | .elig e => some e
                      | _ => s.elig
                    else s.elig
          let ap := if tc.name = "book_appointment" then
                      match result with
                      | .appt a => some a
                      | _ => s.appt
                    else s.appt
          (["tool_call", "tool_result"],
           .ok ⟨s.trace ++ [⟨tc.name, arguments, dumpToolResult result⟩], rp, el, ap, store'⟩)

/-- Outcome of the `for tool_call in plan.tool_calls` loop. -/
inductive LoopOut where
  | done (s : ExecSt) (evs : List String)
  | failed (e : Exc) (s : ExecSt) (evs : List String)
  | escaped (e : Exc) (s : ExecSt) (evs : List String)
deriving Repr

/-- The execution loop: run calls in order; a caught error (`ValueError`/
`ValidationError`) stops with `failed` (the run turns it into a refusal),
an uncaught `RuntimeError` stops with `escaped`, and a produced
appointment breaks out early. -/
def execCalls (ctx : RunCtx) (dryRun : Bool) : List ToolCall → ExecSt → List String → LoopOut
  | [], s, evs => .done s evs
  | tc :: rest, s, evs =>
    match executeToolCall ctx dryRun tc s with
    | (es, .error e) =>
      match e.kind with
      | .runtimeErr => .escaped e s (evs ++ es)
      | _ => .failed e s (evs ++ es ++ ["tool_error"])
    | (es, .ok s') =>
      if s'.appt.isSome then .done s' (evs ++ es)
      else execCalls ctx dryRun rest s' (evs ++ es)

/-- The fixed refusal reason of the safety gate. -/
def medicalRefusalReason : String :=
  "I can’t provide medical advice/diagnosis. Please rephrase as an operational task (scheduling, eligibility checks, follow-ups)."

/-- The refusal reason prefix used when a caught tool error aborts the plan. -/
def invalidArgsReasonHead : String :=
  "Planner produced invalid tool arguments (often placeholders instead of real IDs). Details: "

/-- `ClinicalWorkflowAgent.run`, parameterised by the per-run identifiers
and by the raw text the planner client returned.  The result carries the
response, the final store, and the audit event names in order; the
`Except.error` case is an exception propagating out of `run` uncaught
(with the store and audit trail at the moment it was raised). -/
def run (ctx : RunCtx) (plannerRaw : String) (store : Store) (userRequest : String)
    (dryRun : Bool) : Except (Exc × Store × List String) (AgentResponse × Store × List String) :=
  let audit := ["request_received"]
  if isMedicalAdviceRequest userRequest then
    .ok ({ status := "refused", session_id := ctx.sessionId, dry_run := dryRun,
           request := userRequest, refusal_reason := some medicalRefusalReason },
         store, audit ++ ["refusal"])
  else
    let plan := planOnce plannerRaw
    let audit := audit ++ ["llm_plan"]
    if plan.type = "refusal" then
      .ok ({ status := "refused", session_id := ctx.sessionId, dry_run := dryRun,
             request := userRequest, refusal_reason := plan.reason, tool_trace := [] },
           store, audit)
    else
      match execCalls ctx dryRun plan.tool_calls ⟨[], none, none, none, store⟩ [] with
      | .escaped e s evs => .error (e, s.store, audit ++ evs)
      | .failed e s evs =>
        .ok ({ status := "refused", session_id := ctx.sessionId, dry_run := dryRun,
               request := userRequest,
               refusal_reason := some (invalidArgsReasonHead ++ e.msg),
               patient := s.patient, insurance_eligibility := s.elig, appointment := s.appt,
               tool_trace := s.trace }, s.store, audit ++ evs ++ ["final_response"])
      | .done s evs =>
        let audit := audit ++ evs
        if s.appt.isNone && s.elig.isNone then
          let slotSearches := s.trace.filter (fun t => t.tool = "find_available_slots")
          let noSlots :=
            match slotSearches.getLast? with
            | some entry => match entry.result with | .arr [] => true | _ => false
            | none => false
          if noSlots then
            .ok ({ status := "refused", session_id := ctx.sessionId, dry_run := dryRun,
                   request := userRequest,
                   refusal_reason := some "No available slots found for the requested criteria; unable to book an appointment.",
                   patient := s.patient, tool_trace := s.trace },
                 s.store, audit ++ ["final_response"])
          else
            let searchSteps := s.trace.filter (fun t => t.tool = "search_patient")
            let reason :=
              match searchSteps.getLast? with
              | none => "Unable to complete the workflow safely."
              | some entry =>
                match entry.result with
                | .arr xs =>
                  if xs.isEmpty then "No matching patient found; please provide the full patient name."
                  else if xs.length > 1 then "Multiple patients matched; please provide the full patient name."
                  else "Patient found, but the planner did not complete scheduling. Please retry with a specific date/time (or date range) for the appointment."
                | _ => "Unable to complete the workflow safely."
            .ok ({ status := "refused", session_id := ctx.sessionId, dry_run := dryRun,
                   request := userRequest, refusal_reason := some reason,
                   patient := s.patient, tool_trace := s.trace },
                 s.store, audit ++ ["final_response"])
        else
          .ok ({ status := if s.appt.isSome || s.elig.isSome then "ok" else "error",
                 session_id := ctx.sessionId, dry_run := dryRun, request := userRequest,
                 refusal_reason :=
                   if s.appt.isSome || s.elig.isSome || s.patient.isSome then none
                   else some "No actionable workflow could be completed.",
                 patient := s.patient, insurance_eligibility := s.elig,
                 appointment := s.appt, tool_trace := s.trace },
               s.store, audit ++ ["final_response"])

/-! ## Shared association-list lemmas -/

theorem getKey_setKey_self (m : List (String × Val)) (k : String) (v : Val) :
    getKey (setKey m k v) k = some v := by
  induction m with
  | nil => simp [setKey, getKey]
  | cons p rest ih =>
    by_cases h : p.1 = k
    · simp [setKey, h, getKey]
    · simpa [setKey, h, getKey, List.find?] using ih

theorem getKey_setKey_ne (m : List (String × Val)) (k k' : String) (v : Val)
    (h : k' ≠ k) : getKey (setKey m k v) k' = getKey m k' := by
  induction m with
  | nil => simp [setKey, getKey, List.find?, (Ne.symm h : k ≠ k')]
  | cons p rest ih =>
    by_cases hp : p.1 = k
    · have hp2 : ¬p.1 = k' := fun hh => (Ne.symm h) (hp.symm.trans hh)
      simp [setKey, hp, getKey, List.find?, (Ne.symm h : k ≠ k'), hp2]
    · by_cases hp' : p.1 = k'
      · simp [setKey, hp, getKey, List.find?, hp', h]
      · simpa [setKey, hp, getKey, List.find?, hp'] using ih

theorem getKey_setDefault_absent (m : List (String × Val)) (k : String) (v : Val)
    (h : getKey m k = none) : getKey (setDefault m k v) k = some v := by
  unfold setDefault
  rw [h]
  simp only [Option.isSome_none, Bool.false_eq_true, if_false]
  induction m with
  | nil => simp [getKey]
  | cons p rest ih =>
    by_cases hp : p.1 = k
    · exact absurd h (by simp [getKey, List.find?, hp])
    · have h' : getKey rest k = none := by
        simpa [getKey, List.find?, hp] using h
      simpa [getKey, List.find?, hp] using ih h'

/-! ## Sample data used by the concrete witnesses -/

/-- A small sandbox store: two patients, one provider, two available
cardiology slots (the later one listed first). -/
def sampleStore : Store :=
  { patients := [⟨"p1", " Ravi Kumar ", none, none⟩, ⟨"p2", "Jane Roe", none, none⟩]
  , insurance := [⟨"p1", "Acme", "M1", "active"⟩]
  , providers := [⟨"d1", "Dr A"⟩]
  , slots := [⟨"s1", "d1", "cardiology", 200000, 203600, "", "true"⟩,
              ⟨"s2", "d1", "cardiology", 100000, 103600, "", "true"⟩]
  , appointments := [] }

def sampleCtx : RunCtx := ⟨"sess-1", 999, "appt-1"⟩

/-! ## C1: the safety gate refuses before planning -/

/-- C1: for every request matched by the safety vocabulary, `run` returns a
`refused` response with an empty `tool_trace`; the result is a fixed term
that does not depend on the planner text (so no planning call is consulted),
the store is returned unchanged (no tool handler executes), and the audit
trail is exactly `request_received, refusal` (in particular no `llm_plan`
and no `tool_call` event). -/
theorem safety_gate_refuses_without_planning
    (ctx : RunCtx) (plannerRaw : String) (store : Store) (request : String) (dryRun : Bool)
    (h : isMedicalAdviceRequest request = true) :
    run ctx plannerRaw store request dryRun =
      .ok ({ status := "refused", session_id := ctx.sessionId, dry_run := dryRun,
             request := request, refusal_reason := some medicalRefusalReason },
           store, ["request_received", "refusal"]) := by
  simp [run, h]

/-- Witness for C1 on the spec's Scenario C request. -/
theorem safety_gate_refuses_without_planning_witness :
    isMedicalAdviceRequest "what medication should I take for a headache" = true ∧
    run sampleCtx "\x7b\"type\": \"plan\"\x7d" sampleStore
        "what medication should I take for a headache" false =
      .ok ({ status := "refused", session_id := "sess-1", dry_run := false,
             request := "what medication should I take for a headache",
             refusal_reason := some medicalRefusalReason },
           sampleStore, ["request_received", "refusal"]) :=
  ⟨by decide, safety_gate_refuses_without_planning sampleCtx _ sampleStore _ false (by decide)⟩

/-! ## C6: dry-run booking is a pure simulation -/

/-- C6: for every known patient and every existing, available slot,
`book_appointment` with `dry_run=true` returns a `booked` appointment and
leaves the record store — in particular the slot's availability flag and
the appointments ledger — unchanged. -/
theorem dry_run_booking_preserves_store
    (store : Store) (patient_id slot_id reason apptId : String) (now : Int)
    (p : Patient) (row : SlotRow)
    (_hp : getPatientById store patient_id = some p)
    (hrow : store.slots.find? (fun r => r.slot_id = slot_id) = some row)
    (havail : pyLower (pyStrip row.available) = "true") :
    ∃ appt : Appointment,
      bookAppointment store p slot_id reason true apptId now = .ok (appt, store) ∧
      appt.status = "booked" := by
  refine ⟨⟨apptId, "booked", p.id, p.name, row.provider_id,
    providerDisplayName store.providers row.provider_id, row.slot_id, row.specialty,
    row.start_time, row.end_time, reason, now⟩, ?_, rfl⟩
  simp [bookAppointment, hrow, havail]

/-- Witness for C6: simulated booking of slot `s1` for patient `p1`. -/
theorem dry_run_booking_preserves_store_witness :
    ∃ appt : Appointment,
      bookAppointment sampleStore ⟨"p1", "Ravi Kumar", none, none⟩ "s1" "checkup" true
        "appt-1" 999 = .ok (appt, sampleStore) ∧
      appt.status = "booked" :=
  dry_run_booking_preserves_store sampleStore "p1" "s1" "checkup" "appt-1" 999
    ⟨"p1", "Ravi Kumar", none, none⟩ ⟨"s1", "d1", "cardiology", 200000, 203600, "", "true"⟩
    rfl rfl rfl

/-! ## C2: plan acquisition degrades, never raises -/

/-- `agentPlanValidate` only produces plans with a legal discriminator. -/
theorem agentPlanValidate_type (v : Val) (p : AgentPlan)
    (h : agentPlanValidate v = some p) : p.type = "plan" ∨ p.type = "refusal" := by
  unfold agentPlanValidate at h
  split at h
  case h_2 => exact absurd h (by simp)
  case h_1 kvs =>
    split at h
    case isFalse => exact absurd h (by simp)
    case isTrue =>
      split at h
      case h_2 => exact absurd h (by simp)
      case h_1 t ht =>
        split at h
        case isFalse => exact absurd h (by simp)
        case isTrue hlit =>
          have hcase := Bool.or_eq_true_iff.mp hlit
          repeat' split at h
          all_goals try (dsimp only at h; repeat' split at h)
          all_goals first
            | exact Option.noConfusion h
            | (obtain rfl := Option.some.inj h
               rcases hcase with h1 | h1 <;>
                 first
                   | exact Or.inl (by simpa using h1)
                   | exact Or.inr (by simpa using h1))

/-- C2: for every raw planner text, plan acquisition returns a plan whose
discriminator is one of the two legal values (never an exception: the
function is total by construction), and each of the three failure modes
degrades to its fixed refusal plan: no JSON found, extracted JSON not an
object, and schema-validation failure; when validation succeeds the
validated plan itself is returned. -/
theorem plan_acquisition_degrades (raw : String) :
    ((planOnce raw).type = "plan" ∨ (planOnce raw).type = "refusal") ∧
    (extractFirstJsonObject raw = none → planOnce raw = planRefusalNonJson) ∧
    (∀ v, extractFirstJsonObject raw = some v → (∀ kvs, v ≠ .obj kvs) →
      planOnce raw = planRefusalNonJson) ∧
    (∀ kvs, extractFirstJsonObject raw = some (.obj kvs) →
      agentPlanValidate (.obj kvs) = none → planOnce raw = planRefusalSchema) ∧
    (∀ kvs p, extractFirstJsonObject raw = some (.obj kvs) →
      agentPlanValidate (.obj kvs) = some p → planOnce raw = p) := by
  refine ⟨?_, ?_, ?_, ?_, ?_⟩
  · cases hex : extractFirstJsonObject raw with
    | none => right; simp [planOnce, hex, planRefusalNonJson]
    | some v =>
      cases v with
      | obj kvs =>
        cases hval : agentPlanValidate (.obj kvs) with
        | none => right; simp [planOnce, hex, hval, planRefusalSchema]
        | some p =>
          simpa [planOnce, hex, hval] using agentPlanValidate_type _ _ hval
      | null => right; simp [planOnce, hex, planRefusalNonJson]
      | bool b => right; simp [planOnce, hex, planRefusalNonJson]
      | int n => right; simp [planOnce, hex, planRefusalNonJson]
      | str s => right; simp [planOnce, hex, planRefusalNonJson]
      | dt t => right; simp [planOnce, hex, planRefusalNonJson]
      | date d => right; simp [planOnce, hex, planRefusalNonJson]
      | arr xs => right; simp [planOnce, hex, planRefusalNonJson]
  · intro h
    simp [planOnce, h]
  · intro v hv hnobj
    unfold planOnce
    rw [hv]
    cases v with
    | obj kvs => exact absurd rfl (hnobj kvs)
    | null => rfl
    | bool b => rfl
    | int n => rfl
    | str s => rfl
    | dt t => rfl
    | date d => rfl
    | arr xs => rfl
  · intro kvs hv hval
    simp [planOnce, hv, hval]
  · intro kvs p hv hval
    simp [planOnce, hv, hval]

/-- Witness for C2 at a planner text containing no JSON at all. -/
theorem plan_acquisition_degrades_witness :
    extractFirstJsonObject "I cannot produce a plan right now." = none ∧
    planOnce "I cannot produce a plan right now." = planRefusalNonJson :=
  ⟨rfl, (plan_acquisition_degrades "I cannot produce a plan right now.").2.1 rfl⟩

/-! ## C3: an unknown tool name is NOT converted into a refusal

`_execute_tool_call` raises `RuntimeError` for an unknown tool, but the
loop in `run` catches only `ValueError` and `ValidationError`, so the
exception propagates out of `run` (the CLI layer then reports a generic
`error`, not a refusal). -/

/-- A planner output whose plan's first call names a tool that is not in
the registry. -/
def rawUnknownTool : String :=
  "\x7b\"type\": \"plan\", \"tool_calls\": [\x7b\"name\": \"frobnicate\", \"arguments\": \x7b\x7d\x7d], \"reason\": \"x\"\x7d"

set_option maxRecDepth 40000 in
/-- Counterexample to C3: on a concrete plan whose (first) tool call names
the unknown tool `frobnicate`, `run` does not terminate with a `refused`
response — the `RuntimeError` escapes uncaught (`Except.error`), so no
`AgentResponse` is produced at all. -/
theorem unknown_tool_counterexample :
    run sampleCtx rawUnknownTool sampleStore "please schedule a follow-up" false =
      .error (⟨.runtimeErr, "Unknown tool requested: frobnicate"⟩, sampleStore,
              ["request_received", "llm_plan", "tool_error"]) ∧
    (run sampleCtx rawUnknownTool sampleStore "please schedule a follow-up" false).isOk = false :=
  ⟨rfl, rfl⟩

/-- C3 (amended): executing a plan whose first call names a tool outside
the registry aborts the run by raising `RuntimeError: Unknown tool
requested: …`, which propagates out of `run` uncaught; no response with
status `refused` (or any response) is produced. -/
theorem unknown_tool_escapes
    (ctx : RunCtx) (raw : String) (store : Store) (request : String) (dryRun : Bool)
    (tc : ToolCall) (rest : List ToolCall)
    (hgate : isMedicalAdviceRequest request = false)
    (hplan : (planOnce raw).type ≠ "refusal")
    (hcalls : (planOnce raw).tool_calls = tc :: rest)
    (hname : toolRegistryNames.contains tc.name = false) :
    run ctx raw store request dryRun =
      .error (⟨.runtimeErr, "Unknown tool requested: " ++ tc.name⟩, store,
              ["request_received", "llm_plan", "tool_error"]) := by
  have hmem : tc.name ∉ toolRegistryNames := by simpa using hname
  simp only [run, hgate, Bool.false_eq_true, if_false, if_neg hplan, hcalls]
  simp [execCalls, executeToolCall, hname, hmem]

set_option maxRecDepth 40000 in
/-- Witness for C3's amended theorem on the concrete `frobnicate` plan. -/
theorem unknown_tool_escapes_witness :
    run sampleCtx rawUnknownTool sampleStore "book a follow-up for Ravi" true =
      .error (⟨.runtimeErr, "Unknown tool requested: frobnicate"⟩, sampleStore,
              ["request_received", "llm_plan", "tool_error"]) :=
  unknown_tool_escapes sampleCtx rawUnknownTool sampleStore "book a follow-up for Ravi" true
    ⟨"frobnicate", []⟩ [] (by decide) (by decide) rfl (by decide)

/-! ## C8: person placeholders resolve only from the run's own results -/

/-- C8: for `check_insurance_eligibility` and `book_appointment`, a
`patient_id` argument that is a complete angle-bracket placeholder with a
person role hint fails resolution with the fixed descriptive error when no
patient has been resolved, and is replaced by exactly the resolved
patient's identifier when one has. -/
theorem patient_placeholder_resolution
    (tool : String) (args : List (String × Val)) (trace : List TraceEntry) (pid : Val)
    (htool : tool = "check_insurance_eligibility" ∨ tool = "book_appointment")
    (hpid : getKey args "patient_id" = some pid)
    (hph : looksLikePlaceholder pid "patient" = true) :
    (resolveArgumentPlaceholders tool args none trace =
      .error "patient_id is a placeholder but no patient was resolved from search_patient.") ∧
    (∀ (p : Patient) (out : List (String × Val)),
      resolveArgumentPlaceholders tool args (some p) trace = .ok out →
      getKey out "patient_id" = some (.str p.id)) := by
  constructor
  · rcases htool with h | h <;> subst h
    · simp [resolveArgumentPlaceholders, hpid, hph]
    · simp [resolveArgumentPlaceholders, hpid, hph]
      rfl
  · intro p out hout
    rcases htool with h | h <;> subst h
    · simp [resolveArgumentPlaceholders, hpid, hph] at hout
      obtain rfl := Except.ok.inj hout
      exact getKey_setKey_self args "patient_id" (.str p.id)
    · simp only [resolveArgumentPlaceholders] at hout
      rw [hpid] at hout
      try dsimp only at hout
      rw [hph] at hout
      have hout2 : (match getKey (setKey args "patient_id" (Val.str p.id)) "slot_id" with
          | some sid =>
            if looksLikePlaceholder sid "slot" = true then
              ((pickEarliestSlotId (lastSlotsFromTrace trace)).bind
                (fun s => Except.ok
                  (setKey (setKey args "patient_id" (Val.str p.id)) "slot_id" (Val.str s))))
            else Except.ok (setKey args "patient_id" (Val.str p.id))
          | none => Except.ok (setKey args "patient_id" (Val.str p.id))) = Except.ok out :=
        hout
      clear hout
      cases hsid : getKey (setKey args "patient_id" (Val.str p.id)) "slot_id" with
      | none =>
        rw [hsid] at hout2
        try dsimp only at hout2
        obtain rfl := Except.ok.inj hout2
        exact getKey_setKey_self args "patient_id" (.str p.id)
      | some sv =>
        rw [hsid] at hout2
        try dsimp only at hout2
        by_cases hlk : looksLikePlaceholder sv "slot" = true
        · rw [if_pos hlk] at hout2
          cases hpick : pickEarliestSlotId (lastSlotsFromTrace trace) with
          | error e =>
            rw [hpick] at hout2
            exact Except.noConfusion hout2
          | ok sidv =>
            rw [hpick] at hout2
            try dsimp only [Except.bind] at hout2
            obtain rfl := Except.ok.inj hout2
            rw [getKey_setKey_ne _ "slot_id" "patient_id" (.str sidv) (by decide)]
            exact getKey_setKey_self args "patient_id" (.str p.id)
        · rw [if_neg hlk] at hout2
          obtain rfl := Except.ok.inj hout2
          exact getKey_setKey_self args "patient_id" (.str p.id)

/-- Witness for C8 on a concrete placeholder argument. -/
theorem patient_placeholder_resolution_witness :
    (resolveArgumentPlaceholders "check_insurance_eligibility"
        [("patient_id", .str "<PATIENT_ID_FROM_SEARCH_PATIENT>"), ("as_of", .str "5")]
        none [] =
      .error "patient_id is a placeholder but no patient was resolved from search_patient.") ∧
    (∀ (p : Patient) (out : List (String × Val)),
      resolveArgumentPlaceholders "check_insurance_eligibility"
          [("patient_id", .str "<PATIENT_ID_FROM_SEARCH_PATIENT>"), ("as_of", .str "5")]
          (some p) [] = .ok out →
      getKey out "patient_id" = some (.str p.id)) :=
  patient_placeholder_resolution "check_insurance_eligibility"
    [("patient_id", .str "<PATIENT_ID_FROM_SEARCH_PATIENT>"), ("as_of", .str "5")] []
    (.str "<PATIENT_ID_FROM_SEARCH_PATIENT>") (Or.inl rfl) rfl (by decide)

/-! ## C7: earliest-slot selection -/

/-- The start key of a record-shaped slot entry, totalised for stating the
minimality properties (only applied where `slotStart` succeeds). -/
def slotStartD (e : List (String × Val)) : Int :=
  match slotStart e with
  | .ok t => t
  | .error _ => 0

theorem slotStartD_eq {e : List (String × Val)} {t : Int}
    (h : slotStart e = .ok t) : slotStartD e = t := by
  simp [slotStartD, h]

/-- `min` with a strict-improvement update selects the first minimum:
the result decomposes `best :: rest` into a prefix of strictly larger
keys, the selected entry, and a suffix of no-smaller relevance. -/
theorem minBySlotStart_spec :
    ∀ (rest : List (List (String × Val))) (best : List (String × Val)) (bk : Int),
      slotStart best = .ok bk →
      (∀ x ∈ rest, ∃ t, slotStart x = .ok t) →
      ∃ pre m post, best :: rest = pre ++ m :: post ∧
        minBySlotStart best bk rest = .ok m ∧
        (∀ x ∈ best :: rest, slotStartD m ≤ slotStartD x) ∧
        (∀ x ∈ pre, slotStartD m < slotStartD x) := by
  intro rest
  induction rest with
  | nil =>
    intro best bk hb _
    refine ⟨[], best, [], rfl, rfl, ?_, by simp⟩
    intro x hx
    rcases List.mem_singleton.mp hx with rfl
    exact le_refl _
  | cons s rest' ih =>
    intro best bk hb hall
    obtain ⟨k, hk⟩ := hall s (by simp)
    have hall' : ∀ x ∈ rest', ∃ t, slotStart x = .ok t := fun x hx => hall x (by simp [hx])
    have hbD : slotStartD best = bk := slotStartD_eq hb
    have hsD : slotStartD s = k := slotStartD_eq hk
    by_cases hlt : k < bk
    · obtain ⟨pre', m, post', hdec, hloop, hmin, hpre⟩ := ih s k hk hall'
      refine ⟨best :: pre', m, post', by rw [List.cons_append, ← hdec],
        ?_, ?_, ?_⟩
      · show minBySlotStart best bk (s :: rest') = .ok m
        unfold minBySlotStart
        simp only [hk]
        rw [if_pos hlt]
        exact hloop
      · intro x hx
        rcases List.mem_cons.mp hx with rfl | hx'
        · calc slotStartD m ≤ slotStartD s := hmin s (by simp)
            _ ≤ slotStartD x := by rw [hsD, hbD]; exact le_of_lt hlt
        · exact hmin x (hdec ▸ hx')
      · intro x hx
        rcases List.mem_cons.mp hx with rfl | hx'
        · calc slotStartD m ≤ slotStartD s := hmin s (by simp)
            _ < slotStartD x := by rw [hsD, hbD]; exact hlt
        · exact hpre x hx'
    · obtain ⟨pre', m, post', hdec, hloop, hmin, hpre⟩ := ih best bk hb hall'
      have hloop' : minBySlotStart best bk (s :: rest') = .ok m := by
        unfold minBySlotStart
        simp only [hk]
        rw [if_neg hlt]
        exact hloop
      have hks : slotStartD best ≤ slotStartD s := by
        rw [hbD, hsD]; exact le_of_not_lt hlt
      cases pre' with
      | nil =>
        obtain ⟨rfl, rfl⟩ : best = m ∧ rest' = post' := by
          have := hdec
          simp only [List.nil_append, List.cons.injEq] at this
          exact ⟨this.1, this.2⟩
        refine ⟨[], best, s :: rest', rfl, hloop', ?_, by simp⟩
        intro x hx
        rcases List.mem_cons.mp hx with rfl | hx'
        · exact le_refl _
        · rcases List.mem_cons.mp hx' with rfl | hx''
          · exact hks
          · exact hmin x (by simp [hx''])
      | cons p pre'' =>
        obtain ⟨hpb, hdec'⟩ : p = best ∧ rest' = pre'' ++ m :: post' := by
          have := hdec
          simp only [List.cons_append, List.cons.injEq] at this
          exact ⟨this.1.symm, this.2⟩
        subst hpb
        have hmb : slotStartD m < slotStartD p := hpre p (by simp)
        refine ⟨p :: s :: pre'', m, post',
          by rw [hdec']; simp, hloop', ?_, ?_⟩
        · intro x hx
          rcases List.mem_cons.mp hx with rfl | hx'
          · exact hmin x (by simp)
          · rcases List.mem_cons.mp hx' with rfl | hx''
            · exact le_of_lt (lt_of_lt_of_le hmb hks)
            · exact hmin x (List.mem_cons_of_mem _ hx'')
        · intro x hx
          rcases List.mem_cons.mp hx with rfl | hx'
          · exact hmb
          · rcases List.mem_cons.mp hx' with rfl | hx''
            · exact lt_of_lt_of_le hmb hks
            · exact hpre x (List.mem_cons_of_mem _ hx'')

/-- For a `book_appointment` call whose `slot_id` is a slot placeholder
(and whose `patient_id` is not a matching person placeholder), resolution
is exactly earliest-slot selection over the most recent find-slots result,
with its success substituted into `slot_id` and its failure propagated. -/
theorem resolve_book_slot_placeholder
    (args : List (String × Val)) (rp : Option Patient) (trace : List TraceEntry) (sv : Val)
    (hsv : getKey args "slot_id" = some sv)
    (hph : looksLikePlaceholder sv "slot" = true)
    (hnop : ∀ v, getKey args "patient_id" = some v →
      looksLikePlaceholder v "patient" = false) :
    resolveArgumentPlaceholders "book_appointment" args rp trace =
      (pickEarliestSlotId (lastSlotsFromTrace trace)).bind
        (fun s => Except.ok (setKey args "slot_id" (.str s))) := by
  have h1 : resolveArgumentPlaceholders "book_appointment" args rp trace =
      (match getKey args "slot_id" with
       | some sid =>
         if looksLikePlaceholder sid "slot" = true then
           (pickEarliestSlotId (lastSlotsFromTrace trace)).bind
             (fun s => Except.ok (setKey args "slot_id" (.str s)))
         else Except.ok args
       | none => Except.ok args) := by
    cases hpidv : getKey args "patient_id" with
    | none =>
      simp only [resolveArgumentPlaceholders]
      rw [hpidv]
      rfl
    | some v =>
      simp only [resolveArgumentPlaceholders]
      rw [hpidv]
      have hv := hnop v hpidv
      try dsimp only
      rw [hv]
      rfl
  rw [h1, hsv]
  simp only [hph, if_true]

/-- C7: for a `book_appointment` call with a slot placeholder, resolution
over the record-shaped entries of the most recent `find_available_slots`
result fails with an error when there are none, and otherwise substitutes
the identifier of the entry with the minimum start timestamp, ties broken
by original result order (the list decomposes into a strictly-later prefix,
the selected entry, and the rest) — independent of list order. -/
theorem earliest_slot_selection
    (trace : List TraceEntry) (args : List (String × Val)) (rp : Option Patient)
    (sv : Val) (entries : List (List (String × Val)))
    (hentries : lastSlotsFromTrace trace = entries)
    (hsv : getKey args "slot_id" = some sv)
    (hph : looksLikePlaceholder sv "slot" = true)
    (hnop : ∀ v, getKey args "patient_id" = some v →
      looksLikePlaceholder v "patient" = false) :
    (entries = [] →
      resolveArgumentPlaceholders "book_appointment" args rp trace =
        .error "No available slots to choose from.") ∧
    (entries ≠ [] → (∀ x ∈ entries, ∃ t, slotStart x = .ok t) →
      ∃ pre ej post, entries = pre ++ ej :: post ∧
        (∀ x ∈ entries, slotStartD ej ≤ slotStartD x) ∧
        (∀ x ∈ pre, slotStartD ej < slotStartD x) ∧
        (∀ sid : String, getKey ej "id" = some (.str sid) → sid.isEmpty = false →
          pickEarliestSlotId entries = .ok sid ∧
          resolveArgumentPlaceholders "book_appointment" args rp trace =
            .ok (setKey args "slot_id" (.str sid)))) := by
  have hlink := resolve_book_slot_placeholder args rp trace sv hsv hph hnop
  rw [hentries] at hlink
  constructor
  · intro he
    subst he
    rw [hlink]
    rfl
  · intro hne hall
    cases hent : entries with
    | nil => exact absurd hent hne
    | cons e rest =>
      subst hent
      obtain ⟨t0, ht0⟩ := hall e (by simp)
      obtain ⟨pre, m, post, hdec, hloop, hmin, hpre⟩ :=
        minBySlotStart_spec rest e t0 ht0 (fun x hx => hall x (by simp [hx]))
      refine ⟨pre, m, post, hdec, ?_, ?_, ?_⟩
      · intro x hx
        exact hmin x (hdec ▸ hx)
      · exact hpre
      · intro sid hid hne'
        have hpick : pickEarliestSlotId (e :: rest) = .ok sid := by
          simp only [pickEarliestSlotId]
          rw [ht0]
          try dsimp only
          rw [hloop]
          try dsimp only
          rw [hid]
          try dsimp only
          rw [hne']
          simp
        refine ⟨hpick, ?_⟩
        rw [hlink, hpick]
        rfl

/-- Witness for C7 on the spec's example: starts `[T+2, T+1, T+3]` select
the slot with start `T+1`. -/
theorem earliest_slot_selection_witness :
    ∃ pre ej post,
      ([[("id", Val.str "sA"), ("start", Val.dt 102)],
        [("id", Val.str "sB"), ("start", Val.dt 101)],
        [("id", Val.str "sC"), ("start", Val.dt 103)]] :
          List (List (String × Val))) = pre ++ ej :: post ∧
      (∀ x ∈ ([[("id", Val.str "sA"), ("start", Val.dt 102)],
        [("id", Val.str "sB"), ("start", Val.dt 101)],
        [("id", Val.str "sC"), ("start", Val.dt 103)]] :
          List (List (String × Val))), slotStartD ej ≤ slotStartD x) ∧
      (∀ x ∈ pre, slotStartD ej < slotStartD x) ∧
      (∀ sid : String, getKey ej "id" = some (.str sid) → sid.isEmpty = false →
        pickEarliestSlotId
            [[("id", Val.str "sA"), ("start", Val.dt 102)],
             [("id", Val.str "sB"), ("start", Val.dt 101)],
             [("id", Val.str "sC"), ("start", Val.dt 103)]] = .ok sid ∧
        resolveArgumentPlaceholders "book_appointment"
            [("patient_id", Val.str "p1"),
             ("slot_id", Val.str "<SLOT_ID_FROM_FIND_AVAILABLE_SLOTS>"),
             ("reason", Val.str "checkup")] none
            [⟨"find_available_slots", [],
              .arr [.obj [("id", Val.str "sA"), ("start", Val.dt 102)],
                    .obj [("id", Val.str "sB"), ("start", Val.dt 101)],
                    .obj [("id", Val.str "sC"), ("start", Val.dt 103)]]⟩] =
          .ok (setKey [("patient_id", Val.str "p1"),
             ("slot_id", Val.str "<SLOT_ID_FROM_FIND_AVAILABLE_SLOTS>"),
             ("reason", Val.str "checkup")] "slot_id" (.str sid))) :=
  (earliest_slot_selection
    [⟨"find_available_slots", [],
      .arr [.obj [("id", Val.str "sA"), ("start", Val.dt 102)],
            .obj [("id", Val.str "sB"), ("start", Val.dt 101)],
            .obj [("id", Val.str "sC"), ("start", Val.dt 103)]]⟩]
    [("patient_id", Val.str "p1"),
     ("slot_id", Val.str "<SLOT_ID_FROM_FIND_AVAILABLE_SLOTS>"),
     ("reason", Val.str "checkup")] none
    (.str "<SLOT_ID_FROM_FIND_AVAILABLE_SLOTS>")
    [[("id", Val.str "sA"), ("start", Val.dt 102)],
     [("id", Val.str "sB"), ("start", Val.dt 101)],
     [("id", Val.str "sC"), ("start", Val.dt 103)]] rfl rfl (by decide)
    (by intro v hv; cases Option.some.inj hv; decide)).2
    (by simp)
    (by
      intro x hx
      simp only [List.mem_cons, List.mem_singleton] at hx
      rcases hx with rfl | rfl | rfl | hx
      · exact ⟨102, rfl⟩
      · exact ⟨101, rfl⟩
      · exact ⟨103, rfl⟩
      · cases hx)

/-! ## C5: the caller's dry-run flag is only a default -/

/-- Slot-placeholder substitution (the second phase of resolution) touches
only the `slot_id` key. -/
theorem phase2_preserves (base : List (String × Val)) (trace : List TraceEntry)
    (out : List (String × Val)) (k : String) (hk : k ≠ "slot_id")
    (h : (match getKey base "slot_id" with
          | some sid =>
            if looksLikePlaceholder sid "slot" = true then
              (pickEarliestSlotId (lastSlotsFromTrace trace)).bind
                (fun sres => Except.ok (setKey base "slot_id" (Val.str sres)))
            else Except.ok base
          | none => Except.ok base) = Except.ok out) :
    getKey out k = getKey base k := by
  cases hsid : getKey base "slot_id" with
  | none =>
    rw [hsid] at h
    obtain rfl := Except.ok.inj h
    rfl
  | some sv =>
    rw [hsid] at h
    try dsimp only at h
    by_cases hlk : looksLikePlaceholder sv "slot" = true
    · rw [if_pos hlk] at h
      cases hp : pickEarliestSlotId (lastSlotsFromTrace trace) with
      | error e =>
        rw [hp] at h
        exact Except.noConfusion h
      | ok sres =>
        rw [hp] at h
        try dsimp only [Except.bind] at h
        obtain rfl := Except.ok.inj h
        exact getKey_setKey_ne base "slot_id" k (Val.str sres) hk
    · rw [if_neg hlk] at h
      obtain rfl := Except.ok.inj h
      rfl

/-- Successful placeholder resolution for `book_appointment` leaves every
argument other than `patient_id` and `slot_id` untouched. -/
theorem resolve_book_preserves_key
    (args : List (String × Val)) (rp : Option Patient) (trace : List TraceEntry)
    (out : List (String × Val)) (k : String)
    (hk1 : k ≠ "patient_id") (hk2 : k ≠ "slot_id")
    (h : resolveArgumentPlaceholders "book_appointment" args rp trace = .ok out) :
    getKey out k = getKey args k := by
  simp only [resolveArgumentPlaceholders] at h
  cases hpid : getKey args "patient_id" with
  | none =>
    rw [hpid] at h
    try dsimp only at h
    exact phase2_preserves args trace out k hk2 h
  | some v =>
    rw [hpid] at h
    try dsimp only at h
    by_cases hlk : looksLikePlaceholder v "patient" = true
    · rw [hlk] at h
      try dsimp only at h
      cases rp with
      | none => exact Except.noConfusion h
      | some p =>
        have h2 : (match getKey (setKey args "patient_id" (Val.str p.id)) "slot_id" with
            | some sid =>
              if looksLikePlaceholder sid "slot" = true then
                (pickEarliestSlotId (lastSlotsFromTrace trace)).bind
                  (fun sres => Except.ok
                    (setKey (setKey args "patient_id" (Val.str p.id)) "slot_id" (Val.str sres)))
              else Except.ok (setKey args "patient_id" (Val.str p.id))
            | none => Except.ok (setKey args "patient_id" (Val.str p.id))) = Except.ok out := h
        rw [phase2_preserves (setKey args "patient_id" (Val.str p.id)) trace out k hk2 h2]
        exact getKey_setKey_ne args "patient_id" k (Val.str p.id) hk1
    · have hlk' : looksLikePlaceholder v "patient" = false := by simpa using hlk
      rw [hlk'] at h
      try dsimp only at h
      exact phase2_preserves args trace out k hk2 h

/-- Validated `book_appointment` arguments take `dry_run` from the supplied
boolean when the key is present. -/
theorem validateBook_dry_run (args : List (String × Val)) (a : BookAppointmentInput) (b : Bool)
    (hb : getKey args "dry_run" = some (.bool b))
    (h : validateBookAppointmentInput args = some a) :
    a.dry_run = b := by
  simp only [validateBookAppointmentInput, hb, coerceBool] at h
  split at h
  case isFalse => exact Option.noConfusion h
  case isTrue =>
    repeat' split at h
    all_goals try exact Option.noConfusion h
    all_goals (cases h; simp_all)

/-- `book_appointment` with `dry_run=true` never changes the store. -/
theorem bookAppointment_dry_run_store (store : Store) (p : Patient) (sid rsn aid : String)
    (now : Int) (r : Appointment × Store)
    (h : bookAppointment store p sid rsn true aid now = .ok r) : r.2 = store := by
  simp only [bookAppointment] at h
  split at h
  case h_1 => exact Except.noConfusion h
  case h_2 =>
    split at h
    case isTrue => exact Except.noConfusion h
    case isFalse =>
      try dsimp only at h
      obtain rfl := Except.ok.inj h
      rfl

/-- C5 (amended): in a `dry_run=true` run, an executed `book_appointment`
call whose planner-supplied arguments omit `dry_run` runs with
`dry_run=true` — the merged flag is visible in the recorded trace
arguments and the store is left unchanged.  (The flag is only a
`setdefault`: a planner-supplied `dry_run` value wins, see the
counterexample.) -/
theorem dry_run_merged_when_absent
    (ctx : RunCtx) (tc : ToolCall) (s s' : ExecSt) (evs : List String)
    (hname : tc.name = "book_appointment")
    (habs : getKey tc.arguments "dry_run" = none)
    (hexec : executeToolCall ctx true tc s = (evs, .ok s')) :
    s'.store = s.store ∧
    ∃ entry : TraceEntry, s'.trace = s.trace ++ [entry] ∧
      getKey entry.arguments "dry_run" = some (.bool true) := by
  obtain ⟨nm, args⟩ := tc
  simp only [ToolCall.name] at hname
  subst hname
  simp only [ToolCall.arguments] at habs
  simp only [executeToolCall] at hexec
  rw [show (!toolRegistryNames.contains (ToolCall.mk "book_appointment" args).name) = false
    from rfl] at hexec
  simp only [Bool.false_eq_true, if_false, if_true] at hexec
  have hdrA : getKey (setDefault args "dry_run" (Val.bool true)) "dry_run"
      = some (.bool true) := getKey_setDefault_absent _ _ _ habs
  cases hres : resolveArgumentPlaceholders "book_appointment"
      (setDefault args "dry_run" (Val.bool true)) s.patient s.trace with
  | error e =>
    rw [hres] at hexec
    try dsimp only at hexec
    exact absurd (congrArg Prod.snd hexec) (by simp)
  | ok args' =>
    rw [hres] at hexec
    try dsimp only at hexec
    have hdr' : getKey args' "dry_run" = some (.bool true) := by
      rw [resolve_book_preserves_key (setDefault args "dry_run" (Val.bool true))
        s.patient s.trace args' "dry_run" (by decide) (by decide) hres]
      exact hdrA
    cases hval : validateToolArgs "book_appointment" args' with
    | none =>
      rw [hval] at hexec
      try dsimp only at hexec
      exact absurd (congrArg Prod.snd hexec) (by simp)
    | some targs =>
      rw [hval] at hexec
      try dsimp only at hexec
      have hbk : ∃ a, targs = .book a ∧ validateBookAppointmentInput args' = some a := by
        simp only [validateToolArgs, String.reduceEq, reduceIte] at hval
        cases hv2 : validateBookAppointmentInput args' with
        | none => rw [hv2] at hval; exact Option.noConfusion hval
        | some a =>
          rw [hv2] at hval
          exact ⟨a, (Option.some.inj hval).symm, rfl⟩
      obtain ⟨a, rfl, hva⟩ := hbk
      have hadr : a.dry_run = true := validateBook_dry_run args' a true hdr' hva
      try dsimp only at hexec
      cases hpat : getPatientById s.store a.patient_id with
      | none =>
        rw [hpat] at hexec
        try dsimp only at hexec
        exact absurd (congrArg Prod.snd hexec) (by simp)
      | some p =>
        rw [hpat] at hexec
        try dsimp only at hexec
        cases hbook : bookAppointment s.store p a.slot_id a.reason a.dry_run
            ctx.apptId ctx.now with
        | error e =>
          rw [hbook] at hexec
          try dsimp only [Except.map] at hexec
          exact absurd (congrArg Prod.snd hexec) (by simp)
        | ok r =>
          rw [hbook] at hexec
          try dsimp only [Except.map] at hexec
          have hstore : r.2 = s.store := by
            rw [hadr] at hbook
            exact bookAppointment_dry_run_store _ _ _ _ _ _ _ hbook
          have h2 := congrArg Prod.snd hexec
          simp only at h2
          obtain rfl := Except.ok.inj h2
          exact ⟨hstore, ⟨"book_appointment", args', dumpToolResult (.appt r.1)⟩, rfl, hdr'⟩

/-- A planner output that books with an explicit `dry_run: false`. -/
def rawPlannerDryRunFalse : String :=
  "\x7b\"type\": \"plan\", \"tool_calls\": [\x7b\"name\": \"book_appointment\", \"arguments\": \x7b\"patient_id\": \"p1\", \"slot_id\": \"s2\", \"reason\": \"checkup\", \"dry_run\": false\x7d\x7d], \"reason\": \"x\"\x7d"

/-- The store after the counterexample run: slot `s2` flipped to
unavailable and one booking appended — a real mutation. -/
def mutatedSampleStore : Store :=
  { patients := [⟨"p1", " Ravi Kumar ", none, none⟩, ⟨"p2", "Jane Roe", none, none⟩]
  , insurance := [⟨"p1", "Acme", "M1", "active"⟩]
  , providers := [⟨"d1", "Dr A"⟩]
  , slots := [⟨"s1", "d1", "cardiology", 200000, 203600, "", "true"⟩,
              ⟨"s2", "d1", "cardiology", 100000, 103600, "", "false"⟩]
  , appointments := [⟨"appt-1", "p1", "d1", "s2", "cardiology", 100000, 103600,
      "checkup", "booked", 999⟩] }

def dryRunCounterAppt : Appointment :=
  ⟨"appt-1", "booked", "p1", "Ravi Kumar", "d1", "Dr A", "s2", "cardiology",
   100000, 103600, "checkup", 999⟩

set_option maxRecDepth 40000 in
/-- Counterexample to C5: in a run invoked with `dry_run=true`, a
`book_appointment` call whose planner-supplied arguments contain
`dry_run: false` executes with `dry_run=false` (the recorded trace
arguments show it) and really mutates the store — `setdefault` does not
override a planner-supplied value. -/
theorem dry_run_not_forced_counterexample :
    run sampleCtx rawPlannerDryRunFalse sampleStore "schedule the cardiology slot" true =
      .ok ({ status := "ok", session_id := "sess-1", dry_run := true,
             request := "schedule the cardiology slot",
             refusal_reason := none, patient := none, insurance_eligibility := none,
             appointment := some dryRunCounterAppt,
             tool_trace := [⟨"book_appointment",
               [("patient_id", .str "p1"), ("slot_id", .str "s2"),
                ("reason", .str "checkup"), ("dry_run", .bool false)],
               dumpAppointment dryRunCounterAppt⟩] },
           mutatedSampleStore,
           ["request_received", "llm_plan", "tool_call", "tool_result", "final_response"]) ∧
    mutatedSampleStore ≠ sampleStore :=
  ⟨rfl, by decide⟩

def dryRunWitnessAppt : Appointment :=
  ⟨"appt-1", "booked", "p1", "Ravi Kumar", "d1", "Dr A", "s1", "cardiology",
   200000, 203600, "checkup", 999⟩

def dryRunWitnessEntry : TraceEntry :=
  ⟨"book_appointment",
   [("patient_id", .str "p1"), ("slot_id", .str "s1"),
    ("reason", .str "checkup"), ("dry_run", .bool true)],
   dumpAppointment dryRunWitnessAppt⟩

set_option maxRecDepth 40000 in
/-- Witness for C5's amended theorem: a book call without a planner
`dry_run` key, executed in a `dry_run=true` run. -/
theorem dry_run_merged_when_absent_witness :
    (ExecSt.mk [dryRunWitnessEntry] none none (some dryRunWitnessAppt) sampleStore).store
      = (ExecSt.mk [] none none none sampleStore).store ∧
    ∃ entry : TraceEntry,
      (ExecSt.mk [dryRunWitnessEntry] none none (some dryRunWitnessAppt) sampleStore).trace
        = (ExecSt.mk [] none none none sampleStore).trace ++ [entry] ∧
      getKey entry.arguments "dry_run" = some (.bool true) :=
  dry_run_merged_when_absent sampleCtx
    ⟨"book_appointment",
     [("patient_id", .str "p1"), ("slot_id", .str "s1"), ("reason", .str "checkup")]⟩
    (ExecSt.mk [] none none none sampleStore)
    (ExecSt.mk [dryRunWitnessEntry] none none (some dryRunWitnessAppt) sampleStore)
    ["tool_call", "tool_result"] rfl rfl rfl

/-! ## C4 / C10: loop order, early stop, and fail-fast trace preservation -/

/-- A successful `validateToolArgs` ties the result constructor to the
tool name. -/
theorem validateToolArgs_name (nm : String) (args : List (String × Val)) (targs : ToolArgs)
    (h : validateToolArgs nm args = some targs) :
    (∃ a, targs = .search a ∧ nm = "search_patient") ∨
    (∃ a, targs = .insurance a ∧ nm = "check_insurance_eligibility") ∨
    (∃ a, targs = .slots a ∧ nm = "find_available_slots") ∨
    (∃ a, targs = .book a ∧ nm = "book_appointment") := by
  simp only [validateToolArgs] at h
  by_cases h1 : nm = "search_patient"
  · rw [if_pos h1] at h
    cases hv : validateSearchPatientInput args with
    | none => rw [hv] at h; exact Option.noConfusion h
    | some a =>
      rw [hv] at h
      exact Or.inl ⟨a, (Option.some.inj h).symm, h1⟩
  · rw [if_neg h1] at h
    by_cases h2 : nm = "check_insurance_eligibility"
    · rw [if_pos h2] at h
      cases hv : validateCheckInsuranceEligibilityInput args with
      | none => rw [hv] at h; exact Option.noConfusion h
      | some a =>
        rw [hv] at h
        exact Or.inr (Or.inl ⟨a, (Option.some.inj h).symm, h2⟩)
    · rw [if_neg h2] at h
      by_cases h3 : nm = "find_available_slots"
      · rw [if_pos h3] at h
        cases hv : validateFindAvailableSlotsInput args with
        | none => rw [hv] at h; exact Option.noConfusion h
        | some a =>
          rw [hv] at h
          exact Or.inr (Or.inr (Or.inl ⟨a, (Option.some.inj h).symm, h3⟩))
      · rw [if_neg h3] at h
        by_cases h4 : nm = "book_appointment"
        · rw [if_pos h4] at h
          cases hv : validateBookAppointmentInput args with
          | none => rw [hv] at h; exact Option.noConfusion h
          | some a =>
            rw [hv] at h
            exact Or.inr (Or.inr (Or.inr ⟨a, (Option.some.inj h).symm, h4⟩))
        · rw [if_neg h4] at h
          exact Option.noConfusion h

/-- A successful `_execute_tool_call` appends exactly one trace entry, for
the executed tool; it produces an appointment exactly when the tool is
`book_appointment` (otherwise the appointment state is untouched). -/
theorem executeToolCall_ok_spec
    (ctx : RunCtx) (dryRun : Bool) (tc : ToolCall) (s : ExecSt) (evs : List String) (s' : ExecSt)
    (h : executeToolCall ctx dryRun tc s = (evs, .ok s')) :
    (∃ entry : TraceEntry, entry.tool = tc.name ∧ s'.trace = s.trace ++ [entry]) ∧
    (tc.name = "book_appointment" → s'.appt.isSome = true) ∧
    (tc.name ≠ "book_appointment" → s'.appt = s.appt) := by
  simp only [executeToolCall] at h
  by_cases hreg : (!toolRegistryNames.contains tc.name) = true
  · rw [if_pos hreg] at h
    exact absurd (congrArg Prod.snd h) (by simp)
  · rw [if_neg hreg] at h
    cases hres : resolveArgumentPlaceholders tc.name
        (if tc.name = "book_appointment" then setDefault tc.arguments "dry_run" (Val.bool dryRun)
         else tc.arguments) s.patient s.trace with
    | error e =>
      rw [hres] at h
      exact absurd (congrArg Prod.snd h) (by simp)
    | ok args' =>
      rw [hres] at h
      try dsimp only at h
      cases hval : validateToolArgs tc.name args' with
      | none =>
        rw [hval] at h
        exact absurd (congrArg Prod.snd h) (by simp)
      | some targs =>
        rw [hval] at h
        try dsimp only at h
        rcases validateToolArgs_name _ _ _ hval with
          ⟨a, rfl, hnm⟩ | ⟨a, rfl, hnm⟩ | ⟨a, rfl, hnm⟩ | ⟨a, rfl, hnm⟩ <;> rw [hnm] at h <;>
          simp only [String.reduceEq, reduceIte, if_true, if_false] at h
        · have h2 := congrArg Prod.snd h
          simp only at h2
          obtain rfl := Except.ok.inj h2
          refine ⟨⟨_, by rw [hnm], rfl⟩, fun hb => absurd (hnm ▸ hb) (by decide), fun _ => rfl⟩
        · have h2 := congrArg Prod.snd h
          simp only at h2
          obtain rfl := Except.ok.inj h2
          refine ⟨⟨_, by rw [hnm], rfl⟩, fun hb => absurd (hnm ▸ hb) (by decide), fun _ => rfl⟩
        · have h2 := congrArg Prod.snd h
          simp only at h2
          obtain rfl := Except.ok.inj h2
          refine ⟨⟨_, by rw [hnm], rfl⟩, fun hb => absurd (hnm ▸ hb) (by decide), fun _ => rfl⟩
        · cases hpat : getPatientById s.store a.patient_id with
          | none =>
            rw [hpat] at h
            try dsimp only [Except.map] at h
            exact absurd (congrArg Prod.snd h) (by simp)
          | some p =>
            rw [hpat] at h
            try dsimp only [Except.map] at h
            cases hbook : bookAppointment s.store p a.slot_id a.reason a.dry_run
                ctx.apptId ctx.now with
            | error e =>
              rw [hbook] at h
              try dsimp only [Except.map] at h
              exact absurd (congrArg Prod.snd h) (by simp)
            | ok r =>
              rw [hbook] at h
              try dsimp only [Except.map] at h
              have h2 := congrArg Prod.snd h
              simp only at h2
              obtain rfl := Except.ok.inj h2
              exact ⟨⟨_, by rw [hnm], rfl⟩, fun _ => rfl, fun hb => absurd hnm hb⟩

/-- Invariant of the execution loop on a normal finish: the trace grows by
entries matching a prefix of the planned calls, any `book_appointment`
entry is the final one, and stopping before the end of the plan means an
appointment was produced. -/
theorem execCalls_done_spec (ctx : RunCtx) (dryRun : Bool) :
    ∀ (calls : List ToolCall) (s : ExecSt) (evs : List String) (s' : ExecSt)
      (evs' : List String),
      s.appt = none →
      execCalls ctx dryRun calls s evs = .done s' evs' →
      ∃ n ts, n ≤ calls.length ∧ s'.trace = s.trace ++ ts ∧
        ts.map TraceEntry.tool = ((calls.take n).map ToolCall.name) ∧
        (∀ i e, ts[i]? = some e → e.tool = "book_appointment" → i + 1 = ts.length) ∧
        (n < calls.length → s'.appt.isSome = true) := by
  intro calls
  induction calls with
  | nil =>
    intro s evs s' evs' _ h
    simp only [execCalls] at h
    injection h with h1 h2
    subst h1
    exact ⟨0, [], by simp, by simp, rfl, by simp, by simp⟩
  | cons tc rest ih =>
    intro s evs s' evs' happ h
    simp only [execCalls] at h
    cases hex : executeToolCall ctx dryRun tc s with
    | mk es r =>
      rw [hex] at h
      cases r with
      | error e =>
        obtain ⟨kind, msg⟩ := e
        cases kind <;> (try dsimp only at h) <;> exact LoopOut.noConfusion h
      | ok s'' =>
        try dsimp only at h
        obtain ⟨⟨entry, het, htr⟩, hbook, _⟩ :=
          executeToolCall_ok_spec ctx dryRun tc s es s'' hex
        by_cases hap : s''.appt.isSome = true
        · rw [if_pos hap] at h
          injection h with h1 h2
          subst h1
          refine ⟨1, [entry], by simp, by simpa using htr, by simp [het], ?_,
            fun _ => hap⟩
          intro i e hi _
          cases i with
          | zero => rfl
          | succ j => simp at hi
        · rw [if_neg hap] at h
          have happ'' : s''.appt = none := by
            cases hv : s''.appt with
            | none => rfl
            | some a => rw [hv] at hap; simp at hap
          obtain ⟨n, ts, hn, htr', hmap, hbl, hlt⟩ := ih s'' (evs ++ es) s' evs' happ'' h
          have hentrynb : entry.tool ≠ "book_appointment" := by
            rw [het]
            intro hb
            have := hbook hb
            rw [happ''] at this
            simp at this
          refine ⟨n + 1, entry :: ts, by simpa using Nat.succ_le_succ hn, ?_, ?_, ?_, ?_⟩
          · rw [htr', htr]
            simp
          · simp [het, hmap]
          · intro i e hi hb
            cases i with
            | zero =>
              obtain rfl : entry = e := by simpa using hi
              exact absurd hb hentrynb
            | succ j =>
              have := hbl j e (by simpa using hi) hb
              simpa using congrArg Nat.succ this
          · intro hlt'
            exact hlt (by simpa using Nat.lt_of_succ_lt_succ (by simpa using hlt'))

/-- Invariant of the execution loop on a caught failure: the state at the
failure has exactly the successful prefix's entries (the failing call, the
`n`-th planned call, appended nothing and still fails when executed from
that state), and no entry is a booking. -/
theorem execCalls_failed_spec (ctx : RunCtx) (dryRun : Bool) :
    ∀ (calls : List ToolCall) (s : ExecSt) (evs : List String) (e : Exc) (s' : ExecSt)
      (evs' : List String),
      s.appt = none →
      execCalls ctx dryRun calls s evs = .failed e s' evs' →
      ∃ n ts tcf, n < calls.length ∧ s'.trace = s.trace ++ ts ∧
        ts.map TraceEntry.tool = ((calls.take n).map ToolCall.name) ∧
        calls[n]? = some tcf ∧
        (executeToolCall ctx dryRun tcf s').2 = .error e ∧
        (∀ x ∈ ts, x.tool ≠ "book_appointment") := by
  intro calls
  induction calls with
  | nil =>
    intro s evs e s' evs' _ h
    simp only [execCalls] at h
    exact LoopOut.noConfusion h
  | cons tc rest ih =>
    intro s evs e s' evs' happ h
    simp only [execCalls] at h
    cases hex : executeToolCall ctx dryRun tc s with
    | mk es r =>
      rw [hex] at h
      cases r with
      | error e0 =>
        obtain ⟨kind, msg⟩ := e0
        cases kind
        case runtimeErr => try dsimp only at h; exact LoopOut.noConfusion h
        all_goals
          (try dsimp only at h
           injection h with h1 h2 h3
           subst h1
           subst h2
           refine ⟨0, [], tc, by simp, by simp, by simp, by simp, ?_, by simp⟩
           exact congrArg Prod.snd hex)
      | ok s'' =>
        try dsimp only at h
        obtain ⟨⟨entry, het, htr⟩, hbook, _⟩ :=
          executeToolCall_ok_spec ctx dryRun tc s es s'' hex
        by_cases hap : s''.appt.isSome = true
        · rw [if_pos hap] at h
          exact LoopOut.noConfusion h
        · rw [if_neg hap] at h
          have happ'' : s''.appt = none := by
            cases hv : s''.appt with
            | none => rfl
            | some a => rw [hv] at hap; simp at hap
          obtain ⟨n, ts, tcf, hn, htr', hmap, hget, hfail, hnb⟩ :=
            ih s'' (evs ++ es) e s' evs' happ'' h
          have hentrynb : entry.tool ≠ "book_appointment" := by
            rw [het]
            intro hb
            have := hbook hb
            rw [happ''] at this
            simp at this
          refine ⟨n + 1, entry :: ts, tcf, by simpa using Nat.succ_lt_succ hn, ?_, ?_,
            by simpa using hget, hfail, ?_⟩
          · rw [htr', htr]
            simp
          · simp [het, hmap]
          · intro x hx
            rcases List.mem_cons.mp hx with rfl | hx'
            · exact hentrynb
            · exact hnb x hx'

/-- C4: whenever `run` returns a response for a plan of type `plan`, the
trace's tools are exactly the names of a prefix of the planned calls, in
order (no reordering, no skipping), and any `book_appointment` entry is
the final entry of the trace — once a booking is produced no further
planned call executes. -/
theorem plan_execution_order_and_early_stop
    (ctx : RunCtx) (raw : String) (store : Store) (request : String) (dryRun : Bool)
    (resp : AgentResponse) (store' : Store) (evs : List String)
    (hptype : (planOnce raw).type = "plan")
    (hrun : run ctx raw store request dryRun = .ok (resp, store', evs)) :
    ∃ n, n ≤ (planOnce raw).tool_calls.length ∧
      resp.tool_trace.map TraceEntry.tool =
        (((planOnce raw).tool_calls.take n).map ToolCall.name) ∧
      (∀ i e, resp.tool_trace[i]? = some e → e.tool = "book_appointment" →
        i + 1 = resp.tool_trace.length) := by
  by_cases hg : isMedicalAdviceRequest request = true
  · simp only [run, hg, if_true] at hrun
    have h2 := congrArg Prod.fst (Except.ok.inj hrun)
    simp only at h2
    subst h2
    exact ⟨0, by simp, by simp, by simp⟩
  · have hg' : isMedicalAdviceRequest request = false := by simpa using hg
    simp only [run, hg', Bool.false_eq_true, if_false] at hrun
    have hne : ¬(planOnce raw).type = "refusal" := by
      rw [hptype]; decide
    rw [if_neg hne] at hrun
    cases hloop : execCalls ctx dryRun (planOnce raw).tool_calls ⟨[], none, none, none, store⟩ []
      with
    | escaped e s evs0 =>
      rw [hloop] at hrun
      exact Except.noConfusion hrun
    | failed e s evs0 =>
      rw [hloop] at hrun
      try dsimp only at hrun
      obtain ⟨n, ts, tcf, hn, htr, hmap, hget, hfail, hnb⟩ :=
        execCalls_failed_spec ctx dryRun _ _ _ _ _ _ rfl hloop
      have h2 := congrArg Prod.fst (Except.ok.inj hrun)
      simp only at h2
      subst h2
      have hts : s.trace = ts := by simpa using htr
      refine ⟨n, le_of_lt hn, ?_, ?_⟩
      · show s.trace.map _ = _
        rw [hts]
        exact hmap
      · intro i e hi hb
        have hi' : ts[i]? = some e := by
          rw [← hts]
          exact hi
        exact absurd hb (hnb e (List.getElem?_mem hi'))
    | done s evs0 =>
      rw [hloop] at hrun
      try dsimp only at hrun
      obtain ⟨n, ts, hn, htr, hmap, hbl, _⟩ :=
        execCalls_done_spec ctx dryRun _ _ _ _ _ rfl hloop
      have hts : s.trace = ts := by simpa using htr
      repeat' split at hrun
      all_goals
        (have h2 := congrArg Prod.fst (Except.ok.inj hrun)
         simp only at h2
         subst h2
         refine ⟨n, hn, ?_, ?_⟩
         · show s.trace.map _ = _
           rw [hts]
           exact hmap
         · intro i e hi hb
           have hi' : ts[i]? = some e := by
             rw [← hts]
             exact hi
           have := hbl i e hi' hb
           show i + 1 = s.trace.length
           rw [hts]
           exact this)

/-- C10: when a planned call fails (caught `ValueError`/`ValidationError`),
`run` returns the refusal response whose `tool_trace` is exactly the trace
accumulated at the failure — the entries of the previously successful
calls, in their original order; the failing call (the `n`-th planned call)
appended nothing: executing it from that very state is what produced the
error. -/
theorem failing_call_appends_nothing
    (ctx : RunCtx) (raw : String) (store : Store) (request : String) (dryRun : Bool)
    (e : Exc) (s' : ExecSt) (evs' : List String)
    (hgate : isMedicalAdviceRequest request = false)
    (hptype : (planOnce raw).type ≠ "refusal")
    (hloop : execCalls ctx dryRun (planOnce raw).tool_calls ⟨[], none, none, none, store⟩ []
      = .failed e s' evs') :
    run ctx raw store request dryRun =
      .ok ({ status := "refused", session_id := ctx.sessionId, dry_run := dryRun,
             request := request,
             refusal_reason := some (invalidArgsReasonHead ++ e.msg),
             patient := s'.patient, insurance_eligibility := s'.elig, appointment := s'.appt,
             tool_trace := s'.trace }, s'.store,
           ("request_received" :: "llm_plan" :: evs') ++ ["final_response"]) ∧
    ∃ n tcf, n < (planOnce raw).tool_calls.length ∧
      s'.trace.map TraceEntry.tool = (((planOnce raw).tool_calls.take n).map ToolCall.name) ∧
      (planOnce raw).tool_calls[n]? = some tcf ∧
      (executeToolCall ctx dryRun tcf s').2 = .error e := by
  constructor
  · simp only [run, hgate, Bool.false_eq_true, if_false, if_neg hptype, hloop]
    try dsimp only
    simp
  · obtain ⟨n, ts, tcf, hn, htr, hmap, hget, hfail, _⟩ :=
      execCalls_failed_spec ctx dryRun _ _ _ _ _ _ rfl hloop
    have hts : s'.trace = ts := by simpa using htr
    exact ⟨n, tcf, hn, by rw [hts]; exact hmap, hget, hfail⟩

/-- A fenced planner output with the canonical three-step booking plan. -/
def rawPlanBooking : String :=
  "```json\n\x7b\"type\": \"plan\", \"tool_calls\": [" ++
  "\x7b\"name\": \"search_patient\", \"arguments\": \x7b\"name_query\": \"Ravi\"\x7d\x7d, " ++
  "\x7b\"name\": \"find_available_slots\", \"arguments\": \x7b\"specialty\": \"cardiology\", \"start_date\": \"0\", \"end_date\": \"5\"\x7d\x7d, " ++
  "\x7b\"name\": \"book_appointment\", \"arguments\": \x7b\"patient_id\": \"<PATIENT_ID_FROM_SEARCH_PATIENT>\", \"slot_id\": \"<SLOT_ID_FROM_FIND_AVAILABLE_SLOTS>\", \"reason\": \"checkup\"\x7d\x7d" ++
  "], \"reason\": \"book\"\x7d\n```"

def raviPatient : Patient := ⟨"p1", "Ravi Kumar", none, none⟩

def bookingRunAppt : Appointment :=
  ⟨"appt-1", "booked", "p1", "Ravi Kumar", "d1", "Dr A", "s2", "cardiology",
   100000, 103600, "checkup", 999⟩

/-- The response of the canonical dry-run booking scenario. -/
def bookingRunResp : AgentResponse where
  status := "ok"
  session_id := "sess-1"
  dry_run := true
  request := "book a cardiology appointment for Ravi Kumar"
  refusal_reason := none
  patient := some raviPatient
  insurance_eligibility := none
  appointment := some bookingRunAppt
  tool_trace :=
    [⟨"search_patient", [("name_query", .str "Ravi")], .arr [dumpPatient raviPatient]⟩,
     ⟨"find_available_slots",
      [("specialty", .str "cardiology"), ("start_date", .str "0"), ("end_date", .str "5")],
      .arr [dumpSlot ⟨"s2", "cardiology", "d1", "Dr A", "Main", 100000, 103600, true⟩,
            dumpSlot ⟨"s1", "cardiology", "d1", "Dr A", "Main", 200000, 203600, true⟩]⟩,
     ⟨"book_appointment",
      [("patient_id", .str "p1"), ("slot_id", .str "s2"), ("reason", .str "checkup"),
       ("dry_run", .bool true)],
      dumpAppointment bookingRunAppt⟩]

set_option maxRecDepth 80000 in
/-- Witness for C4 on the canonical booking scenario. -/
theorem plan_execution_order_and_early_stop_witness :
    ∃ n, n ≤ (planOnce rawPlanBooking).tool_calls.length ∧
      bookingRunResp.tool_trace.map TraceEntry.tool =
        (((planOnce rawPlanBooking).tool_calls.take n).map ToolCall.name) ∧
      (∀ i e, bookingRunResp.tool_trace[i]? = some e → e.tool = "book_appointment" →
        i + 1 = bookingRunResp.tool_trace.length) :=
  plan_execution_order_and_early_stop sampleCtx rawPlanBooking sampleStore
    "book a cardiology appointment for Ravi Kumar" true bookingRunResp sampleStore
    ["request_received", "llm_plan", "tool_call", "tool_result", "tool_call", "tool_result",
     "tool_call", "tool_result", "final_response"]
    rfl rfl

/-- A plan whose second call fails (slot placeholder with no prior
find-slots step). -/
def rawPlanFailing : String :=
  "\x7b\"type\": \"plan\", \"tool_calls\": [" ++
  "\x7b\"name\": \"search_patient\", \"arguments\": \x7b\"name_query\": \"Ravi\"\x7d\x7d, " ++
  "\x7b\"name\": \"book_appointment\", \"arguments\": \x7b\"patient_id\": \"<PATIENT_ID_FROM_SEARCH_PATIENT>\", \"slot_id\": \"<SLOT_ID_FROM_FIND_AVAILABLE_SLOTS>\", \"reason\": \"checkup\"\x7d\x7d" ++
  "], \"reason\": \"book\"\x7d"

def failingRunSt : ExecSt :=
  ⟨[⟨"search_patient", [("name_query", .str "Ravi")], .arr [dumpPatient raviPatient]⟩],
   some raviPatient, none, none, sampleStore⟩

set_option maxRecDepth 80000 in
/-- Witness for C10: the failing second call appends nothing; the refusal
response's trace is exactly the successful search entry. -/
theorem failing_call_appends_nothing_witness :
    run sampleCtx rawPlanFailing sampleStore "book the earliest cardiology slot for Ravi" false =
      .ok ({ status := "refused", session_id := sampleCtx.sessionId, dry_run := false,
             request := "book the earliest cardiology slot for Ravi",
             refusal_reason := some (invalidArgsReasonHead ++
               "No available slots to choose from."),
             patient := failingRunSt.patient, insurance_eligibility := failingRunSt.elig,
             appointment := failingRunSt.appt, tool_trace := failingRunSt.trace },
           failingRunSt.store,
           ("request_received" :: "llm_plan" ::
             ["tool_call", "tool_result", "tool_error"]) ++ ["final_response"]) ∧
    ∃ n tcf, n < (planOnce rawPlanFailing).tool_calls.length ∧
      failingRunSt.trace.map TraceEntry.tool =
        (((planOnce rawPlanFailing).tool_calls.take n).map ToolCall.name) ∧
      (planOnce rawPlanFailing).tool_calls[n]? = some tcf ∧
      (executeToolCall sampleCtx false tcf failingRunSt).2 =
        .error ⟨.valErr, "No available slots to choose from."⟩ :=
  failing_call_appends_nothing sampleCtx rawPlanFailing sampleStore
    "book the earliest cardiology slot for Ravi" false
    ⟨.valErr, "No available slots to choose from."⟩ failingRunSt
    ["tool_call", "tool_result", "tool_error"]
    (by decide) (by decide) rfl

/-! ## C9: plan serialization round-trip

`planDumpVal` is `AgentPlan.model_dump()`; `dumpPlanText` serializes it
with the canonical JSON serialization `dumpVal` defined above.  The
round-trip claim is settled against `planOnce` (extraction plus schema
validation), for plans whose strings contain no brace characters — the
brace-counting extraction is blind to string literals, so a brace inside
a string breaks it (see the counterexample). -/

/-- `AgentPlan.model_dump()`. -/
def planDumpVal (p : AgentPlan) : Val :=
  .obj [("type", .str p.type),
        ("tool_calls", .arr (p.tool_calls.map (fun tc =>
          .obj [("name", .str tc.name), ("arguments", .obj tc.arguments)]))),
        ("reason", match p.reason with | none => .null | some r => .str r)]

/-- `json.dumps(plan.model_dump())` (fails only on non-JSON values, which
a plan never contains). -/
def dumpPlanText (p : AgentPlan) : Option String :=
  (dumpVal (planDumpVal p)).map (fun l => ⟨l⟩)

/-- No brace character anywhere in the string. -/
def braceFreeStr (s : String) : Bool :=
  s.data.all (fun c => c ≠ '\x7b' && c ≠ '\x7d')

mutual

/-- The value is JSON-serializable (no `datetime`/`date`), every string in
it (keys included) is brace-free, and every object has distinct keys. -/
def valSafe : Val → Bool
  | .null => true
  | .bool _ => true
  | .int _ => true
  | .str s => braceFreeStr s
  | .dt _ => false
  | .date _ => false
  | .arr xs => elemsSafe xs
  | .obj kvs => decide ((kvs.map Prod.fst).Nodup) && membersSafe kvs

def elemsSafe : List Val → Bool
  | [] => true
  | v :: vs => valSafe v && elemsSafe vs

def membersSafe : List (String × Val) → Bool
  | [] => true
  | (k, v) :: rest => braceFreeStr k && valSafe v && membersSafe rest

end

/-- The validator invariant of `AgentPlan` as a boolean. -/
def planWfB (p : AgentPlan) : Bool :=
  (p.type = "plan" || p.type = "refusal") &&
  (!(p.type = "plan") || !p.tool_calls.isEmpty) &&
  (!(p.type = "refusal") || !(p.reason.getD "").isEmpty)

/-- What may legally follow a serialized value inside a JSON document. -/
def restOk : List Char → Prop
  | [] => True
  | c :: _ => c = ',' ∨ c = ']' ∨ c = '\x7d'

theorem jsonSkipWs_of_head (l : List Char) (c : Char) (rest : List Char)
    (h : l = c :: rest) (hc : jsonWs c = false) : jsonSkipWs l = l := by
  subst h
  simp [jsonSkipWs, List.dropWhile, hc]

theorem jsonSkipWs_append_ws (pre l : List Char) (hpre : ∀ c ∈ pre, jsonWs c = true) :
    jsonSkipWs (pre ++ l) = jsonSkipWs l := by
  induction pre with
  | nil => rfl
  | cons c cs ih =>
    have hc : jsonWs c = true := hpre c (by simp)
    simp only [List.cons_append, jsonSkipWs, List.dropWhile, hc]
    exact ih (fun c hc => hpre c (by simp [hc]))

theorem decDigitVal_decDigitChar (d : Nat) (h : d < 10) :
    decDigitVal (decDigitChar d) = d := by
  interval_cases d <;> rfl

theorem isDecDigit_decDigitChar (d : Nat) (h : d < 10) :
    isDecDigit (decDigitChar d) = true := by
  interval_cases d <;> rfl

theorem natDigits_ne_nil (n : Nat) : natDigits n ≠ [] := by
  unfold natDigits
  split <;> simp

theorem natDigits_digits (n : Nat) : ∀ c ∈ natDigits n, isDecDigit c = true := by
  induction n using Nat.strong_induction_on with
  | _ n ih =>
    unfold natDigits
    split
    case isTrue h =>
      intro c hc
      rcases List.mem_singleton.mp hc with rfl
      exact isDecDigit_decDigitChar n h
    case isFalse h =>
      intro c hc
      rcases List.mem_append.mp hc with hc' | hc'
      · exact ih (n / 10) (Nat.div_lt_self (by omega) (by omega)) c hc'
      · rcases List.mem_singleton.mp hc' with rfl
        exact isDecDigit_decDigitChar (n % 10) (Nat.mod_lt _ (by omega))

/-- Reading digits back: the fold of `parseNatChars` inverts `natDigits`. -/
theorem digitsVal_natDigits (n : Nat) :
    (natDigits n).foldl (fun a c => 10 * a + decDigitVal c) 0 = n := by
  suffices h : ∀ n a, (natDigits n).foldl (fun a c => 10 * a + decDigitVal c) a
      = a * 10 ^ (natDigits n).length + n by
    have := h n 0
    simpa using this
  intro n
  induction n using Nat.strong_induction_on with
  | _ n ih =>
    intro a
    unfold natDigits
    split
    case isTrue h =>
      simp [List.foldl, decDigitVal_decDigitChar n h]
      omega
    case isFalse h =>
      rw [List.foldl_append]
      rw [ih (n / 10) (Nat.div_lt_self (by omega) (by omega)) a]
      simp only [List.foldl]
      rw [decDigitVal_decDigitChar (n % 10) (Nat.mod_lt _ (by omega))]
      rw [List.length_append]
      simp only [List.length_singleton]
      rw [pow_succ]
      have : 10 * (n / 10) + n % 10 = n := Nat.div_add_mod n 10
      ring_nf
      omega

theorem takeWhile_all_append (p : Char → Bool) (a b : List Char)
    (ha : ∀ c ∈ a, p c = true) :
    (a ++ b).takeWhile p = a ++ b.takeWhile p ∧ (a ++ b).dropWhile p = b.dropWhile p := by
  induction a with
  | nil => simp
  | cons c cs ih =>
    have hc : p c = true := ha c (by simp)
    have := ih (fun c hc' => ha c (by simp [hc']))
    simp only [List.cons_append, List.takeWhile, List.dropWhile, hc]
    exact ⟨by simpa using this.1, this.2⟩

/-- `parseNatChars` inverts `natDigits` when what follows cannot extend the
number. -/
theorem parseNatChars_complete (n : Nat) (rest : List Char) (hrest : restOk rest) :
    parseNatChars (natDigits n ++ rest) = some (n, rest) := by
  have hall := natDigits_digits n
  obtain ⟨htake, hdrop⟩ := takeWhile_all_append isDecDigit (natDigits n) rest hall
  have hrtake : rest.takeWhile isDecDigit = [] ∧ rest.dropWhile isDecDigit = rest := by
    cases rest with
    | nil => simp
    | cons c cs =>
      rcases hrest with rfl | rfl | rfl <;> simp [List.takeWhile, List.dropWhile, isDecDigit]
  unfold parseNatChars
  rw [htake, hdrop, hrtake.1, hrtake.2]
  simp only [List.append_nil]
  have hne : (natDigits n).isEmpty = false := by
    cases hn : natDigits n with
    | nil => exact absurd hn (natDigits_ne_nil n)
    | cons c cs => rfl
  rw [hne]
  cases rest with
  | nil =>
    simp only [Bool.false_eq_true, if_false]
    rw [digitsVal_natDigits]
  | cons c cs =>
    have hc : (c = '.' || c = 'e' || c = 'E') = false := by
      rcases hrest with rfl | rfl | rfl <;> rfl
    simp only [Bool.false_eq_true, if_false, hc]
    rw [digitsVal_natDigits]

theorem hexVal_hexDigitChar (d : Nat) (h : d < 16) :
    hexVal (hexDigitChar d) = some d := by
  interval_cases d <;> rfl

theorem escChar_length_pos (c : Char) : 0 < (escChar c).length := by
  unfold escChar
  split
  · simp
  split
  · simp
  split <;> simp

/-- One decoding step of `parseStrBody` undoes `escChar`. -/
theorem parseStrBody_cons (c : Char) (l rest : List Char) (fuel : Nat) (cs : List Char)
    (ih : parseStrBody fuel l = some (cs, rest)) :
    parseStrBody (fuel + 1) (escChar c ++ l) = some (c :: cs, rest) := by
  by_cases hq : c = '"'
  · subst hq
    have hstep : parseStrBody (fuel + 1) (escChar '"' ++ l)
        = (parseStrBody fuel l).map (fun (s, r) => ('"' :: s, r)) := rfl
    rw [hstep, ih]
    rfl
  · by_cases hb : c = '\\'
    · subst hb
      have hstep : parseStrBody (fuel + 1) (escChar '\\' ++ l)
          = (parseStrBody fuel l).map (fun (s, r) => ('\\' :: s, r)) := rfl
      rw [hstep, ih]
      rfl
    · by_cases h32 : c.toNat < 32
      · have hesc : escChar c = ['\\', 'u', '0', '0', hexDigitChar (c.toNat / 16),
            hexDigitChar (c.toNat % 16)] := by
          unfold escChar
          rw [if_neg hq, if_neg hb, if_pos h32]
        rw [hesc]
        have hstep : ∀ h1 h2 : Char, parseStrBody (fuel + 1)
            (['\\', 'u', '0', '0', h1, h2] ++ l)
            = (do
                let cc ← hexVal h1
                let d ← hexVal h2
                let code := ((0 * 16 + 0) * 16 + cc) * 16 + d
                if code < 0xd800 then
                  (parseStrBody fuel l).map (fun (s, r) => (Char.ofNat code :: s, r))
                else none) := fun h1 h2 => rfl
        rw [hstep, hexVal_hexDigitChar (c.toNat / 16) (by omega),
            hexVal_hexDigitChar (c.toNat % 16) (by omega)]
        simp only [Option.bind_eq_bind, Option.some_bind]
        rw [show ((0 * 16 + 0) * 16 + c.toNat / 16) * 16 + c.toNat % 16 = c.toNat from by omega]
        rw [if_pos (show c.toNat < 0xd800 from by omega), ih]
        simp only [Option.map_some, Char.ofNat_toNat]
        rfl
      · have hesc : escChar c = [c] := by
          unfold escChar
          rw [if_neg hq, if_neg hb, if_neg h32]
        rw [hesc]
        simp only [List.cons_append, List.nil_append]
        rw [parseStrBody.eq_def]
        dsimp only
        rw [if_neg hq, if_neg hb, if_neg h32, ih]
        rfl

/-- `parseStrBody` decodes exactly what `escChar` encoded, up to the closing
quote. -/
theorem parseStrBody_complete (l : List Char) :
    ∀ (fuel : Nat) (rest : List Char), (l.map escChar).flatten.length < fuel →
    parseStrBody fuel ((l.map escChar).flatten ++ '"' :: rest) = some (l, rest) := by
  induction l with
  | nil =>
    intro fuel rest hf
    cases fuel with
    | zero => omega
    | succ f =>
      show parseStrBody (f + 1) ('"' :: rest) = _
      rfl
  | cons c cs ih =>
    intro fuel rest hf
    simp only [List.map_cons, List.flatten_cons, List.length_append] at hf
    have hc := escChar_length_pos c
    cases fuel with
    | zero => omega
    | succ f =>
      have hrec := ih f rest (by omega)
      have := parseStrBody_cons c ((cs.map escChar).flatten ++ '"' :: rest) rest f cs hrec
      simpa [List.append_assoc] using this

theorem setKey_not_mem (acc : List (String × Val)) (k : String) (v : Val)
    (h : k ∉ acc.map Prod.fst) : setKey acc k v = acc ++ [(k, v)] := by
  induction acc with
  | nil => rfl
  | cons p rest ih =>
    simp only [List.map_cons, List.mem_cons, not_or] at h
    cases p with
    | mk k' v' =>
      simp only [setKey]
      rw [if_neg (by simpa using (Ne.symm h.1)), ih h.2]
      rfl

/-- Rebuilding an object from its members by repeated `d[k] = v` is the
identity when the keys are distinct. -/
theorem foldl_setKey_nodup (kvs : List (String × Val))
    (hnd : (kvs.map Prod.fst).Nodup) :
    kvs.foldl (fun acc p => setKey acc p.1 p.2) [] = kvs := by
  suffices h : ∀ (l : List (String × Val)) acc, (l.map Prod.fst).Nodup →
      (∀ k ∈ l.map Prod.fst, k ∉ acc.map Prod.fst) →
      l.foldl (fun acc p => setKey acc p.1 p.2) acc = acc ++ l by
    simpa using h kvs [] hnd (by simp)
  intro l
  induction l with
  | nil => intro acc _ _; simp
  | cons p rest ih =>
    intro acc hnd' hacc
    simp only [List.map_cons, List.nodup_cons] at hnd'
    simp only [List.foldl_cons]
    rw [setKey_not_mem acc p.1 p.2 (hacc p.1 (by simp))]
    rw [ih (acc ++ [(p.1, p.2)]) hnd'.2 ?_]
    · simp
    · intro k hk
      simp only [List.map_append, List.mem_append, not_or]
      refine ⟨hacc k (by simp [hk]), ?_⟩
      simp only [List.map_cons, List.map_nil, List.mem_singleton]
      intro hkp
      exact hnd'.1 (hkp ▸ hk)

theorem isDecDigit_bounds (c : Char) (h : isDecDigit c = true) :
    48 ≤ c.toNat ∧ c.toNat ≤ 57 := by
  simp only [isDecDigit, Bool.and_eq_true, decide_eq_true_eq] at h
  obtain ⟨h1, h2⟩ := h
  rw [Char.le_def] at h1 h2
  rw [UInt32.le_def] at h1 h2
  exact ⟨h1, h2⟩

theorem digit_ne_char (c d : Char) (hlo : 48 ≤ c.toNat) (hhi : c.toNat ≤ 57)
    (hd : d.toNat < 48 ∨ 57 < d.toNat) : ¬ c = d := by
  intro h
  subst h
  omega

theorem digit_not_ws (c : Char) (hlo : 48 ≤ c.toNat) (hhi : c.toNat ≤ 57) :
    jsonWs c = false := by
  simp only [jsonWs, Bool.or_eq_false_iff, decide_eq_false_iff_not]
  refine ⟨⟨⟨?_, ?_⟩, ?_⟩, ?_⟩ <;>
    exact digit_ne_char c _ hlo hhi (by decide)

/-! Head-dispatch lemmas for the fueled parser: each one rewrites one step
of `parseVal`/`parseElems`/`parseMembers` given the (already whitespace-
skipped) head of the input. -/

theorem parseVal_obj_empty (fuel : Nat) (l r2 rest' : List Char)
    (h : jsonSkipWs l = '\x7b' :: r2) (h2 : jsonSkipWs r2 = '\x7d' :: rest') :
    parseVal (fuel + 1) l = some (.obj [], rest') := by
  have hstep : parseVal (fuel + 1) l =
      (match jsonSkipWs r2 with
      | '\x7d' :: rest' => some (.obj [], rest')
      | l' => (parseMembers fuel l').map (fun (kvs, r) =>
          (.obj (kvs.foldl (fun acc p => setKey acc p.1 p.2) []), r))) := by
    rw [parseVal.eq_def]
    dsimp only
    rw [h]
    rfl
  rw [hstep, h2]
  rfl

theorem parseVal_obj_members (fuel : Nat) (l r2 : List Char) (c : Char) (cs : List Char)
    (h : jsonSkipWs l = '\x7b' :: r2) (h2 : jsonSkipWs r2 = c :: cs) (hc : ¬ c = '\x7d') :
    parseVal (fuel + 1) l = (parseMembers fuel (c :: cs)).map (fun (kvs, r) =>
      (.obj (kvs.foldl (fun acc p => setKey acc p.1 p.2) []), r)) := by
  have hstep : parseVal (fuel + 1) l =
      (match jsonSkipWs r2 with
      | '\x7d' :: rest' => some (.obj [], rest')
      | l' => (parseMembers fuel l').map (fun (kvs, r) =>
          (.obj (kvs.foldl (fun acc p => setKey acc p.1 p.2) []), r))) := by
    rw [parseVal.eq_def]
    dsimp only
    rw [h]
    rfl
  rw [hstep, h2]
  split
  case h_1 rest' heq =>
    exact absurd (List.cons.injEq .. ▸ congrArg id heq).1 hc
  case h_2 =>
    rfl

theorem parseVal_arr_empty (fuel : Nat) (l r2 rest' : List Char)
    (h : jsonSkipWs l = '[' :: r2) (h2 : jsonSkipWs r2 = ']' :: rest') :
    parseVal (fuel + 1) l = some (.arr [], rest') := by
  have hstep : parseVal (fuel + 1) l =
      (match jsonSkipWs r2 with
      | ']' :: rest' => some (.arr [], rest')
      | l' => (parseElems fuel l').map (fun (xs, r) => (.arr xs, r))) := by
    rw [parseVal.eq_def]
    dsimp only
    rw [h]
    rfl
  rw [hstep, h2]
  rfl

theorem parseVal_arr_elems (fuel : Nat) (l r2 : List Char) (c : Char) (cs : List Char)
    (h : jsonSkipWs l = '[' :: r2) (h2 : jsonSkipWs r2 = c :: cs) (hc : ¬ c = ']') :
    parseVal (fuel + 1) l = (parseElems fuel (c :: cs)).map (fun (xs, r) => (.arr xs, r)) := by
  have hstep : parseVal (fuel + 1) l =
      (match jsonSkipWs r2 with
      | ']' :: rest' => some (.arr [], rest')
      | l' => (parseElems fuel l').map (fun (xs, r) => (.arr xs, r))) := by
    rw [parseVal.eq_def]
    dsimp only
    rw [h]
    rfl
  rw [hstep, h2]
  split
  case h_1 rest' heq =>
    exact absurd (List.cons.injEq .. ▸ congrArg id heq).1 hc
  case h_2 =>
    rfl

theorem parseVal_str_head (fuel : Nat) (l r2 : List Char)
    (h : jsonSkipWs l = '"' :: r2) :
    parseVal (fuel + 1) l = (parseStrBody (r2.length + 1) r2).map
      (fun (s, r) => (.str ⟨s⟩, r)) := by
  rw [parseVal.eq_def]
  dsimp only
  rw [h]
  rfl

theorem parseVal_true_head (fuel : Nat) (l r2 : List Char)
    (h : jsonSkipWs l = 't' :: r2) :
    parseVal (fuel + 1) l =
      (if ['r', 'u', 'e'].isPrefixOf r2 then some (.bool true, r2.drop 3) else none) := by
  rw [parseVal.eq_def]
  dsimp only
  rw [h]
  rfl

theorem parseVal_false_head (fuel : Nat) (l r2 : List Char)
    (h : jsonSkipWs l = 'f' :: r2) :
    parseVal (fuel + 1) l =
      (if ['a', 'l', 's', 'e'].isPrefixOf r2 then some (.bool false, r2.drop 4) else none) := by
  rw [parseVal.eq_def]
  dsimp only
  rw [h]
  rfl

theorem parseVal_null_head (fuel : Nat) (l r2 : List Char)
    (h : jsonSkipWs l = 'n' :: r2) :
    parseVal (fuel + 1) l =
      (if ['u', 'l', 'l'].isPrefixOf r2 then some (.null, r2.drop 3) else none) := by
  rw [parseVal.eq_def]
  dsimp only
  rw [h]
  rfl

theorem parseVal_neg_head (fuel : Nat) (l r2 : List Char)
    (h : jsonSkipWs l = '-' :: r2) :
    parseVal (fuel + 1) l = (parseNatChars r2).map (fun (n, r) => (.int (-(n : Int)), r)) := by
  rw [parseVal.eq_def]
  dsimp only
  rw [h]
  rfl

theorem parseVal_digit_head (fuel : Nat) (l : List Char) (c : Char) (r2 : List Char)
    (h : jsonSkipWs l = c :: r2) (hd : isDecDigit c = true) :
    parseVal (fuel + 1) l = (parseNatChars (c :: r2)).map (fun (n, r) => (.int (n : Int), r)) := by
  obtain ⟨hlo, hhi⟩ := isDecDigit_bounds c hd
  rw [parseVal.eq_def]
  dsimp only
  rw [h]
  dsimp only
  rw [if_neg (digit_ne_char c _ hlo hhi (by decide)),
      if_neg (digit_ne_char c _ hlo hhi (by decide)),
      if_neg (digit_ne_char c _ hlo hhi (by decide)),
      if_neg (digit_ne_char c _ hlo hhi (by decide)),
      if_neg (digit_ne_char c _ hlo hhi (by decide)),
      if_neg (digit_ne_char c _ hlo hhi (by decide)),
      if_neg (digit_ne_char c _ hlo hhi (by decide)),
      if_pos hd]

theorem parseElems_comma (fuel : Nat) (l r r2 : List Char) (v : Val)
    (hv : parseVal fuel l = some (v, r)) (hr : jsonSkipWs r = ',' :: r2) :
    parseElems (fuel + 1) l = (parseElems fuel r2).map (fun (xs, r'') => (v :: xs, r'')) := by
  rw [parseElems.eq_def]
  dsimp only
  rw [hv]
  dsimp only [Option.bind_eq_bind, Option.some_bind]
  rw [hr]
  rfl

theorem parseElems_close (fuel : Nat) (l r r2 : List Char) (v : Val)
    (hv : parseVal fuel l = some (v, r)) (hr : jsonSkipWs r = ']' :: r2) :
    parseElems (fuel + 1) l = some ([v], r2) := by
  rw [parseElems.eq_def]
  dsimp only
  rw [hv]
  dsimp only [Option.bind_eq_bind, Option.some_bind]
  rw [hr]
  rfl

theorem parseMembers_colon (fuel : Nat) (kl : List Char) (k : List Char) (r r2 : List Char)
    (hk : parseStrBody (kl.length + 1) kl = some (k, r))
    (hr : jsonSkipWs r = ':' :: r2) :
    parseMembers (fuel + 1) ('"' :: kl) =
      Option.bind (parseVal fuel r2) (fun q =>
        match jsonSkipWs q.2 with
        | ',' :: r3 =>
          (parseMembers fuel (jsonSkipWs r3)).map (fun x => ((⟨k⟩, q.1) :: x.1, x.2))
        | '\x7d' :: r3 => some ([(⟨k⟩, q.1)], r3)
        | _ => none) := by
  have h0 : parseMembers (fuel + 1) ('"' :: kl) =
      Option.bind (parseStrBody (kl.length + 1) kl) (fun p =>
        match jsonSkipWs p.2 with
        | ':' :: r' =>
          Option.bind (parseVal fuel r') (fun q =>
            match jsonSkipWs q.2 with
            | ',' :: r3 =>
              (parseMembers fuel (jsonSkipWs r3)).map (fun x => ((⟨p.1⟩, q.1) :: x.1, x.2))
            | '\x7d' :: r3 => some ([(⟨p.1⟩, q.1)], r3)
            | _ => none)
        | _ => none) := rfl
  rw [h0, hk]
  show (match jsonSkipWs r with
    | ':' :: r' =>
      Option.bind (parseVal fuel r') (fun q =>
        match jsonSkipWs q.2 with
        | ',' :: r3 =>
          (parseMembers fuel (jsonSkipWs r3)).map (fun x => ((⟨k⟩, q.1) :: x.1, x.2))
        | '\x7d' :: r3 => some ([(⟨k⟩, q.1)], r3)
        | _ => none)
    | _ => none : Option (List (String × Val) × List Char)) = _
  rw [hr]
  rfl

theorem parseMembers_close (fuel : Nat) (kl : List Char) (k : List Char) (r r2 : List Char)
    (v : Val) (r'' r3 : List Char)
    (hk : parseStrBody (kl.length + 1) kl = some (k, r))
    (hr : jsonSkipWs r = ':' :: r2)
    (hv : parseVal fuel r2 = some (v, r''))
    (hr2 : jsonSkipWs r'' = '\x7d' :: r3) :
    parseMembers (fuel + 1) ('"' :: kl) = some ([(⟨k⟩, v)], r3) := by
  rw [parseMembers_colon fuel kl k r r2 hk hr, hv]
  show (match jsonSkipWs r'' with
    | ',' :: r3 =>
      (parseMembers fuel (jsonSkipWs r3)).map (fun x => ((⟨k⟩, v) :: x.1, x.2))
    | '\x7d' :: r3 => some ([(⟨k⟩, v)], r3)
    | _ => none : Option (List (String × Val) × List Char)) = _
  rw [hr2]
  rfl

theorem parseMembers_comma (fuel : Nat) (kl : List Char) (k : List Char) (r r2 : List Char)
    (v : Val) (r'' r3 : List Char)
    (hk : parseStrBody (kl.length + 1) kl = some (k, r))
    (hr : jsonSkipWs r = ':' :: r2)
    (hv : parseVal fuel r2 = some (v, r''))
    (hr2 : jsonSkipWs r'' = ',' :: r3) :
    parseMembers (fuel + 1) ('"' :: kl) =
      (parseMembers fuel (jsonSkipWs r3)).map (fun x => ((⟨k⟩, v) :: x.1, x.2)) := by
  rw [parseMembers_colon fuel kl k r r2 hk hr, hv]
  show (match jsonSkipWs r'' with
    | ',' :: r3 =>
      (parseMembers fuel (jsonSkipWs r3)).map (fun x => ((⟨k⟩, v) :: x.1, x.2))
    | '\x7d' :: r3 => some ([(⟨k⟩, v)], r3)
    | _ => none : Option (List (String × Val) × List Char)) = _
  rw [hr2]
  rfl

/-- The first character of a serialized value: never whitespace and never a
punctuation character that could close or continue an enclosing construct. -/
theorem dump_head (v : Val) (d : List Char) (h : dumpVal v = some d) :
    ∃ c cs, d = c :: cs ∧ jsonWs c = false ∧ ¬ c = ']' ∧ ¬ c = '\x7d' ∧
      ¬ c = ',' ∧ ¬ c = ':' := by
  cases v with
  | null =>
    obtain rfl : ['n', 'u', 'l', 'l'] = d := Option.some.inj h
    exact ⟨'n', _, rfl, by decide, by decide, by decide, by decide, by decide⟩
  | bool b =>
    cases b with
    | true =>
      obtain rfl : ['t', 'r', 'u', 'e'] = d := Option.some.inj h
      exact ⟨'t', _, rfl, by decide, by decide, by decide, by decide, by decide⟩
    | false =>
      obtain rfl : ['f', 'a', 'l', 's', 'e'] = d := Option.some.inj h
      exact ⟨'f', _, rfl, by decide, by decide, by decide, by decide, by decide⟩
  | int n =>
    obtain rfl : intChars n = d := Option.some.inj h
    by_cases hn : n < 0
    · refine ⟨'-', natDigits n.natAbs, ?_, by decide, by decide, by decide, by decide, by decide⟩
      rw [intChars, if_pos hn]
    · cases hnn : natDigits n.natAbs with
      | nil => exact absurd hnn (natDigits_ne_nil _)
      | cons c cs =>
        have hcd : isDecDigit c = true :=
          natDigits_digits n.natAbs c (by rw [hnn]; exact List.mem_cons_self c cs)
        obtain ⟨hlo, hhi⟩ := isDecDigit_bounds c hcd
        refine ⟨c, cs, ?_, digit_not_ws c hlo hhi,
          digit_ne_char c _ hlo hhi (by decide), digit_ne_char c _ hlo hhi (by decide),
          digit_ne_char c _ hlo hhi (by decide), digit_ne_char c _ hlo hhi (by decide)⟩
        rw [intChars, if_neg hn, hnn]
  | str s =>
    obtain rfl : quoteChars s = d := Option.some.inj h
    exact ⟨'"', _, rfl, by decide, by decide, by decide, by decide, by decide⟩
  | dt t => exact Option.noConfusion h
  | date t => exact Option.noConfusion h
  | arr xs =>
    have h' : (dumpElems xs).map (fun body => '[' :: body ++ [']']) = some d := h
    cases hb : dumpElems xs with
    | none => rw [hb] at h'; exact Option.noConfusion h'
    | some body =>
      rw [hb] at h'
      obtain rfl : '[' :: body ++ [']'] = d := Option.some.inj h'
      exact ⟨'[', _, rfl, by decide, by decide, by decide, by decide, by decide⟩
  | obj kvs =>
    have h' : (dumpMembers kvs).map (fun body => '\x7b' :: body ++ ['\x7d']) = some d := h
    cases hb : dumpMembers kvs with
    | none => rw [hb] at h'; exact Option.noConfusion h'
    | some body =>
      rw [hb] at h'
      obtain rfl : '\x7b' :: body ++ ['\x7d'] = d := Option.some.inj h'
      exact ⟨'\x7b', _, rfl, by decide, by decide, by decide, by decide, by decide⟩

/-- The first character of a serialized non-empty element list is the first
character of its first element's serialization. -/
theorem dumpElems_head (xs : List Val) (d : List Char) (hne : xs ≠ [])
    (h : dumpElems xs = some d) :
    ∃ c cs, d = c :: cs ∧ jsonWs c = false ∧ ¬ c = ']' ∧ ¬ c = '\x7d' ∧
      ¬ c = ',' ∧ ¬ c = ':' := by
  cases xs with
  | nil => exact absurd rfl hne
  | cons x xs' =>
    cases xs' with
    | nil => exact dump_head x d h
    | cons y ys =>
      have h' : (do
          let dx ← dumpVal x
          let ds ← dumpElems (y :: ys)
          pure (dx ++ ',' :: ' ' :: ds)) = some d := h
      cases hdx : dumpVal x with
      | none => rw [hdx] at h'; exact Option.noConfusion h'
      | some dx =>
        cases hds : dumpElems (y :: ys) with
        | none =>
          rw [hdx, hds] at h'
          exact Option.noConfusion h'
        | some ds =>
          rw [hdx, hds] at h'
          obtain rfl : dx ++ ',' :: ' ' :: ds = d := Option.some.inj h'
          obtain ⟨c, cs, rfl, hws, h1, h2, h3, h4⟩ := dump_head x dx hdx
          exact ⟨c, cs ++ ',' :: ' ' :: ds, rfl, hws, h1, h2, h3, h4⟩

/-- A serialized non-empty member list starts with the opening quote of its
first key. -/
theorem dumpMembers_head (kvs : List (String × Val)) (d : List Char) (hne : kvs ≠ [])
    (h : dumpMembers kvs = some d) : ∃ cs, d = '"' :: cs := by
  cases kvs with
  | nil => exact absurd rfl hne
  | cons p kvs' =>
    cases p with
    | mk k v =>
      cases kvs' with
      | nil =>
        have h' : (dumpVal v).map (fun dv => quoteChars k ++ ':' :: ' ' :: dv) = some d := h
        cases hdv : dumpVal v with
        | none => rw [hdv] at h'; exact Option.noConfusion h'
        | some dv =>
          rw [hdv] at h'
          obtain rfl : quoteChars k ++ ':' :: ' ' :: dv = d := Option.some.inj h'
          exact ⟨(k.data.map escChar).flatten ++ ['"'] ++ ':' :: ' ' :: dv, by
            simp [quoteChars]⟩
      | cons q m' =>
        have h' : (do
            let dv ← dumpVal v
            let ds ← dumpMembers (q :: m')
            pure (quoteChars k ++ ':' :: ' ' :: dv ++ ',' :: ' ' :: ds)) = some d := h
        cases hdv : dumpVal v with
        | none => rw [hdv] at h'; exact Option.noConfusion h'
        | some dv =>
          cases hds : dumpMembers (q :: m') with
          | none => rw [hdv, hds] at h'; exact Option.noConfusion h'
          | some ds =>
            rw [hdv, hds] at h'
            obtain rfl : quoteChars k ++ ':' :: ' ' :: dv ++ ',' :: ' ' :: ds = d :=
              Option.some.inj h'
            exact ⟨(k.data.map escChar).flatten ++ ['"'] ++ (':' :: ' ' :: dv ++ ',' :: ' ' :: ds),
              by simp [quoteChars]⟩

theorem isPrefixOf_self_append (a b : List Char) : a.isPrefixOf (a ++ b) = true := by
  induction a with
  | nil => simp [List.isPrefixOf]
  | cons c cs ih => simp [List.isPrefixOf, ih]

theorem skip_pre_head (pre : List Char) (c : Char) (cs rest : List Char)
    (hpre : ∀ x ∈ pre, jsonWs x = true) (hc : jsonWs c = false) :
    jsonSkipWs (pre ++ (c :: cs) ++ rest) = c :: (cs ++ rest) := by
  rw [List.append_assoc, jsonSkipWs_append_ws pre _ hpre, List.cons_append]
  exact jsonSkipWs_of_head _ c _ rfl hc

/-- Completeness of the fueled parser on serializer output: with enough fuel,
a serialized safe value (preceded by whitespace, followed by a legal
continuation) parses back to exactly that value. -/
theorem parse_complete (fuel : Nat) :
    (∀ (pre d rest : List Char) (v : Val), (∀ c ∈ pre, jsonWs c = true) →
      valSafe v = true → dumpVal v = some d → d.length < fuel → restOk rest →
      parseVal fuel (pre ++ d ++ rest) = some (v, rest)) ∧
    (∀ (pre d rest : List Char) (xs : List Val), xs ≠ [] → (∀ c ∈ pre, jsonWs c = true) →
      elemsSafe xs = true → dumpElems xs = some d → d.length + 2 ≤ fuel → restOk rest →
      parseElems fuel (pre ++ d ++ ']' :: rest) = some (xs, rest)) ∧
    (∀ (d rest : List Char) (kvs : List (String × Val)), kvs ≠ [] →
      membersSafe kvs = true → dumpMembers kvs = some d → d.length + 2 ≤ fuel → restOk rest →
      parseMembers fuel (d ++ '\x7d' :: rest) = some (kvs, rest)) := by
  induction fuel with
  | zero =>
    refine ⟨?_, ?_, ?_⟩
    · intro pre d rest v _ _ _ hlen _
      omega
    · intro pre d rest xs _ _ _ _ hlen _
      omega
    · intro d rest kvs _ _ _ hlen _
      omega
  | succ f ih =>
    obtain ⟨ihV, ihE, ihM⟩ := ih
    refine ⟨?_, ?_, ?_⟩
    · -- parseVal
      intro pre d rest v hpre hsafe hdump hlen hrest
      cases v with
      | null =>
        obtain rfl : ['n', 'u', 'l', 'l'] = d := Option.some.inj hdump
        rw [parseVal_null_head f _ _ (skip_pre_head pre 'n' ['u', 'l', 'l'] rest hpre (by decide))]
        rw [if_pos (isPrefixOf_self_append ['u', 'l', 'l'] rest)]
        rfl
      | bool b =>
        cases b with
        | true =>
          obtain rfl : ['t', 'r', 'u', 'e'] = d := Option.some.inj hdump
          rw [parseVal_true_head f _ _
            (skip_pre_head pre 't' ['r', 'u', 'e'] rest hpre (by decide))]
          rw [if_pos (isPrefixOf_self_append ['r', 'u', 'e'] rest)]
          rfl
        | false =>
          obtain rfl : ['f', 'a', 'l', 's', 'e'] = d := Option.some.inj hdump
          rw [parseVal_false_head f _ _
            (skip_pre_head pre 'f' ['a', 'l', 's', 'e'] rest hpre (by decide))]
          rw [if_pos (isPrefixOf_self_append ['a', 'l', 's', 'e'] rest)]
          rfl
      | int n =>
        obtain rfl : intChars n = d := Option.some.inj hdump
        by_cases hn : n < 0
        · rw [show intChars n = '-' :: natDigits n.natAbs from by rw [intChars, if_pos hn]]
          rw [parseVal_neg_head f _ _
            (skip_pre_head pre '-' (natDigits n.natAbs) rest hpre (by decide))]
          rw [parseNatChars_complete n.natAbs rest hrest]
          show some (Val.int (-(n.natAbs : Int)), rest) = some (.int n, rest)
          rw [show -((n.natAbs : Int)) = n from by omega]
        · cases hnn : natDigits n.natAbs with
          | nil => exact absurd hnn (natDigits_ne_nil _)
          | cons c cs =>
            have hcd : isDecDigit c = true :=
              natDigits_digits n.natAbs c (by rw [hnn]; exact List.mem_cons_self c cs)
            obtain ⟨hlo, hhi⟩ := isDecDigit_bounds c hcd
            rw [show intChars n = c :: cs from by rw [intChars, if_neg hn, hnn]]
            rw [parseVal_digit_head f _ c _
              (skip_pre_head pre c cs rest hpre (digit_not_ws c hlo hhi)) hcd]
            rw [show c :: (cs ++ rest) = natDigits n.natAbs ++ rest from by
              rw [hnn]; rfl]
            rw [parseNatChars_complete n.natAbs rest hrest]
            show some (Val.int ((n.natAbs : Int)), rest) = some (.int n, rest)
            rw [show ((n.natAbs : Int)) = n from by omega]
      | str s =>
        obtain rfl : quoteChars s = d := Option.some.inj hdump
        rw [show quoteChars s = '"' :: ((s.data.map escChar).flatten ++ ['"']) from rfl]
        rw [parseVal_str_head f _ _
          (skip_pre_head pre '"' ((s.data.map escChar).flatten ++ ['"']) rest hpre (by decide))]
        simp only [List.append_assoc, List.singleton_append]
        rw [parseStrBody_complete s.data _ rest (by
          simp only [List.length_append, List.length_cons]
          omega)]
        rfl
      | dt t => exact Option.noConfusion hdump
      | date t => exact Option.noConfusion hdump
      | arr xs =>
        have h' : (dumpElems xs).map (fun body => '[' :: body ++ [']']) = some d := hdump
        cases hb : dumpElems xs with
        | none =>
          rw [hb] at h'
          exact Option.noConfusion h'
        | some body =>
          rw [hb] at h'
          obtain rfl : '[' :: body ++ [']'] = d := Option.some.inj h'
          show parseVal (f + 1) (pre ++ ('[' :: (body ++ [']'])) ++ rest) =
            some (Val.arr xs, rest)
          have hskip := skip_pre_head pre '[' (body ++ [']']) rest hpre (by decide)
          cases xs with
          | nil =>
            obtain rfl : ([] : List Char) = body := Option.some.inj hb
            exact parseVal_arr_empty f _ _ rest hskip (by
              simp only [List.nil_append, List.singleton_append]
              exact jsonSkipWs_of_head _ ']' rest rfl (by decide))
          | cons x xs' =>
            obtain ⟨c, cs, hbody, hws, hnr, _, _, _⟩ :=
              dumpElems_head (x :: xs') body (by simp) hb
            have h2 : jsonSkipWs ((body ++ [']']) ++ rest) = c :: (cs ++ ']' :: rest) := by
              rw [hbody]
              simp only [List.cons_append, List.append_assoc, List.singleton_append]
              exact jsonSkipWs_of_head _ c _ rfl hws
            rw [parseVal_arr_elems f _ _ c (cs ++ ']' :: rest) hskip h2 hnr]
            have hE := ihE [] body rest (x :: xs') (by simp) (by simp)
              hsafe hb (by
                simp only [List.length_append, List.length_cons, List.length_singleton] at hlen
                omega) hrest
            rw [hbody] at hE
            simp only [List.nil_append, List.cons_append] at hE
            rw [hE]
            rfl
      | obj kvs =>
        have h' : (dumpMembers kvs).map (fun body => '\x7b' :: body ++ ['\x7d']) = some d :=
          hdump
        have hso : (decide ((kvs.map Prod.fst).Nodup) && membersSafe kvs) = true := hsafe
        rw [Bool.and_eq_true] at hso
        obtain ⟨hnd', hms⟩ := hso
        have hnd := of_decide_eq_true hnd'
        cases hb : dumpMembers kvs with
        | none =>
          rw [hb] at h'
          exact Option.noConfusion h'
        | some body =>
          rw [hb] at h'
          obtain rfl : '\x7b' :: body ++ ['\x7d'] = d := Option.some.inj h'
          show parseVal (f + 1) (pre ++ ('\x7b' :: (body ++ ['\x7d'])) ++ rest) =
            some (Val.obj kvs, rest)
          have hskip := skip_pre_head pre '\x7b' (body ++ ['\x7d']) rest hpre (by decide)
          cases kvs with
          | nil =>
            obtain rfl : ([] : List Char) = body := Option.some.inj hb
            exact parseVal_obj_empty f _ _ rest hskip (by
              simp only [List.nil_append, List.singleton_append]
              exact jsonSkipWs_of_head _ '\x7d' rest rfl (by decide))
          | cons p kvs' =>
            obtain ⟨bcs, hbody⟩ := dumpMembers_head (p :: kvs') body (by simp) hb
            have h2 : jsonSkipWs ((body ++ ['\x7d']) ++ rest) =
                '"' :: (bcs ++ '\x7d' :: rest) := by
              rw [hbody]
              simp only [List.cons_append, List.append_assoc, List.singleton_append]
              exact jsonSkipWs_of_head _ '"' _ rfl (by decide)
            rw [parseVal_obj_members f _ _ '"' (bcs ++ '\x7d' :: rest) hskip h2 (by decide)]
            have hM := ihM body rest (p :: kvs') (by simp) hms hb (by
              simp only [List.length_append, List.length_cons, List.length_singleton] at hlen
              omega) hrest
            rw [hbody] at hM
            simp only [List.cons_append] at hM
            rw [hM]
            show some (Val.obj ((p :: kvs').foldl (fun acc q => setKey acc q.1 q.2) []), rest)
              = _
            rw [foldl_setKey_nodup (p :: kvs') hnd]
    · -- parseElems
      intro pre d rest xs hne hpre hsafe hdump hlen hrest
      cases xs with
      | nil => exact absurd rfl hne
      | cons x xs' =>
        have hsafe' : (valSafe x && elemsSafe xs') = true := hsafe
        rw [Bool.and_eq_true] at hsafe'
        obtain ⟨hsx, hsxs⟩ := hsafe'
        cases xs' with
        | nil =>
          have hdx : dumpVal x = some d := hdump
          have hV := ihV pre d (']' :: rest) x hpre hsx hdx (by omega)
            (Or.inr (Or.inl rfl))
          exact parseElems_close f _ _ rest x hV
            (jsonSkipWs_of_head _ ']' rest rfl (by decide))
        | cons y ys =>
          have h' : (do
              let dx ← dumpVal x
              let ds ← dumpElems (y :: ys)
              pure (dx ++ ',' :: ' ' :: ds)) = some d := hdump
          cases hdx : dumpVal x with
          | none =>
            rw [hdx] at h'
            exact Option.noConfusion h'
          | some dx =>
            cases hds : dumpElems (y :: ys) with
            | none =>
              rw [hdx, hds] at h'
              exact Option.noConfusion h'
            | some ds =>
              rw [hdx, hds] at h'
              obtain rfl : dx ++ ',' :: ' ' :: ds = d := Option.some.inj h'
              obtain ⟨cx, csx, hdxbody, _, _, _, _, _⟩ := dump_head x dx hdx
              have hlens : dx.length + 2 + ds.length + 2 ≤ f + 1 := by
                simp only [List.length_append, List.length_cons] at hlen
                omega
              have hdxlen : 0 < dx.length := by
                rw [hdxbody]
                simp
              have hV := ihV pre dx (',' :: ' ' :: (ds ++ ']' :: rest)) x hpre hsx hdx
                (by omega) (Or.inl rfl)
              have hinput : pre ++ (dx ++ ',' :: ' ' :: ds) ++ ']' :: rest =
                  pre ++ dx ++ (',' :: ' ' :: (ds ++ ']' :: rest)) := by
                simp [List.append_assoc]
              rw [hinput]
              rw [parseElems_comma f _ _ (' ' :: (ds ++ ']' :: rest)) x hV
                (jsonSkipWs_of_head _ ',' _ rfl (by decide))]
              have hE := ihE [' '] ds rest (y :: ys) (by simp) (by decide)
                hsxs hds (by omega) hrest
              simp only [List.singleton_append, List.cons_append, List.nil_append] at hE
              rw [hE]
              rfl
    · -- parseMembers
      intro d rest kvs hne hsafe hdump hlen hrest
      cases kvs with
      | nil => exact absurd rfl hne
      | cons p kvs' =>
        cases p with
        | mk k v =>
          have hsafe' : (braceFreeStr k && valSafe v && membersSafe kvs') = true := hsafe
          rw [Bool.and_eq_true, Bool.and_eq_true] at hsafe'
          obtain ⟨⟨hbk, hsv⟩, hms'⟩ := hsafe'
          cases kvs' with
          | nil =>
            have h' : (dumpVal v).map (fun dv => quoteChars k ++ ':' :: ' ' :: dv) =
                some d := hdump
            cases hdv : dumpVal v with
            | none =>
              rw [hdv] at h'
              exact Option.noConfusion h'
            | some dv =>
              rw [hdv] at h'
              obtain rfl : quoteChars k ++ ':' :: ' ' :: dv = d := Option.some.inj h'
              have hshape : (quoteChars k ++ ':' :: ' ' :: dv) ++ '\x7d' :: rest =
                  '"' :: ((k.data.map escChar).flatten ++
                    '"' :: ':' :: ' ' :: (dv ++ '\x7d' :: rest)) := by
                simp [quoteChars]
              rw [hshape]
              have hlen' : (k.data.map escChar).flatten.length + dv.length + 6 ≤ f + 1 := by
                simp only [List.length_append, List.length_cons, quoteChars] at hlen
                omega
              have hV := ihV [' '] dv ('\x7d' :: rest) v (by decide) hsv hdv (by omega)
                (Or.inr (Or.inr rfl))
              simp only [List.singleton_append, List.cons_append, List.nil_append] at hV
              exact parseMembers_close f _ k.data
                (':' :: ' ' :: (dv ++ '\x7d' :: rest))
                (' ' :: (dv ++ '\x7d' :: rest)) v ('\x7d' :: rest) rest
                (parseStrBody_complete k.data _ _ (by
                  simp only [List.length_append, List.length_cons]
                  omega))
                (jsonSkipWs_of_head _ ':' _ rfl (by decide))
                hV
                (jsonSkipWs_of_head _ '\x7d' rest rfl (by decide))
          | cons q m' =>
            have h' : (do
                let dv ← dumpVal v
                let ds ← dumpMembers (q :: m')
                pure (quoteChars k ++ ':' :: ' ' :: dv ++ ',' :: ' ' :: ds)) = some d :=
              hdump
            cases hdv : dumpVal v with
            | none =>
              rw [hdv] at h'
              exact Option.noConfusion h'
            | some dv =>
              cases hds : dumpMembers (q :: m') with
              | none =>
                rw [hdv, hds] at h'
                exact Option.noConfusion h'
              | some ds =>
                rw [hdv, hds] at h'
                obtain rfl : quoteChars k ++ ':' :: ' ' :: dv ++ ',' :: ' ' :: ds = d :=
                  Option.some.inj h'
                have hshape : (quoteChars k ++ ':' :: ' ' :: dv ++ ',' :: ' ' :: ds) ++
                    '\x7d' :: rest =
                    '"' :: ((k.data.map escChar).flatten ++
                      '"' :: ':' :: ' ' :: (dv ++ ',' :: ' ' :: (ds ++ '\x7d' :: rest))) := by
                  simp [quoteChars]
                rw [hshape]
                obtain ⟨dscs, hdsbody⟩ := dumpMembers_head (q :: m') ds (by simp) hds
                have hlen' : (k.data.map escChar).flatten.length + dv.length +
                    ds.length + 8 ≤ f + 1 := by
                  simp only [List.length_append, List.length_cons, quoteChars] at hlen
                  omega
                have hV := ihV [' '] dv (',' :: ' ' :: (ds ++ '\x7d' :: rest)) v (by decide)
                  hsv hdv (by omega) (Or.inl rfl)
                simp only [List.singleton_append, List.cons_append, List.nil_append] at hV
                have hM := ihM ds rest (q :: m') (by simp) hms' hds (by omega) hrest
                rw [parseMembers_comma f _ k.data
                  (':' :: ' ' :: (dv ++ ',' :: ' ' :: (ds ++ '\x7d' :: rest)))
                  (' ' :: (dv ++ ',' :: ' ' :: (ds ++ '\x7d' :: rest))) v
                  (',' :: ' ' :: (ds ++ '\x7d' :: rest)) (' ' :: (ds ++ '\x7d' :: rest))
                  (parseStrBody_complete k.data _ _ (by
                    simp only [List.length_append, List.length_cons]
                    omega))
                  (jsonSkipWs_of_head _ ':' _ rfl (by decide))
                  hV
                  (jsonSkipWs_of_head _ ',' _ rfl (by decide))]
                have hskip3 : jsonSkipWs (' ' :: (ds ++ '\x7d' :: rest)) =
                    ds ++ '\x7d' :: rest := by
                  rw [show (' ' :: (ds ++ '\x7d' :: rest)) =
                    [' '] ++ (ds ++ '\x7d' :: rest) from rfl]
                  rw [jsonSkipWs_append_ws [' '] _ (by decide)]
                  rw [hdsbody]
                  exact jsonSkipWs_of_head _ '"' _ rfl (by decide)
                rw [hskip3, hM]
                rfl

/-! ### Brace-balance of serializer output

`extract_first_json_object` counts braces without regard to string
literals.  On output of the serializer whose strings are brace-free, every
serialized fragment is neutral for the scan at depth ≥ 1. -/

/-- The fragment `d` passes through `braceScan` at any depth ≥ 1 without
ending the scan, prefixing the result. -/
def scanBal (d : List Char) : Prop :=
  ∀ (depth : Int) (rest : List Char), 1 ≤ depth →
    braceScan (d ++ rest) depth = (braceScan rest depth).map (d ++ ·)

theorem scanBal_nil : scanBal [] := by
  intro depth rest _
  simp

theorem scanBal_append (a b : List Char) (ha : scanBal a) (hb : scanBal b) :
    scanBal (a ++ b) := by
  intro depth rest hd
  rw [List.append_assoc, ha depth (b ++ rest) hd, hb depth rest hd]
  rw [Option.map_map]
  cases braceScan rest depth with
  | none => rfl
  | some l =>
    simp [List.append_assoc]

theorem scanBal_char (c : Char) (h1 : ¬ c = '\x7b') (h2 : ¬ c = '\x7d') :
    scanBal [c] := by
  intro depth rest hd
  show braceScan (c :: rest) depth = _
  rw [braceScan.eq_def]
  dsimp only
  rw [if_neg h1, if_neg h2]
  cases braceScan rest depth with
  | none => rfl
  | some l => rfl

theorem scanBal_no_braces (d : List Char) (h : ∀ c ∈ d, ¬ c = '\x7b' ∧ ¬ c = '\x7d') :
    scanBal d := by
  induction d with
  | nil => exact scanBal_nil
  | cons c cs ih =>
    have hc := h c (by simp)
    have := scanBal_append [c] cs (scanBal_char c hc.1 hc.2)
      (ih (fun c hc' => h c (by simp [hc'])))
    simpa using this

theorem scanBal_wrap (inner : List Char) (h : scanBal inner) :
    scanBal ('\x7b' :: inner ++ ['\x7d']) := by
  intro depth rest hd
  have hstep : braceScan (('\x7b' :: inner ++ ['\x7d']) ++ rest) depth =
      (braceScan ((inner ++ ['\x7d']) ++ rest) (depth + 1)).map ('\x7b' :: ·) := by
    rw [show (('\x7b' :: inner ++ ['\x7d']) ++ rest) =
      '\x7b' :: ((inner ++ ['\x7d']) ++ rest) from by simp]
    rw [braceScan.eq_def]
    dsimp only
    rw [if_pos rfl]
  rw [hstep, List.append_assoc]
  simp only [List.singleton_append]
  rw [h (depth + 1) ('\x7d' :: rest) (by omega)]
  have hclose : braceScan ('\x7d' :: rest) (depth + 1) =
      (braceScan rest depth).map ('\x7d' :: ·) := by
    rw [braceScan.eq_def]
    dsimp only
    rw [if_neg (by decide), if_pos rfl, if_neg (by omega : ¬ depth + 1 = 1)]
    rw [show depth + 1 - 1 = depth from by omega]
  rw [hclose, Option.map_map, Option.map_map]
  cases braceScan rest depth with
  | none => rfl
  | some l =>
    simp [List.append_assoc]

theorem decDigitCharPre_no_braces (d : Nat) :
    ¬ decDigitCharPre d = '\x7b' ∧ ¬ decDigitCharPre d = '\x7d' := by
  unfold decDigitCharPre
  split <;> exact ⟨by decide, by decide⟩

theorem hexDigitChar_no_braces (d : Nat) :
    ¬ hexDigitChar d = '\x7b' ∧ ¬ hexDigitChar d = '\x7d' := by
  unfold hexDigitChar
  repeat' split
  all_goals first
  | exact decDigitCharPre_no_braces d
  | exact ⟨by decide, by decide⟩

theorem escChar_no_braces (c : Char) (h1 : ¬ c = '\x7b') (h2 : ¬ c = '\x7d') :
    ∀ c' ∈ escChar c, ¬ c' = '\x7b' ∧ ¬ c' = '\x7d' := by
  intro c' hc'
  unfold escChar at hc'
  split at hc'
  · simp only [List.mem_cons, List.not_mem_nil, or_false] at hc'
    rcases hc' with rfl | rfl
    · exact ⟨by decide, by decide⟩
    · exact ⟨by decide, by decide⟩
  split at hc'
  · simp only [List.mem_cons, List.not_mem_nil, or_false] at hc'
    rcases hc' with rfl | rfl
    · exact ⟨by decide, by decide⟩
    · exact ⟨by decide, by decide⟩
  split at hc'
  · simp only [List.mem_cons, List.not_mem_nil, or_false] at hc'
    rcases hc' with rfl | rfl | rfl | rfl | rfl | rfl
    · exact ⟨by decide, by decide⟩
    · exact ⟨by decide, by decide⟩
    · exact ⟨by decide, by decide⟩
    · exact ⟨by decide, by decide⟩
    · exact hexDigitChar_no_braces _
    · exact hexDigitChar_no_braces _
  · simp only [List.mem_singleton] at hc'
    subst hc'
    exact ⟨h1, h2⟩

theorem quoteChars_scanBal (s : String) (h : braceFreeStr s = true) :
    scanBal (quoteChars s) := by
  apply scanBal_no_braces
  intro c hc
  rw [show quoteChars s = '"' :: ((s.data.map escChar).flatten ++ ['"']) from rfl] at hc
  rcases List.mem_cons.mp hc with rfl | hc2
  · exact ⟨by decide, by decide⟩
  rcases List.mem_append.mp hc2 with hc | hc4
  case inr =>
    rcases List.mem_singleton.mp hc4 with rfl
    exact ⟨by decide, by decide⟩
  · rw [List.mem_flatten] at hc
    obtain ⟨l, hl, hcl⟩ := hc
    rw [List.mem_map] at hl
    obtain ⟨c0, hc0, rfl⟩ := hl
    have hbf : ¬ c0 = '\x7b' ∧ ¬ c0 = '\x7d' := by
      have := (List.all_eq_true.mp h) c0 hc0
      simpa [Bool.and_eq_true, decide_eq_true_eq] using this
    exact escChar_no_braces c0 hbf.1 hbf.2 c hcl

theorem intChars_scanBal (n : Int) : scanBal (intChars n) := by
  apply scanBal_no_braces
  intro c hc
  unfold intChars at hc
  have hdig : ∀ c', isDecDigit c' = true → ¬ c' = '\x7b' ∧ ¬ c' = '\x7d' := by
    intro c' h'
    obtain ⟨hlo, hhi⟩ := isDecDigit_bounds c' h'
    exact ⟨digit_ne_char c' _ hlo hhi (by decide), digit_ne_char c' _ hlo hhi (by decide)⟩
  split at hc
  · rcases List.mem_cons.mp hc with rfl | hc'
    · exact ⟨by decide, by decide⟩
    · exact hdig c (natDigits_digits _ c hc')
  · exact hdig c (natDigits_digits _ c hc)

/-- Serializer output of a safe value is brace-balanced and passes through
the naive scan at depth ≥ 1. -/
theorem scan_dump (n : Nat) :
    (∀ (v : Val) (d : List Char), sizeOf v ≤ n → valSafe v = true → dumpVal v = some d →
      scanBal d) ∧
    (∀ (xs : List Val) (d : List Char), sizeOf xs ≤ n → elemsSafe xs = true →
      dumpElems xs = some d → scanBal d) ∧
    (∀ (kvs : List (String × Val)) (d : List Char), sizeOf kvs ≤ n →
      membersSafe kvs = true → dumpMembers kvs = some d → scanBal d) := by
  induction n with
  | zero =>
    refine ⟨?_, ?_, ?_⟩
    · intro v d hs _ _
      exfalso
      cases v <;> simp at hs
    · intro xs d hs _ _
      exfalso
      cases xs <;> simp at hs
    · intro kvs d hs _ _
      exfalso
      cases kvs <;> simp at hs
  | succ m ih =>
    obtain ⟨ihV, ihE, ihM⟩ := ih
    refine ⟨?_, ?_, ?_⟩
    · intro v d hs hsafe hdump
      cases v with
      | null =>
        obtain rfl : ['n', 'u', 'l', 'l'] = d := Option.some.inj hdump
        exact scanBal_no_braces _ (by decide)
      | bool b =>
        cases b with
        | true =>
          obtain rfl : ['t', 'r', 'u', 'e'] = d := Option.some.inj hdump
          exact scanBal_no_braces _ (by decide)
        | false =>
          obtain rfl : ['f', 'a', 'l', 's', 'e'] = d := Option.some.inj hdump
          exact scanBal_no_braces _ (by decide)
      | int k =>
        obtain rfl : intChars k = d := Option.some.inj hdump
        exact intChars_scanBal k
      | str s =>
        obtain rfl : quoteChars s = d := Option.some.inj hdump
        exact quoteChars_scanBal s hsafe
      | dt t => exact Option.noConfusion hdump
      | date t => exact Option.noConfusion hdump
      | arr xs =>
        have h' : (dumpElems xs).map (fun body => '[' :: body ++ [']']) = some d := hdump
        cases hb : dumpElems xs with
        | none =>
          rw [hb] at h'
          exact Option.noConfusion h'
        | some body =>
          rw [hb] at h'
          obtain rfl : '[' :: body ++ [']'] = d := Option.some.inj h'
          have hsz : sizeOf xs ≤ m := by
            simp only [Val.arr.sizeOf_spec] at hs
            omega
          exact scanBal_append ['['] (body ++ [']'])
            (scanBal_char '[' (by decide) (by decide))
            (scanBal_append body [']'] (ihE xs body hsz hsafe hb)
              (scanBal_char ']' (by decide) (by decide)))
      | obj kvs =>
        have h' : (dumpMembers kvs).map (fun body => '\x7b' :: body ++ ['\x7d']) = some d :=
          hdump
        have hso : (decide ((kvs.map Prod.fst).Nodup) && membersSafe kvs) = true := hsafe
        rw [Bool.and_eq_true] at hso
        cases hb : dumpMembers kvs with
        | none =>
          rw [hb] at h'
          exact Option.noConfusion h'
        | some body =>
          rw [hb] at h'
          obtain rfl : '\x7b' :: body ++ ['\x7d'] = d := Option.some.inj h'
          have hsz : sizeOf kvs ≤ m := by
            simp only [Val.obj.sizeOf_spec] at hs
            omega
          exact scanBal_wrap body (ihM kvs body hsz hso.2 hb)
    · intro xs d hs hsafe hdump
      cases xs with
      | nil =>
        obtain rfl : ([] : List Char) = d := Option.some.inj hdump
        exact scanBal_nil
      | cons x xs' =>
        have hp : (valSafe x && elemsSafe xs') = true := hsafe
        rw [Bool.and_eq_true] at hp
        have hszx : sizeOf x ≤ m ∧ sizeOf xs' ≤ m := by
          simp only [List.cons.sizeOf_spec] at hs
          constructor <;> omega
        cases xs' with
        | nil => exact ihV x d hszx.1 hp.1 hdump
        | cons y ys =>
          have h' : (do
              let dx ← dumpVal x
              let ds ← dumpElems (y :: ys)
              pure (dx ++ ',' :: ' ' :: ds)) = some d := hdump
          cases hdx : dumpVal x with
          | none =>
            rw [hdx] at h'
            exact Option.noConfusion h'
          | some dx =>
            cases hds : dumpElems (y :: ys) with
            | none =>
              rw [hdx, hds] at h'
              exact Option.noConfusion h'
            | some ds =>
              rw [hdx, hds] at h'
              obtain rfl : dx ++ ',' :: ' ' :: ds = d := Option.some.inj h'
              exact scanBal_append dx ([','] ++ ([' '] ++ ds))
                (ihV x dx hszx.1 hp.1 hdx)
                (scanBal_append [','] ([' '] ++ ds)
                  (scanBal_char ',' (by decide) (by decide))
                  (scanBal_append [' '] ds
                    (scanBal_char ' ' (by decide) (by decide))
                    (ihE (y :: ys) ds hszx.2 hp.2 hds)))
    · intro kvs d hs hsafe hdump
      cases kvs with
      | nil =>
        obtain rfl : ([] : List Char) = d := Option.some.inj hdump
        exact scanBal_nil
      | cons p kvs' =>
        cases p with
        | mk k v =>
          have hp : (braceFreeStr k && valSafe v && membersSafe kvs') = true := hsafe
          rw [Bool.and_eq_true, Bool.and_eq_true] at hp
          obtain ⟨⟨hbk, hsv⟩, hms⟩ := hp
          have hszv : sizeOf v ≤ m ∧ sizeOf kvs' ≤ m := by
            simp only [List.cons.sizeOf_spec, Prod.mk.sizeOf_spec] at hs
            constructor <;> omega
          cases kvs' with
          | nil =>
            have h' : (dumpVal v).map (fun dv => quoteChars k ++ ':' :: ' ' :: dv) =
                some d := hdump
            cases hdv : dumpVal v with
            | none =>
              rw [hdv] at h'
              exact Option.noConfusion h'
            | some dv =>
              rw [hdv] at h'
              obtain rfl : quoteChars k ++ ':' :: ' ' :: dv = d := Option.some.inj h'
              exact scanBal_append (quoteChars k) ([':'] ++ ([' '] ++ dv))
                (quoteChars_scanBal k hbk)
                (scanBal_append [':'] ([' '] ++ dv)
                  (scanBal_char ':' (by decide) (by decide))
                  (scanBal_append [' '] dv
                    (scanBal_char ' ' (by decide) (by decide))
                    (ihV v dv hszv.1 hsv hdv)))
          | cons q m' =>
            have h' : (do
                let dv ← dumpVal v
                let ds ← dumpMembers (q :: m')
                pure (quoteChars k ++ ':' :: ' ' :: dv ++ ',' :: ' ' :: ds)) = some d :=
              hdump
            cases hdv : dumpVal v with
            | none =>
              rw [hdv] at h'
              exact Option.noConfusion h'
            | some dv =>
              cases hds : dumpMembers (q :: m') with
              | none =>
                rw [hdv, hds] at h'
                exact Option.noConfusion h'
              | some ds =>
                rw [hdv, hds] at h'
                obtain rfl : quoteChars k ++ ':' :: ' ' :: dv ++ ',' :: ' ' :: ds = d :=
                  Option.some.inj h'
                exact scanBal_append (quoteChars k ++ ':' :: ' ' :: dv)
                  ([','] ++ ([' '] ++ ds))
                  (scanBal_append (quoteChars k) ([':'] ++ ([' '] ++ dv))
                    (quoteChars_scanBal k hbk)
                    (scanBal_append [':'] ([' '] ++ dv)
                      (scanBal_char ':' (by decide) (by decide))
                      (scanBal_append [' '] dv
                        (scanBal_char ' ' (by decide) (by decide))
                        (ihV v dv hszv.1 hsv hdv))))
                  (scanBal_append [','] ([' '] ++ ds)
                    (scanBal_char ',' (by decide) (by decide))
                    (scanBal_append [' '] ds
                      (scanBal_char ' ' (by decide) (by decide))
                      (ihM (q :: m') ds hszv.2 hms hds)))

theorem dropWhile_append_all (p : Char → Bool) (a b : List Char)
    (ha : ∀ c ∈ a, p c = true) : (a ++ b).dropWhile p = b.dropWhile p := by
  induction a with
  | nil => rfl
  | cons c cs ih =>
    have hc : p c = true := ha c (by simp)
    simp only [List.cons_append, List.dropWhile, hc]
    exact ih (fun c hc' => ha c (by simp [hc']))

theorem dropWhile_cons_false (p : Char → Bool) (c : Char) (l : List Char)
    (hc : p c = false) : (c :: l).dropWhile p = c :: l := by
  simp [List.dropWhile, hc]

theorem dropWhile_append_stop (p : Char → Bool) (a b : List Char)
    (hb : b.dropWhile p = b) : (a ++ b).dropWhile p = a.dropWhile p ++ b := by
  induction a with
  | nil => simpa using hb
  | cons c cs ih =>
    cases hc : p c with
    | true =>
      simp only [List.cons_append, List.dropWhile, hc]
      simpa using ih
    | false =>
      simp only [List.cons_append, List.dropWhile, hc]
      simp

/-- `str.strip()` on `a ++ (c :: mid ++ [c']) ++ suf` with non-space `c`,`c'`
and all-space `suf` keeps the middle intact and left-strips `a`. -/
theorem stripList_master (a suf mid : List Char) (c c' : Char)
    (hsuf : ∀ x ∈ suf, pyIsSpace x = true)
    (hc : pyIsSpace c = false) (hc' : pyIsSpace c' = false) :
    stripList (a ++ (c :: (mid ++ [c'])) ++ suf) =
      a.dropWhile pyIsSpace ++ (c :: (mid ++ [c'])) := by
  unfold stripList
  have h1 : ((a ++ (c :: (mid ++ [c'])) ++ suf)).dropWhile pyIsSpace
      = a.dropWhile pyIsSpace ++ ((c :: (mid ++ [c'])) ++ suf) := by
    rw [List.append_assoc]
    exact dropWhile_append_stop _ a _ (by
      rw [show (c :: (mid ++ [c'])) ++ suf = c :: ((mid ++ [c']) ++ suf) from rfl]
      exact dropWhile_cons_false _ c _ hc)
  rw [h1]
  have h2 : (a.dropWhile pyIsSpace ++ ((c :: (mid ++ [c'])) ++ suf)).reverse
      = suf.reverse ++ (c' :: (mid.reverse ++ (c :: (a.dropWhile pyIsSpace).reverse))) := by
    simp
  rw [h2]
  have h3 : (suf.reverse ++
      (c' :: (mid.reverse ++ (c :: (a.dropWhile pyIsSpace).reverse)))).dropWhile pyIsSpace
      = c' :: (mid.reverse ++ (c :: (a.dropWhile pyIsSpace).reverse)) := by
    rw [dropWhile_append_all _ _ _ (fun x hx => hsuf x (List.mem_reverse.mp hx))]
    exact dropWhile_cons_false _ c' _ hc'
  rw [h3]
  simp

theorem ticks_not_prefix (c : Char) (l : List Char) (hc : ¬ c = '`') :
    (['`', '`', '`'] : List Char).isPrefixOf (c :: l) = false := by
  simp only [List.isPrefixOf, Bool.and_eq_false_iff]
  left
  simp [hc]
  intro h
  exact hc h.symm

/-- The naive brace scan returns a whole balanced object whose interior is
scan-neutral. -/
theorem braceScan_obj (body : List Char) (h : scanBal body) :
    braceScan ('\x7b' :: body ++ ['\x7d']) 0 = some ('\x7b' :: body ++ ['\x7d']) := by
  have hstep : braceScan ('\x7b' :: (body ++ ['\x7d'])) 0 =
      (braceScan (body ++ ['\x7d']) (0 + 1)).map ('\x7b' :: ·) := by
    rw [braceScan.eq_def]
    dsimp only
    rw [if_pos rfl]
  rw [show ('\x7b' :: body ++ ['\x7d'] : List Char) = '\x7b' :: (body ++ ['\x7d']) from rfl]
  rw [hstep, h (0 + 1) ['\x7d'] (by omega)]
  have hclose : braceScan ['\x7d'] (0 + 1) = some ['\x7d'] := by
    rw [braceScan.eq_def]
    dsimp only
    rw [if_neg (by decide), if_pos rfl, if_pos (by omega : (0 : Int) + 1 = 1)]
  rw [hclose]
  rfl

/-- `json.loads` inverts the serializer on safe values. -/
theorem jsonLoads_dump (v : Val) (d : List Char) (hsafe : valSafe v = true)
    (hdump : dumpVal v = some d) : jsonLoads ⟨d⟩ = some v := by
  have hp := (parse_complete (d.length + 1)).1 [] d [] v (by simp) hsafe hdump
    (by omega) trivial
  simp only [List.nil_append, List.append_nil] at hp
  unfold jsonLoads
  rw [show (⟨d⟩ : String).data = d from rfl, hp]
  rfl

/-- The cleaning prefix of `extract_first_json_object` (strip, then unwrap a
fenced code block). -/
def extractCleaned (text : String) : String :=
  let cleaned := pyStrip text
  if pyStartsWith "```" cleaned then pyStrip (pyRemoveFirst "json\n" (pyStripSet "`" cleaned))
  else cleaned

theorem extractFirstJsonObject_eq (text : String) :
    extractFirstJsonObject text =
      if text.data.isEmpty then none
      else
        match (extractCleaned text).data.dropWhile (fun c => c ≠ '\x7b') with
        | [] => none
        | l =>
          match braceScan l 0 with
          | none => none
          | some candidate => jsonLoads ⟨candidate⟩ := rfl

theorem dump_obj_shape (kvs : List (String × Val)) (d : List Char)
    (h : dumpVal (.obj kvs) = some d) :
    ∃ body, dumpMembers kvs = some body ∧ d = '\x7b' :: body ++ ['\x7d'] := by
  have h' : (dumpMembers kvs).map (fun body => '\x7b' :: body ++ ['\x7d']) = some d := h
  cases hb : dumpMembers kvs with
  | none =>
    rw [hb] at h'
    exact Option.noConfusion h'
  | some body =>
    rw [hb] at h'
    exact ⟨body, rfl, (Option.some.inj h').symm⟩

theorem stripList_id (c c' : Char) (mid : List Char)
    (hc : pyIsSpace c = false) (hc' : pyIsSpace c' = false) :
    stripList (c :: (mid ++ [c'])) = c :: (mid ++ [c']) := by
  have := stripList_master [] [] mid c c' (by simp) hc hc'
  simpa using this

/-- Cleaning is the identity on a serialized object (plain case). -/
theorem extractCleaned_plain (body : List Char) :
    extractCleaned ⟨'\x7b' :: body ++ ['\x7d']⟩ = ⟨'\x7b' :: body ++ ['\x7d']⟩ := by
  have hstrip : pyStrip ⟨'\x7b' :: body ++ ['\x7d']⟩ = ⟨'\x7b' :: body ++ ['\x7d']⟩ := by
    show (⟨stripList ('\x7b' :: (body ++ ['\x7d']))⟩ : String) = _
    rw [stripList_id '\x7b' '\x7d' body (by decide) (by decide)]
    rfl
  have hstart : pyStartsWith "```" ⟨'\x7b' :: body ++ ['\x7d']⟩ = false := by
    show ("```".data).isPrefixOf ('\x7b' :: (body ++ ['\x7d'])) = false
    rw [show "```".data = ['`', '`', '`'] from by decide]
    exact ticks_not_prefix '\x7b' _ (by decide)
  unfold extractCleaned
  rw [hstrip]
  simp only [hstart, Bool.false_eq_true, if_false]

/-- Cleaning unwraps a fenced ```` ```json ````-block around a serialized
object. -/
theorem extractCleaned_fenced (body : List Char) :
    extractCleaned ⟨"```json\n".data ++ ('\x7b' :: body ++ ['\x7d']) ++ "\n```".data⟩ =
      ⟨'\x7b' :: body ++ ['\x7d']⟩ := by
  have hL : "```json\n".data ++ ('\x7b' :: body ++ ['\x7d']) ++ "\n```".data =
      '`' :: '`' :: '`' :: 'j' :: 's' :: 'o' :: 'n' :: '\n' :: '\x7b' ::
        (body ++ ['\x7d', '\n', '`', '`', '`']) := by
    rw [show "```json\n".data = ['`', '`', '`', 'j', 's', 'o', 'n', '\n'] from by decide,
        show "\n```".data = ['\n', '`', '`', '`'] from by decide]
    simp
  rw [show (⟨"```json\n".data ++ ('\x7b' :: body ++ ['\x7d']) ++ "\n```".data⟩ : String)
      = ⟨'`' :: '`' :: '`' :: 'j' :: 's' :: 'o' :: 'n' :: '\n' :: '\x7b' ::
        (body ++ ['\x7d', '\n', '`', '`', '`'])⟩ from congrArg String.mk hL]
  unfold extractCleaned
  have hmid : ('`' :: '`' :: '`' :: 'j' :: 's' :: 'o' :: 'n' :: '\n' :: '\x7b' ::
      (body ++ ['\x7d', '\n', '`', '`', '`']) : List Char)
      = '`' :: (('`' :: '`' :: 'j' :: 's' :: 'o' :: 'n' :: '\n' :: '\x7b' ::
        (body ++ ['\x7d', '\n', '`', '`'])) ++ ['`']) := by
    simp
  have s1 : stripList ('`' :: '`' :: '`' :: 'j' :: 's' :: 'o' :: 'n' :: '\n' :: '\x7b' ::
      (body ++ ['\x7d', '\n', '`', '`', '`'])) =
      '`' :: '`' :: '`' :: 'j' :: 's' :: 'o' :: 'n' :: '\n' :: '\x7b' ::
        (body ++ ['\x7d', '\n', '`', '`', '`']) := by
    rw [hmid, stripList_id '`' '`' _ (by decide) (by decide)]
  have e1 : pyStrip ⟨'`' :: '`' :: '`' :: 'j' :: 's' :: 'o' :: 'n' :: '\n' :: '\x7b' ::
      (body ++ ['\x7d', '\n', '`', '`', '`'])⟩ =
      ⟨'`' :: '`' :: '`' :: 'j' :: 's' :: 'o' :: 'n' :: '\n' :: '\x7b' ::
        (body ++ ['\x7d', '\n', '`', '`', '`'])⟩ := by
    show (⟨stripList ('`' :: '`' :: '`' :: 'j' :: 's' :: 'o' :: 'n' :: '\n' :: '\x7b' ::
      (body ++ ['\x7d', '\n', '`', '`', '`']))⟩ : String) = _
    rw [s1]
  rw [e1]
  have e2 : pyStartsWith "```" ⟨'`' :: '`' :: '`' :: 'j' :: 's' :: 'o' :: 'n' :: '\n' ::
      '\x7b' :: (body ++ ['\x7d', '\n', '`', '`', '`'])⟩ = true := rfl
  simp only [e2, if_true]
  have s3 : stripSetList ['`'] ('`' :: '`' :: '`' :: 'j' :: 's' :: 'o' :: 'n' :: '\n' ::
      '\x7b' :: (body ++ ['\x7d', '\n', '`', '`', '`'])) =
      'j' :: 's' :: 'o' :: 'n' :: '\n' :: '\x7b' :: (body ++ ['\x7d', '\n']) := by
    unfold stripSetList
    have d1 : ('`' :: '`' :: '`' :: 'j' :: 's' :: 'o' :: 'n' :: '\n' :: '\x7b' ::
        (body ++ ['\x7d', '\n', '`', '`', '`'])).dropWhile (['`'].contains ·) =
        'j' :: 's' :: 'o' :: 'n' :: '\n' :: '\x7b' :: (body ++ ['\x7d', '\n', '`', '`', '`']) := by
      rw [show ('`' :: '`' :: '`' :: 'j' :: 's' :: 'o' :: 'n' :: '\n' :: '\x7b' ::
        (body ++ ['\x7d', '\n', '`', '`', '`']) : List Char) = ['`', '`', '`'] ++
        ('j' :: 's' :: 'o' :: 'n' :: '\n' :: '\x7b' :: (body ++ ['\x7d', '\n', '`', '`', '`']))
        from by simp]
      rw [dropWhile_append_all _ _ _ (by decide)]
      exact dropWhile_cons_false _ 'j' _ (by decide)
    rw [d1]
    have d2 : ('j' :: 's' :: 'o' :: 'n' :: '\n' :: '\x7b' ::
        (body ++ ['\x7d', '\n', '`', '`', '`'])).reverse =
        ['`', '`', '`'] ++ ('\n' :: '\x7d' ::
          (body.reverse ++ ['\x7b', '\n', 'n', 'o', 's', 'j'])) := by
      simp
    rw [d2, dropWhile_append_all _ _ _ (by decide),
        dropWhile_cons_false _ '\n' _ (by decide)]
    simp
  have e3 : pyStripSet "`" ⟨'`' :: '`' :: '`' :: 'j' :: 's' :: 'o' :: 'n' :: '\n' ::
      '\x7b' :: (body ++ ['\x7d', '\n', '`', '`', '`'])⟩ =
      ⟨'j' :: 's' :: 'o' :: 'n' :: '\n' :: '\x7b' :: (body ++ ['\x7d', '\n'])⟩ := by
    show (⟨stripSetList "`".data ('`' :: '`' :: '`' :: 'j' :: 's' :: 'o' :: 'n' :: '\n' ::
      '\x7b' :: (body ++ ['\x7d', '\n', '`', '`', '`']))⟩ : String) = _
    rw [show "`".data = ['`'] from by decide, s3]
  rw [e3]
  have e4 : pyRemoveFirst "json\n" ⟨'j' :: 's' :: 'o' :: 'n' :: '\n' :: '\x7b' ::
      (body ++ ['\x7d', '\n'])⟩ = ⟨'\x7b' :: (body ++ ['\x7d', '\n'])⟩ := rfl
  rw [e4]
  have s5 : stripList ('\x7b' :: (body ++ ['\x7d', '\n'])) = '\x7b' :: (body ++ ['\x7d']) := by
    have := stripList_master [] ['\n'] body '\x7b' '\x7d' (by decide) (by decide) (by decide)
    simpa using this
  show (⟨stripList ('\x7b' :: (body ++ ['\x7d', '\n']))⟩ : String) = _
  rw [s5]
  rfl

/-- Cleaning on prose followed by a serialized object just left-strips
whitespace (no fence is detected when the prose has no backtick). -/
theorem extractCleaned_prose (prose body : List Char)
    (hp : ∀ c ∈ prose, ¬ c = '`') :
    extractCleaned ⟨prose ++ ('\x7b' :: body ++ ['\x7d'])⟩ =
      ⟨prose.dropWhile pyIsSpace ++ ('\x7b' :: (body ++ ['\x7d']))⟩ := by
  have s1 : stripList (prose ++ ('\x7b' :: body ++ ['\x7d'])) =
      prose.dropWhile pyIsSpace ++ ('\x7b' :: (body ++ ['\x7d'])) := by
    have := stripList_master prose [] body '\x7b' '\x7d' (by simp) (by decide) (by decide)
    simpa using this
  have e1 : pyStrip ⟨prose ++ ('\x7b' :: body ++ ['\x7d'])⟩ =
      ⟨prose.dropWhile pyIsSpace ++ ('\x7b' :: (body ++ ['\x7d']))⟩ := by
    show (⟨stripList (prose ++ ('\x7b' :: body ++ ['\x7d']))⟩ : String) = _
    rw [s1]
  have e2 : pyStartsWith "```"
      ⟨prose.dropWhile pyIsSpace ++ ('\x7b' :: (body ++ ['\x7d']))⟩ = false := by
    show ("```".data).isPrefixOf
      (prose.dropWhile pyIsSpace ++ ('\x7b' :: (body ++ ['\x7d']))) = false
    rw [show "```".data = ['`', '`', '`'] from by decide]
    cases hq : prose.dropWhile pyIsSpace with
    | nil =>
      simp only [List.nil_append]
      exact ticks_not_prefix '\x7b' _ (by decide)
    | cons c cs =>
      have hcmem : c ∈ prose := by
        have hsub : List.Sublist (prose.dropWhile pyIsSpace) prose :=
          List.dropWhile_sublist _
        exact hsub.subset (by rw [hq]; exact List.mem_cons_self c cs)
      exact ticks_not_prefix c _ (hp c hcmem)
  unfold extractCleaned
  rw [e1]
  simp only [e2, Bool.false_eq_true, if_false]

/-- Extraction recovers a serialized safe object verbatim. -/
theorem extract_dump_plain (kvs : List (String × Val)) (d : List Char)
    (hsafe : valSafe (.obj kvs) = true) (hdump : dumpVal (.obj kvs) = some d) :
    extractFirstJsonObject ⟨d⟩ = some (.obj kvs) := by
  obtain ⟨body, hb, rfl⟩ := dump_obj_shape kvs d hdump
  have hso : (decide ((kvs.map Prod.fst).Nodup) && membersSafe kvs) = true := hsafe
  rw [Bool.and_eq_true] at hso
  have hscan : scanBal body := (scan_dump (sizeOf kvs)).2.2 kvs body (le_refl _) hso.2 hb
  rw [extractFirstJsonObject_eq]
  rw [show ((⟨'\x7b' :: body ++ ['\x7d']⟩ : String)).data.isEmpty = false from rfl]
  simp only [Bool.false_eq_true, if_false]
  rw [extractCleaned_plain body]
  rw [show ((⟨'\x7b' :: body ++ ['\x7d']⟩ : String)).data = '\x7b' :: (body ++ ['\x7d'])
    from rfl]
  rw [dropWhile_cons_false _ _ _ (by decide)]
  show (match braceScan ('\x7b' :: (body ++ ['\x7d'])) 0 with
        | none => none
        | some candidate => jsonLoads ⟨candidate⟩) = some (Val.obj kvs)
  rw [show braceScan ('\x7b' :: (body ++ ['\x7d'])) 0 = some ('\x7b' :: body ++ ['\x7d'])
    from braceScan_obj body hscan]
  show jsonLoads ⟨'\x7b' :: body ++ ['\x7d']⟩ = some (Val.obj kvs)
  exact jsonLoads_dump _ _ hsafe hdump

/-- Extraction also recovers the object from a fenced code block. -/
theorem extract_dump_fenced (kvs : List (String × Val)) (d : List Char)
    (hsafe : valSafe (.obj kvs) = true) (hdump : dumpVal (.obj kvs) = some d) :
    extractFirstJsonObject ⟨"```json\n".data ++ d ++ "\n```".data⟩ = some (.obj kvs) := by
  obtain ⟨body, hb, rfl⟩ := dump_obj_shape kvs d hdump
  have hplain := extract_dump_plain kvs ('\x7b' :: body ++ ['\x7d']) hsafe hdump
  rw [extractFirstJsonObject_eq] at hplain
  rw [show ((⟨'\x7b' :: body ++ ['\x7d']⟩ : String)).data.isEmpty = false from rfl] at hplain
  simp only [Bool.false_eq_true, if_false] at hplain
  rw [extractCleaned_plain body] at hplain
  rw [extractFirstJsonObject_eq]
  rw [show ((⟨"```json\n".data ++ ('\x7b' :: body ++ ['\x7d']) ++ "\n```".data⟩
    : String)).data.isEmpty = false from rfl]
  simp only [Bool.false_eq_true, if_false]
  rw [extractCleaned_fenced body]
  exact hplain

/-- Extraction also recovers the object after stray prose (no braces, no
backticks in the prose). -/
theorem extract_dump_prose (kvs : List (String × Val)) (d prose : List Char)
    (hp : ∀ c ∈ prose, ¬ c = '\x7b' ∧ ¬ c = '`')
    (hsafe : valSafe (.obj kvs) = true) (hdump : dumpVal (.obj kvs) = some d) :
    extractFirstJsonObject ⟨prose ++ d⟩ = some (.obj kvs) := by
  obtain ⟨body, hb, rfl⟩ := dump_obj_shape kvs d hdump
  have hplain := extract_dump_plain kvs ('\x7b' :: body ++ ['\x7d']) hsafe hdump
  rw [extractFirstJsonObject_eq] at hplain
  rw [show ((⟨'\x7b' :: body ++ ['\x7d']⟩ : String)).data.isEmpty = false from rfl] at hplain
  simp only [Bool.false_eq_true, if_false] at hplain
  rw [extractCleaned_plain body] at hplain
  rw [show ((⟨'\x7b' :: body ++ ['\x7d']⟩ : String)).data = '\x7b' :: (body ++ ['\x7d'])
    from rfl] at hplain
  rw [dropWhile_cons_false _ _ _ (by decide)] at hplain
  rw [extractFirstJsonObject_eq]
  have hne : ((⟨prose ++ ('\x7b' :: body ++ ['\x7d'])⟩ : String)).data.isEmpty = false := by
    show (prose ++ ('\x7b' :: body ++ ['\x7d'])).isEmpty = false
    cases prose with
    | nil => rfl
    | cons c cs => rfl
  rw [hne]
  simp only [Bool.false_eq_true, if_false]
  rw [extractCleaned_prose prose body (fun c hc => (hp c hc).2)]
  rw [show ((⟨prose.dropWhile pyIsSpace ++ ('\x7b' :: (body ++ ['\x7d']))⟩ : String)).data
    = prose.dropWhile pyIsSpace ++ ('\x7b' :: (body ++ ['\x7d'])) from rfl]
  have hdw : (prose.dropWhile pyIsSpace ++
      ('\x7b' :: (body ++ ['\x7d']))).dropWhile (fun c => c ≠ '\x7b')
      = '\x7b' :: (body ++ ['\x7d']) := by
    rw [dropWhile_append_all _ _ _ ?hall]
    · exact dropWhile_cons_false _ _ _ (by decide)
    case hall =>
      intro c hc
      have hsub : List.Sublist (prose.dropWhile pyIsSpace) prose :=
        List.dropWhile_sublist _
      exact decide_eq_true (hp c (hsub.subset hc)).1
  rw [hdw]
  exact hplain

theorem toolCallsValidate_map (tcs : List ToolCall) :
    toolCallsValidate (tcs.map (fun tc =>
      Val.obj [("name", .str tc.name), ("arguments", .obj tc.arguments)])) = some tcs := by
  induction tcs with
  | nil => rfl
  | cons tc rest ih =>
    have h1 : toolCallValidate
        (.obj [("name", .str tc.name), ("arguments", .obj tc.arguments)]) = some tc := rfl
    simp only [List.map_cons, toolCallsValidate, h1, ih, Option.bind_eq_bind,
      Option.some_bind]
    rfl

/-- Pydantic validation inverts `model_dump` on plans that satisfy the
model validator. -/
theorem agentPlanValidate_dump (p : AgentPlan) (hwf : planWfB p = true) :
    agentPlanValidate (planDumpVal p) = some p := by
  obtain ⟨t, tcs, rsn⟩ := p
  simp only [planWfB, Bool.and_eq_true, Bool.or_eq_true, Bool.not_eq_true',
    decide_eq_true_eq, decide_eq_false_iff_not] at hwf
  obtain ⟨⟨ht, hplan⟩, href⟩ := hwf
  rcases ht with rfl | rfl
  · have hemp : tcs.isEmpty = false := by
      rcases hplan with h | h
      · exact absurd rfl h
      · exact h
    cases rsn with
    | none =>
      have hstep : agentPlanValidate (planDumpVal ⟨"plan", tcs, none⟩) =
          (match toolCallsValidate (tcs.map (fun tc =>
              Val.obj [("name", .str tc.name), ("arguments", .obj tc.arguments)])),
            (some none : Option (Option String)) with
          | some tcs', some rsn' =>
            if "plan" = "plan" && tcs'.isEmpty then none
            else if "plan" = "refusal" && (rsn'.getD "").isEmpty then none
            else some ⟨"plan", tcs', rsn'⟩
          | _, _ => none) := rfl
      rw [hstep, toolCallsValidate_map]
      show (if "plan" = "plan" && tcs.isEmpty then none
        else if "plan" = "refusal" && ((none : Option String).getD "").isEmpty then none
        else some (⟨"plan", tcs, none⟩ : AgentPlan)) = some ⟨"plan", tcs, none⟩
      rw [hemp]
      rfl
    | some r =>
      have hstep : agentPlanValidate (planDumpVal ⟨"plan", tcs, some r⟩) =
          (match toolCallsValidate (tcs.map (fun tc =>
              Val.obj [("name", .str tc.name), ("arguments", .obj tc.arguments)])),
            (some (some r) : Option (Option String)) with
          | some tcs', some rsn' =>
            if "plan" = "plan" && tcs'.isEmpty then none
            else if "plan" = "refusal" && (rsn'.getD "").isEmpty then none
            else some ⟨"plan", tcs', rsn'⟩
          | _, _ => none) := rfl
      rw [hstep, toolCallsValidate_map]
      show (if "plan" = "plan" && tcs.isEmpty then none
        else if "plan" = "refusal" && ((some r : Option String).getD "").isEmpty then none
        else some (⟨"plan", tcs, some r⟩ : AgentPlan)) = some ⟨"plan", tcs, some r⟩
      rw [hemp]
      rfl
  · have hrs : ((rsn.getD "") : String).isEmpty = false := by
      rcases href with h | h
      · exact absurd rfl h
      · exact h
    cases rsn with
    | none =>
      exfalso
      rw [show ((none : Option String).getD "") = "" from rfl] at hrs
      exact absurd hrs (by decide)
    | some r =>
      have hstep : agentPlanValidate (planDumpVal ⟨"refusal", tcs, some r⟩) =
          (match toolCallsValidate (tcs.map (fun tc =>
              Val.obj [("name", .str tc.name), ("arguments", .obj tc.arguments)])),
            (some (some r) : Option (Option String)) with
          | some tcs', some rsn' =>
            if "refusal" = "plan" && tcs'.isEmpty then none
            else if "refusal" = "refusal" && (rsn'.getD "").isEmpty then none
            else some ⟨"refusal", tcs', rsn'⟩
          | _, _ => none) := rfl
      rw [hstep, toolCallsValidate_map]
      show (if "refusal" = "plan" && tcs.isEmpty then none
        else if "refusal" = "refusal" && ((some r : Option String).getD "").isEmpty then none
        else some (⟨"refusal", tcs, some r⟩ : AgentPlan)) = some ⟨"refusal", tcs, some r⟩
      rw [hrs]
      rfl

theorem planOnce_of_extract (raw : String) (p : AgentPlan) (kvs : List (String × Val))
    (hext : extractFirstJsonObject raw = some (.obj kvs))
    (hval : agentPlanValidate (.obj kvs) = some p) :
    planOnce raw = p := by
  unfold planOnce
  rw [hext]
  show (match agentPlanValidate (.obj kvs) with
        | some p' => p'
        | none => planRefusalSchema) = p
  rw [hval]

/-- C9 (amended).  A valid plan whose strings are brace-free (and whose
argument mappings have distinct keys — `valSafe` of its dump) serializes
and re-extracts to an equal plan, also when wrapped in a fenced code block
or preceded by stray prose containing no brace and no backtick.  The
original claim is false without the brace-freeness proviso: see
`plan_roundtrip_counterexample`. -/
theorem plan_serialization_roundtrip (p : AgentPlan) (s prose : String)
    (hwf : planWfB p = true)
    (hsafe : valSafe (planDumpVal p) = true)
    (hdump : dumpPlanText p = some s)
    (hprose : ∀ c ∈ prose.data, ¬ c = '\x7b' ∧ ¬ c = '`') :
    planOnce s = p ∧
    planOnce ⟨"```json\n".data ++ s.data ++ "\n```".data⟩ = p ∧
    planOnce ⟨prose.data ++ s.data⟩ = p := by
  cases hdv : dumpVal (planDumpVal p) with
  | none =>
    rw [show dumpPlanText p = (dumpVal (planDumpVal p)).map (fun l => (⟨l⟩ : String))
      from rfl, hdv] at hdump
    exact Option.noConfusion hdump
  | some d =>
    rw [show dumpPlanText p = (dumpVal (planDumpVal p)).map (fun l => (⟨l⟩ : String))
      from rfl, hdv] at hdump
    obtain rfl : (⟨d⟩ : String) = s := Option.some.inj hdump
    exact ⟨planOnce_of_extract _ p _ (extract_dump_plain _ d hsafe hdv)
        (agentPlanValidate_dump p hwf),
      planOnce_of_extract _ p _ (extract_dump_fenced _ d hsafe hdv)
        (agentPlanValidate_dump p hwf),
      planOnce_of_extract _ p _ (extract_dump_prose _ d prose.data hprose hsafe hdv)
        (agentPlanValidate_dump p hwf)⟩

/-- A valid refusal plan whose reason is the single character `}`. -/
def planBraceReason : AgentPlan := ⟨"refusal", [], some "\x7d"⟩

/-- C9 counterexample: for `planBraceReason` the serialized text is valid
JSON, but the brace-counting extraction truncates at the brace inside the
string literal, `json.loads` fails, and `_plan_once` degrades to the fixed
non-JSON refusal — not a plan equal to the original.  This refutes the
unconditional round-trip wording. -/
theorem plan_roundtrip_counterexample :
    planWfB planBraceReason = true ∧
    dumpPlanText planBraceReason =
      some "\x7b\"type\": \"refusal\", \"tool_calls\": [], \"reason\": \"\x7d\"\x7d" ∧
    planOnce "\x7b\"type\": \"refusal\", \"tool_calls\": [], \"reason\": \"\x7d\"\x7d" =
      planRefusalNonJson ∧
    planRefusalNonJson ≠ planBraceReason := by
  refine ⟨rfl, rfl, rfl, ?_⟩
  intro h
  exact absurd (congrArg AgentPlan.reason h) (by decide)

/-- A concrete safe plan for the round-trip witness. -/
def roundtripWitnessPlan : AgentPlan :=
  ⟨"plan", [⟨"find_available_slots", [("specialty", .str "cardiology")]⟩], none⟩

/-- Its serialization. -/
def roundtripWitnessText : String :=
  "\x7b\"type\": \"plan\", \"tool_calls\": [\x7b\"name\": \"find_available_slots\", \"arguments\": \x7b\"specialty\": \"cardiology\"\x7d\x7d], \"reason\": null\x7d"

theorem plan_serialization_roundtrip_witness :
    planOnce roundtripWitnessText = roundtripWitnessPlan ∧
    planOnce ⟨"```json\n".data ++ roundtripWitnessText.data ++ "\n```".data⟩ =
      roundtripWitnessPlan ∧
    planOnce ⟨"Here is the plan: ".data ++ roundtripWitnessText.data⟩ =
      roundtripWitnessPlan :=
  plan_serialization_roundtrip roundtripWitnessPlan roundtripWitnessText
    "Here is the plan: " rfl rfl rfl (by decide)
